import Mathlib

/-!
# UWSN simulation: routing-decision engine

A shallow embedding of the routing core of `src/src/components/SimulationModel.js`
(geometry helpers, `calculateNeighbors`, `selectMPRs`, `selectNextHopNodes`), of its
node field (`generateNodes`, the depth pass, the view-mode and energy updates), of its
packet update, and of the node-count input of `src/src/components/Simulation.js`, with
theorems about them.

Modelling conventions.

* JavaScript numbers are elements of an arbitrary linearly ordered field `α`
  (exact arithmetic: no rounding, no `NaN`, no infinities). `Math.sqrt` is a
  parameter `sqrt : α → α` of every function that reaches it, so each theorem holds
  for every square-root function, the real one included.
* A position `[x, y, z]` is a `Vec3`; `pos[0]`, `pos[1]`, `pos[2]` are the fields
  `x`, `y`, `z`.
* Arrays are lists; a `Set` or `Map` is a list in insertion order without repeated
  elements or keys.
* Reading a property of `arr[idx]` with `idx` out of range throws a `TypeError`;
  the functions that do so return `Except JsError`.
* The `while` loop of `selectMPRs` runs on fuel: one unit per execution of the loop
  body, `JsError.outOfFuel` when the body is due and no fuel is left.
* The node objects of a list are distinct objects (no aliasing between entries).
* The calls of `Math.random()` and `Date.now()` are inputs: a stream `rand` of draws
  and a time `now`.
-/

namespace UWSN

/-- Failure outcomes of the embedded code. -/
inductive JsError where
  | typeError
  | outOfFuel
  deriving DecidableEq, Repr

deriving instance DecidableEq for Except

/-- A three-element numeric array `[x, y, z]`. -/
structure Vec3 (α : Type) where
  x : α
  y : α
  z : α
  deriving DecidableEq, Repr

/-- The node object built by `generateNodes`. -/
structure Node (α : Type) where
  id : Nat
  position : Vec3 α
  isActive : Bool
  lastActive : Nat
  color : String
  energy : α
  depth : α
  velocity : Vec3 α
  mprs : List Nat
  neighbors : List Nat
  twoHopNeighbors : List Nat
  deriving DecidableEq, Repr

section Geometry

variable {α : Type} [LinearOrderedField α]

/-- The constant `sinkPosition = [0, 0, 0]`. -/
def sinkPosition : Vec3 α := ⟨0, 0, 0⟩

/-- The function `calculateDistance(pos1, pos2)`. -/
def calculateDistance (sqrt : α → α) (pos1 pos2 : Vec3 α) : α :=
  sqrt ((pos1.x - pos2.x) ^ 2 + (pos1.y - pos2.y) ^ 2 + (pos1.z - pos2.z) ^ 2)

/-- The function `calculateVector(pos1, pos2)`. -/
def calculateVector (pos1 pos2 : Vec3 α) : Vec3 α :=
  ⟨pos2.x - pos1.x, pos2.y - pos1.y, pos2.z - pos1.z⟩

/-- The function `dotProduct(vec1, vec2)`. -/
def dotProduct (vec1 vec2 : Vec3 α) : α :=
  vec1.x * vec2.x + vec1.y * vec2.y + vec1.z * vec2.z

/-- The function `normalizeVector(vec)`. -/
def normalizeVector (sqrt : α → α) (vec : Vec3 α) : Vec3 α :=
  let length := sqrt (vec.x * vec.x + vec.y * vec.y + vec.z * vec.z)
  ⟨vec.x / length, vec.y / length, vec.z / length⟩

end Geometry

section Collections

/-- The method `Set.prototype.add`: append unless already present. -/
def setAdd (s : List Nat) (x : Nat) : List Nat :=
  if x ∈ s then s else s ++ [x]

/-- The method `Set.prototype.delete`. -/
def setDelete (s : List Nat) (x : Nat) : List Nat :=
  s.filter (fun y => y ≠ x)

/-- The constructor call `new Set(array)`. -/
def setOfArray (l : List Nat) : List Nat :=
  l.foldl setAdd []

/-- The two statements `if (!map.has(key)) map.set(key, [])` and
`map.get(key).push(v)` on a `Map` from numbers to arrays. -/
def reachMapPush (m : List (Nat × List Nat)) (key v : Nat) : List (Nat × List Nat) :=
  if m.any (fun e => e.1 == key) then
    m.map (fun e => if e.1 = key then (e.1, e.2 ++ [v]) else e)
  else
    m ++ [(key, [v])]

/-- The method `Array.prototype.sort(compare)` for a consistent comparator: the stable sort
that puts `a` before `b` when `compare(a, b) <= 0`. -/
def jsSort {α β : Type} [LinearOrderedField α] (compare : β → β → α) (l : List β) : List β :=
  l.insertionSort (fun a b => compare a b ≤ 0)

end Collections

section Topology

variable {α : Type} [LinearOrderedField α]

/-- Reading `nodes[idx]` in order to access one of its properties. -/
def lookupNode (nodes : List (Node α)) (idx : Nat) : Except JsError (Node α) :=
  match nodes[idx]? with
  | some n => .ok n
  | none => .error .typeError

/-- Inner loop of the first pass of `calculateNeighbors`: the array `neighbors`
built for the node `ni` at index `i`. -/
def oneHopNeighbors (sqrt : α → α) (nodes : List (Node α)) (range : α)
    (i : Nat) (ni : Node α) : List Nat :=
  nodes.enum.filterMap (fun jn =>
    if i ≠ jn.1 then
      let distance := calculateDistance sqrt ni.position jn.2.position
      if distance ≤ range then some jn.1 else none
    else none)

/-- Body of the second pass of `calculateNeighbors` for the node `ni` at index `i`:
the contents of the set `twoHopNeighbors`. -/
def twoHopNeighborsOf (nodes : List (Node α)) (i : Nat) (ni : Node α) :
    Except JsError (List Nat) :=
  ni.neighbors.foldlM (fun acc neighborIdx => do
    let neighborNode ← lookupNode nodes neighborIdx
    pure (neighborNode.neighbors.foldl (fun acc twoHopIdx =>
      if twoHopIdx ≠ i ∧ ¬ twoHopIdx ∈ ni.neighbors then setAdd acc twoHopIdx else acc) acc)) []

/-- First pass of `calculateNeighbors`: every node gets its `neighbors` array. -/
def assignNeighbors (sqrt : α → α) (nodes : List (Node α)) (range : α) : List (Node α) :=
  nodes.enum.map (fun ini =>
    { ini.2 with neighbors := oneHopNeighbors sqrt nodes range ini.1 ini.2 })

/-- Second pass of `calculateNeighbors`: every node gets its `twoHopNeighbors` array. -/
def assignTwoHopNeighbors (nodes : List (Node α)) : Except JsError (List (Node α)) :=
  nodes.enum.mapM (fun ini => do
    let twoHop ← twoHopNeighborsOf nodes ini.1 ini.2
    pure { ini.2 with twoHopNeighbors := twoHop })

/-- The function `calculateNeighbors(nodes, range)`. -/
def calculateNeighbors (sqrt : α → α) (nodes : List (Node α)) (range : α) :
    Except JsError (List (Node α)) :=
  assignTwoHopNeighbors (assignNeighbors sqrt nodes range)

end Topology

section MPR

variable {α : Type}

/-- First step of `selectMPRs` for the node `node` at index `i`: the map
`uniqueReachMap` from a 2-hop index to the 1-hop neighbors reaching it. -/
def buildReachMap (nodes : List (Node α)) (i : Nat) (node : Node α) :
    Except JsError (List (Nat × List Nat)) :=
  node.neighbors.foldlM (fun m neighborIdx => do
    let neighbor ← lookupNode nodes neighborIdx
    pure (neighbor.neighbors.foldl (fun m potentialTwoHopIdx =>
      if ¬ potentialTwoHopIdx ∈ node.neighbors ∧ potentialTwoHopIdx ≠ i then
        reachMapPush m potentialTwoHopIdx neighborIdx
      else m) m)) []

/-- The `uniqueReachMap.forEach` step: a neighbor that alone reaches some 2-hop index
is pushed onto `mprs` and that index is deleted from the uncovered set. The state is
the pair `(mprs, uncoveredTwoHopNeighbors)`. -/
def forcedStep (reachMap : List (Nat × List Nat)) (uncovered : List Nat) :
    List Nat × List Nat :=
  reachMap.foldl (fun st entry =>
    match entry.2 with
    | [only] => (st.1 ++ [only], setDelete st.2 entry.1)
    | _ => st) ([], uncovered)

/-- The `coverage` counter computed for one candidate neighbor. -/
def coverageOf (neighbor : Node α) (uncovered : List Nat) : Nat :=
  neighbor.neighbors.foldl (fun coverage potentialTwoHopIdx =>
    if potentialTwoHopIdx ∈ uncovered then coverage + 1 else coverage) 0

/-- The `node.neighbors.forEach` search inside the `while` loop. The state is the pair
`(bestNeighbor, maxCoverage)`; `none` stands for the initial `bestNeighbor = -1`. -/
def findBestNeighbor (nodes : List (Node α)) (node : Node α) (mprs uncovered : List Nat) :
    Except JsError (Option Nat × Nat) :=
  node.neighbors.foldlM (fun st neighborIdx =>
    if ¬ neighborIdx ∈ mprs then do
      let neighbor ← lookupNode nodes neighborIdx
      let coverage := coverageOf neighbor uncovered
      if coverage > st.2 then pure (some neighborIdx, coverage) else pure st
    else pure st) (none, 0)

/-- The `while (uncoveredTwoHopNeighbors.size > 0)` loop, on fuel. -/
def greedyLoop (nodes : List (Node α)) (node : Node α) :
    Nat → List Nat → List Nat → Except JsError (List Nat)
  | 0, mprs, uncovered =>
    if uncovered.length > 0 then .error .outOfFuel else .ok mprs
  | fuel + 1, mprs, uncovered =>
    if uncovered.length > 0 then do
      let best ← findBestNeighbor nodes node mprs uncovered
      match best.1 with
      | some bestNeighbor => do
        let bestNeighborNode ← lookupNode nodes bestNeighbor
        greedyLoop nodes node fuel (mprs ++ [bestNeighbor])
          (bestNeighborNode.neighbors.foldl setDelete uncovered)
      | none => pure mprs
    else pure mprs

/-- Body of the outer loop of `selectMPRs`: the array `mprs` computed for the node
`node` at index `i`. -/
def selectMPRsFor (fuel : Nat) (nodes : List (Node α)) (i : Nat) (node : Node α) :
    Except JsError (List Nat) :=
  if node.twoHopNeighbors.length > 0 then do
    let uncovered := setOfArray node.twoHopNeighbors
    let uniqueReachMap ← buildReachMap nodes i node
    let st := forcedStep uniqueReachMap uncovered
    greedyLoop nodes node fuel st.1 st.2
  else pure []

/-- The function `selectMPRs(nodes)`; `fuel` bounds the number of executions of the
body of each `while` loop. -/
def selectMPRs (fuel : Nat) (nodes : List (Node α)) : Except JsError (List (Node α)) :=
  nodes.enum.mapM (fun ini => do
    let mprs ← selectMPRsFor fuel nodes ini.1 ini.2
    pure { ini.2 with mprs := mprs })

end MPR

section Routing

variable {α : Type} [LinearOrderedField α]

/-- The function `selectNextHopNodes(sourceNode, nodes, routingProtocol)`. -/
def selectNextHopNodes (sqrt : α → α) (sourceNode : Node α) (nodes : List (Node α))
    (routingProtocol : String) : List (Node α) :=
  match routingProtocol with
  | "VBF" =>
    let pipeRadius : α := 50
    let sourceToSinkVector := calculateVector sourceNode.position sinkPosition
    let normalizedVector := normalizeVector sqrt sourceToSinkVector
    nodes.filter (fun node =>
      if node.id = sourceNode.id ∨ node.energy < 10 then false
      else
        let sourceToCandidateVector := calculateVector sourceNode.position node.position
        let projectionLength := dotProduct sourceToCandidateVector normalizedVector
        if projectionLength ≤ 0 then false
        else
          let projectionPoint : Vec3 α :=
            ⟨sourceNode.position.x + normalizedVector.x * projectionLength,
             sourceNode.position.y + normalizedVector.y * projectionLength,
             sourceNode.position.z + normalizedVector.z * projectionLength⟩
          let distanceToPipe := calculateDistance sqrt node.position projectionPoint
          decide (distanceToPipe ≤ pipeRadius))
  | "HHVBF" =>
    nodes.filter (fun node =>
      if node.id = sourceNode.id ∨ node.energy < 10 then false
      else
        let distance := calculateDistance sqrt sourceNode.position node.position
        if distance < 20 ∨ distance > 150 then false
        else
          let distanceToSink := calculateDistance sqrt node.position sinkPosition
          let sourceDistanceToSink := calculateDistance sqrt sourceNode.position sinkPosition
          decide (distanceToSink < sourceDistanceToSink))
  | "DBR" =>
    nodes.filter (fun node =>
      if node.id = sourceNode.id ∨ node.energy < 10 then false
      else decide (node.depth < sourceNode.depth))
  | "EEDBR" =>
    jsSort (fun a b =>
        let weightA := (100 - a.depth) * 0.7 + a.energy * 0.3
        let weightB := (100 - b.depth) * 0.7 + b.energy * 0.3
        weightB - weightA)
      (nodes.filter (fun node =>
        if node.id = sourceNode.id ∨ node.energy < 10 then false
        else decide (node.depth < sourceNode.depth)))
  | "OLSR" =>
    let distanceToSink := calculateDistance sqrt sourceNode.position sinkPosition
    if distanceToSink < 100 then []
    else
      let fallback :=
        let neighbors := (sourceNode.neighbors.map (fun neighborId =>
          nodes.find? (fun node => node.id == neighborId))).filterMap
            (fun node => node.filter (fun n => decide (n.energy > 10)))
        jsSort (fun a b =>
          let distA := calculateDistance sqrt a.position sinkPosition
          let distB := calculateDistance sqrt b.position sinkPosition
          distA - distB) neighbors
      if sourceNode.mprs.length > 0 then
        let mprNodes := (sourceNode.mprs.map (fun mprId =>
          nodes.find? (fun node => node.id == mprId))).filterMap
            (fun node => node.filter (fun n => decide (n.energy > 20)))
        if mprNodes.length > 0 then
          jsSort (fun a b =>
            let distA := calculateDistance sqrt a.position sinkPosition
            let distB := calculateDistance sqrt b.position sinkPosition
            let scoreA := distA * 0.7 - a.energy * 0.3
            let scoreB := distB * 0.7 - b.energy * 0.3
            scoreA - scoreB) mprNodes
        else fallback
      else fallback
  | _ =>
    nodes.filter (fun node => node.id ≠ sourceNode.id ∧ node.energy > 10)

/-- The EEDBR ranking score as the specification writes it:
`0.7*(100 - depth) + 0.3*energy`. -/
def eedbrScore (n : Node α) : α :=
  0.7 * (100 - n.depth) + 0.3 * n.energy

end Routing

section Field

variable {α : Type} [LinearOrderedField α]

/-- The function `generateNodes(count)`. The calls of `Math.random()` are the values
`rand 0`, `rand 1`, ... in the order of the calls: six per node (depth, position x,
position y, velocity x, y and z). The count is an integer, as `parseInt` supplies it. -/
def generateNodes (rand : Nat → α) (count : Int) : List (Node α) :=
  let xSpread : α := 300
  let ySpread : α := 300
  let zMin : α := -250
  let zMax : α := -30
  (List.range count.toNat).map (fun i =>
    let depth := zMin + (rand (6 * i) * 0.7 + 0.3) * (zMax - zMin)
    { id := i,
      position := ⟨rand (6 * i + 1) * xSpread - xSpread / 2,
        rand (6 * i + 2) * ySpread - ySpread / 2, depth⟩,
      isActive := false,
      lastActive := 0,
      color := "#e74c3c",
      energy := 100,
      depth := 0,
      velocity := ⟨(rand (6 * i + 3) - 0.5) * 0.1, (rand (6 * i + 4) - 0.5) * 0.1,
        (rand (6 * i + 5) - 0.5) * 0.05⟩,
      mprs := [],
      neighbors := [],
      twoHopNeighbors := [] })

/-- The function `calculateNodeDepth(position)`. -/
def calculateNodeDepth (position : Vec3 α) : α :=
  |position.y|

/-- The effect on `nodeCount` of the component `SimulationModel`: `generateNodes`
followed by the pass that sets every `depth`; the result is the new `nodes` state. -/
def initializeNodes (rand : Nat → α) (nodeCount : Int) : List (Node α) :=
  (generateNodes rand nodeCount).map (fun node =>
    { node with depth := calculateNodeDepth node.position })

/-- The effect on `viewMode` of the component `SimulationModel`: the new `nodes` state
for the previous one. -/
def applyViewMode (viewMode : String) (prevNodes : List (Node α)) : List (Node α) :=
  if viewMode = "2D" then
    prevNodes.map (fun node =>
      { node with
        position := ⟨node.position.x, node.position.y, -20⟩,
        depth := 20 })
  else prevNodes

/-- The handler `onChange` of the input "Number of Nodes" in `Simulation.js`:
`setNodes(parseInt(e.target.value) || 1)`. The argument is the result of `parseInt`,
`none` for `NaN`; the result is the new node count. -/
def nodeCountInput (parsed : Option Int) : Int :=
  match parsed with
  | some n => if n = 0 then 1 else n
  | none => 1

/-- The callback of `prevNodes.map` in the energy interval of `SimulationModel`, for
one node: `random` is the value of its call of `Math.random()` and `now` the value of
`Date.now()`. -/
def energyTickNode (speedFactor random : α) (now : Nat) (node : Node α) : Node α :=
  let newEnergy := node.energy - (0.01 * speedFactor)
  if random < 0.3 * speedFactor ∧ ¬ node.isActive ∧ newEnergy > 20 then
    { node with isActive := true, lastActive := now, energy := max 0 newEnergy }
  else
    { node with energy := max 0 newEnergy }

/-- The update `setNodes(prevNodes => prevNodes.map(...))` of the energy interval, with
`speedFactor = simulationSpeed / 50`; `rand i` is the random draw for the node at
index `i`. -/
def energyTick (simulationSpeed : α) (rand : Nat → α) (now : Nat)
    (prevNodes : List (Node α)) : List (Node α) :=
  let speedFactor := simulationSpeed / 50
  prevNodes.enum.map (fun ini => energyTickNode speedFactor (rand ini.1) now ini.2)

end Field

section Packets

/-- The packet object built by the two emission sites of `SimulationModel`; the field
`targetId` is absent on packets sent to the sink. Times are in milliseconds. -/
structure Packet (α : Type) where
  id : String
  startPos : Vec3 α
  endPos : Vec3 α
  progress : α
  color : String
  size : α
  sourceId : Nat
  targetId : Option Nat
  createdAt : α
  deriving DecidableEq, Repr

variable {α : Type} [LinearOrderedField α]

/-- The value `newProgress` computed for one packet in the packet update of the frame
callback; a `createdAt` of `0` is falsy, so `packet.createdAt || now` is `now`. -/
def newProgress (now : α) (packet : Packet α) : α :=
  let elapsed := now - (if packet.createdAt = 0 then now else packet.createdAt)
  let duration : α := 3000
  min (elapsed / duration) 1

/-- The packet update of the frame callback, `setPackets(prev => prev.map(...)
.filter(...))`. The component prop `simulationSpeed` is in scope there and is not
read. -/
def updatePackets (_simulationSpeed : α) (now : α) (prev : List (Packet α)) :
    List (Packet α) :=
  (prev.map (fun packet => { packet with progress := newProgress now packet })).filter
    (fun packet => decide (packet.progress < 1))

end Packets

section RoutingSpec

variable {α : Type} [LinearOrderedField α]

/-- The OLSR ranking score as the specification writes it:
`0.7*distanceToSink - 0.3*energy`. -/
def olsrScore (sqrt : α → α) (n : Node α) : α :=
  0.7 * calculateDistance sqrt n.position sinkPosition - 0.3 * n.energy

/-- The nodes that a list of ids resolves to: for each id, in order, the first node of
the list carrying it, if any. -/
def resolveIds (nodes : List (Node α)) (ids : List Nat) : List (Node α) :=
  ids.filterMap (fun k => nodes.find? (fun node => node.id == k))

/-- The projection of the source-to-candidate vector onto the unit source-to-sink
vector, as the specification of VBF describes it. -/
def vbfProjection (sqrt : α → α) (sourceNode node : Node α) : α :=
  dotProduct (calculateVector sourceNode.position node.position)
    (normalizeVector sqrt (calculateVector sourceNode.position sinkPosition))

/-- The point of the source-sink line onto which a candidate projects. -/
def vbfProjectedPoint (sqrt : α → α) (sourceNode node : Node α) : Vec3 α :=
  let unit := normalizeVector sqrt (calculateVector sourceNode.position sinkPosition)
  ⟨sourceNode.position.x + unit.x * vbfProjection sqrt sourceNode node,
    sourceNode.position.y + unit.y * vbfProjection sqrt sourceNode node,
    sourceNode.position.z + unit.z * vbfProjection sqrt sourceNode node⟩

/-- The HHVBF branch of `selectNextHopNodes` with the value of its constant
`pipeRadius` (70 in the source) as a parameter; the branch declares the constant and
never reads it. -/
def selectNextHopNodesHHVBF (_pipeRadius : α) (sqrt : α → α) (sourceNode : Node α)
    (nodes : List (Node α)) : List (Node α) :=
  nodes.filter (fun node =>
    if node.id = sourceNode.id ∨ node.energy < 10 then false
    else
      let distance := calculateDistance sqrt sourceNode.position node.position
      if distance < 20 ∨ distance > 150 then false
      else
        let distanceToSink := calculateDistance sqrt node.position sinkPosition
        let sourceDistanceToSink := calculateDistance sqrt sourceNode.position sinkPosition
        decide (distanceToSink < sourceDistanceToSink))

end RoutingSpec

section Frames

variable {α : Type} [LinearOrderedField α]

/-- What one run of the frame callback of `SimulationModel` reads from outside the
packet list: the component state and props it sees, the position of the mounted mesh
of each node id (`nodeRefs[id].ref.current.position`, `none` when not mounted), and the
values of its calls of `Math.random()` and `Date.now()`. The indices `sourceIdx`,
`targetIdx`, `colorIdx` and `sinkSourceIdx` are the values of
`Math.floor(Math.random() * length)`, `targetIdx` the one on leaving the `do ... while`
loop. -/
structure FrameInput (α : Type) where
  isSimulating : Bool
  nodes : List (Node α)
  refPositions : Nat → Option (Vec3 α)
  emitRandom : α
  sourceIdx : Nat
  targetIdx : Nat
  colorIdx : Nat
  packetIdNow : Nat
  packetCreatedAt : α
  sinkRandom : α
  sinkSourceIdx : Nat
  sinkIdNow : Nat
  sinkCreatedAt : α
  now : α

/-- The packet object of the first emission site (between two nodes). An index outside
`colors` gives the `undefined` color, written as the empty string. -/
def nodePacket (inp : FrameInput α) : Except JsError (Packet α) := do
  let sourceNode ← lookupNode inp.nodes inp.sourceIdx
  let targetNode ← lookupNode inp.nodes inp.targetIdx
  let startPos := (inp.refPositions sourceNode.id).getD sourceNode.position
  let endPos := (inp.refPositions targetNode.id).getD targetNode.position
  let colors := ["#FF0000", "#FFFF00", "#00FF00", "#FF00FF", "#00FFFF"]
  let color := (colors[inp.colorIdx]?).getD ""
  pure { id := "packet-" ++ toString inp.packetIdNow,
         startPos := startPos,
         endPos := endPos,
         progress := 0,
         color := color,
         size := 3,
         sourceId := sourceNode.id,
         targetId := some targetNode.id,
         createdAt := inp.packetCreatedAt }

/-- The packet object of the second emission site (to the sink). -/
def sinkPacket (inp : FrameInput α) : Except JsError (Packet α) := do
  let sourceNode ← lookupNode inp.nodes inp.sinkSourceIdx
  let startPos := (inp.refPositions sourceNode.id).getD sourceNode.position
  pure { id := "sink-packet-" ++ toString inp.sinkIdNow,
         startPos := startPos,
         endPos := sinkPosition,
         progress := 0,
         color := "#FF00FF",
         size := 3,
         sourceId := sourceNode.id,
         targetId := none,
         createdAt := inp.sinkCreatedAt }

/-- The first emission of the frame callback: the gate reads `packets.length`, the
update `setPackets(prev => [...prev, packet])` is applied to `prev`. -/
def emitNodePacket (inp : FrameInput α) (packets prev : List (Packet α)) :
    Except JsError (List (Packet α)) :=
  if packets.length < 10 ∧ inp.emitRandom < 0.05 then
    if inp.nodes.length ≥ 2 then do
      let packet ← nodePacket inp
      pure (prev ++ [packet])
    else pure prev
  else pure prev

/-- The second emission of the frame callback, to the sink. -/
def emitSinkPacket (inp : FrameInput α) (packets prev : List (Packet α)) :
    Except JsError (List (Packet α)) :=
  if inp.sinkRandom < 0.03 ∧ inp.nodes.length > 0 ∧ packets.length < 15 then do
    let packet ← sinkPacket inp
    pure (prev ++ [packet])
  else pure prev

/-- One run of the frame callback as a step on the live packet list: `packets` is the
list the callback reads (`packets.length` in both gates) and the list its three
`setPackets` updates are applied to, in order. -/
def frameStep (simulationSpeed : α) (inp : FrameInput α) (packets : List (Packet α)) :
    Except JsError (List (Packet α)) :=
  if ¬ inp.isSimulating then pure packets
  else do
    let afterNode ← emitNodePacket inp packets packets
    let afterSink ← emitSinkPacket inp packets afterNode
    pure (updatePackets simulationSpeed inp.now afterSink)

/-- A sequence of frames, one input per frame. -/
def runFrames (simulationSpeed : α) (inputs : List (FrameInput α))
    (packets : List (Packet α)) : Except JsError (List (Packet α)) :=
  inputs.foldlM (fun live inp => frameStep simulationSpeed inp live) packets

/-- The `position` computed for one packet when the packets are rendered;
`nodePositions` is the state table of that name (`none` where it has no entry) and
`refPositions` the positions of the mounted meshes. -/
def packetRenderPosition (nodePositions refPositions : Nat → Option (Vec3 α))
    (packet : Packet α) : Vec3 α :=
  let startPos :=
    match nodePositions packet.sourceId with
    | some pos => pos
    | none =>
      match refPositions packet.sourceId with
      | some pos => pos
      | none => packet.startPos
  let endPos :=
    match packet.targetId with
    | some targetId =>
      match nodePositions targetId with
      | some pos => pos
      | none =>
        match refPositions targetId with
        | some pos => pos
        | none => packet.endPos
    | none => packet.endPos
  ⟨startPos.x + (endPos.x - startPos.x) * packet.progress,
    startPos.y + (endPos.y - startPos.y) * packet.progress,
    startPos.z + (endPos.z - startPos.z) * packet.progress⟩

/-- The position on the path stored in the packet, as the specification describes it:
`startPos + (endPos - startPos) * progress`. -/
def storedPathPosition (packet : Packet α) : Vec3 α :=
  ⟨packet.startPos.x + (packet.endPos.x - packet.startPos.x) * packet.progress,
    packet.startPos.y + (packet.endPos.y - packet.startPos.y) * packet.progress,
    packet.startPos.z + (packet.endPos.z - packet.startPos.z) * packet.progress⟩

end Frames

section Export

/-- One entry of the state `energyReadings` of `Simulation.js`. -/
structure EnergyReading (α : Type) where
  timestamp : α
  avgEnergy : α
  maxEnergy : α
  nodeCount : Int
  protocol : String

/-- What `exportCSV` hands to the browser: the text of the blob and the `download`
attribute of the link. -/
structure CsvDownload where
  content : String
  filename : String
  deriving DecidableEq, Repr

variable {α : Type}

/-- The array that `exportCSV` joins with newlines: the header line and one line per
reading. The method `Number.prototype.toFixed` is the parameter `toFixed`. -/
def csvLines (toFixed : α → Nat → String) (energyReadings : List (EnergyReading α)) :
    List String :=
  let headers := ["Timestamp(s)", "AvgEnergy(J)", "MaxEnergy(J)", "NodeCount", "Protocol"]
  String.intercalate "," headers ::
    energyReadings.map (fun reading =>
      String.intercalate ","
        [toFixed reading.timestamp 1,
         toFixed reading.avgEnergy 2,
         toFixed reading.maxEnergy 2,
         toString reading.nodeCount,
         reading.protocol])

/-- The function `exportCSV`; `none` is the early `return`, `now` the value of
`Date.now()`. -/
def exportCSV (toFixed : α → Nat → String) (routingProtocol : String) (now : Nat)
    (energyReadings : List (EnergyReading α)) : Option CsvDownload :=
  if energyReadings.length = 0 then none
  else
    let csvContent := String.intercalate "\n" (csvLines toFixed energyReadings)
    some { content := csvContent,
           filename := "uwsn_energy_" ++ routingProtocol ++ "_" ++ toString now ++ ".csv" }

end Export

section Statistics

variable {α : Type} [LinearOrderedField α] [FloorRing α]

/-- The two packet counters of `Simulation.js`. A counter that arithmetic has turned
into `NaN` is `none`; `packetsSent` only ever receives integers. -/
structure PacketStats where
  packetsSent : Int
  packetsReceived : Option Int
  deriving DecidableEq, Repr

/-- The counters as `startSimulation` and `resetSimulation` set them. -/
def initialStats : PacketStats :=
  { packetsSent := 0, packetsReceived := some 0 }

/-- The property names that an object literal inherits from `Object.prototype`. -/
def objectPrototypeKeys : List String :=
  ["constructor", "hasOwnProperty", "isPrototypeOf", "propertyIsEnumerable",
    "toLocaleString", "toString", "valueOf", "__proto__", "__defineGetter__",
    "__defineSetter__", "__lookupGetter__", "__lookupSetter__"]

/-- The expression `protocolEfficiency[routingProtocol] || 0.65` as an operand of a
product: the number stored under one of the five own keys, 0.65 when the lookup gives
`undefined`, and `none` when the name is inherited from `Object.prototype`, where the
lookup gives a function or an object, which is truthy and is `NaN` as a number. -/
def protocolEfficiency (routingProtocol : String) : Option α :=
  match routingProtocol with
  | "VBF" => some 0.65
  | "HHVBF" => some 0.75
  | "DBR" => some 0.70
  | "EEDBR" => some 0.80
  | "OLSR" => some 0.72
  | _ => if routingProtocol ∈ objectPrototypeKeys then none else some 0.65

/-- The constant `sentIncrement` of one statistics tick. -/
def sentIncrement (random : α) : Int :=
  ⌊random * 3 + 1⌋

/-- The increment added to `packetsReceived` in one statistics tick; `none` is `NaN`. -/
def receivedIncrement (routingProtocol : String) (sent : Int) (random : α) : Option Int :=
  (protocolEfficiency routingProtocol).map
    (fun efficiency => ⌊(sent : α) * efficiency * (0.9 + random * 0.2)⌋)

/-- The two counter updates of one statistics tick; `random1` and `random2` are its
first two calls of `Math.random()`. A sum with `NaN` is `NaN`. -/
def statisticsTick (routingProtocol : String) (random1 random2 : α)
    (stats : PacketStats) : PacketStats :=
  let sent := sentIncrement random1
  { packetsSent := stats.packetsSent + sent,
    packetsReceived :=
      match stats.packetsReceived, receivedIncrement routingProtocol sent random2 with
      | some prev, some increment => some (prev + increment)
      | _, _ => none }

/-- The counters after a run of statistics ticks; each tick carries the protocol in
force and its two random draws. -/
def statisticsRun (ticks : List (String × α × α)) (stats : PacketStats) : PacketStats :=
  ticks.foldl (fun s t => statisticsTick t.1 t.2.1 t.2.2 s) stats

/-- The delivery ratio `packetsReceived / packetsSent`, taken as 0 before any packet is
sent; `none` is `NaN`. -/
def deliveryRatio (stats : PacketStats) : Option α :=
  if stats.packetsSent > 0 then
    stats.packetsReceived.map (fun received => (received : α) / (stats.packetsSent : α))
  else some 0

end Statistics

/-- The percentage shown as "Packet delivery ratio", computed in the number type `α`;
`Math.round(x)` is `Math.floor(x + 0.5)`, and `none` is `NaN`. -/
def deliveryRatioPercent (α : Type) [LinearOrderedField α] [FloorRing α]
    (stats : PacketStats) : Option Int :=
  if stats.packetsSent > 0 then
    stats.packetsReceived.map
      (fun received => ⌊((received : α) / (stats.packetsSent : α)) * 100 + 0.5⌋)
  else some 0

section Examples

/-- Newton iteration for the integer square root, on fuel. -/
def natSqrtLoop (n : Nat) : Nat → Nat → Nat
  | 0, x => x
  | fuel + 1, x =>
    let y := (x + n / x) / 2
    if y < x then natSqrtLoop n fuel y else x

/-- Integer square root (rounded down). -/
def natSqrt (n : Nat) : Nat :=
  if n = 0 then 0 else natSqrtLoop n n n

/-- A computable square root on the rationals, used to run the model on concrete
inputs: exact on squares of rationals, rounded down componentwise elsewhere. -/
def sqrtQ (q : ℚ) : ℚ :=
  (natSqrt q.num.toNat : ℚ) / (natSqrt q.den : ℚ)

/-- A node as `generateNodes` builds it (inactive, default color, empty topology
lists), at a given position and with given energy and depth. -/
def sampleNode (id : Nat) (position : Vec3 ℚ) (energy depth : ℚ) : Node ℚ :=
  { id := id, position := position, isActive := false, lastActive := 0,
    color := "#e74c3c", energy := energy, depth := depth, velocity := ⟨0, 0, 0⟩,
    mprs := [], neighbors := [], twoHopNeighbors := [] }

/-- A source 100 units from the sink that lists its own id among its MPRs. -/
def selfRelaySource : Node ℚ :=
  { sampleNode 0 ⟨100, 0, 0⟩ 100 0 with mprs := [0] }

/-- A source 200 units from the sink with MPR 1 and neighbors 1 and 2. -/
def farSource : Node ℚ :=
  { sampleNode 0 ⟨200, 0, 0⟩ 100 0 with mprs := [1], neighbors := [1, 2] }

/-- A field around `farSource`: two relays towards the sink. -/
def farField : List (Node ℚ) :=
  [farSource, sampleNode 1 ⟨150, 0, 0⟩ 80 0, sampleNode 2 ⟨160, 30, 0⟩ 15 30]

/-- A source 200 units from the sink whose only MPR, node 1, has energy 18. -/
def lowRelaySource : Node ℚ :=
  { sampleNode 0 ⟨200, 0, 0⟩ 100 0 with mprs := [1], neighbors := [1, 2, 3] }

/-- A field around `lowRelaySource`: a weak MPR at distance 180 from the sink, a
neighbor of energy 15 closer to the sink, and a neighbor of energy 5. -/
def lowRelayField : List (Node ℚ) :=
  [lowRelaySource, sampleNode 1 ⟨180, 0, 0⟩ 18 0, sampleNode 2 ⟨160, 30, 0⟩ 15 30,
    sampleNode 3 ⟨150, 0, 0⟩ 5 0]

/-- A node-to-node packet as the frame callback builds it, created at time
`createdAt`. -/
def samplePacket (createdAt : ℚ) : Packet ℚ :=
  { id := "packet-1", startPos := ⟨0, 0, -107⟩, endPos := ⟨60, 80, -50⟩, progress := 0,
    color := "#FF0000", size := 3, sourceId := 0, targetId := some 1,
    createdAt := createdAt }

/-- A source 50 units from the sink with non-empty MPR and neighbor lists. -/
def nearSource : Node ℚ :=
  { sampleNode 0 ⟨30, 40, 0⟩ 100 40 with mprs := [1], neighbors := [1, 2] }

/-- Five nodes on a 60 by 80 grid, for a communication range of 100. -/
def gridField : List (Node ℚ) :=
  [sampleNode 0 ⟨0, 0, 0⟩ 100 0, sampleNode 1 ⟨60, 0, 0⟩ 100 0,
    sampleNode 2 ⟨120, 0, 0⟩ 100 0, sampleNode 3 ⟨120, 80, 0⟩ 100 80,
    sampleNode 4 ⟨60, 80, 0⟩ 100 80]

/-- The field `gridField` with the topology lists `calculateNeighbors` gives it at
range 100. -/
def gridTopology : List (Node ℚ) :=
  [{ sampleNode 0 ⟨0, 0, 0⟩ 100 0 with neighbors := [1, 4], twoHopNeighbors := [2, 3] },
    { sampleNode 1 ⟨60, 0, 0⟩ 100 0 with neighbors := [0, 2, 3, 4] },
    { sampleNode 2 ⟨120, 0, 0⟩ 100 0 with neighbors := [1, 3, 4], twoHopNeighbors := [0] },
    { sampleNode 3 ⟨120, 80, 0⟩ 100 80 with neighbors := [1, 2, 4], twoHopNeighbors := [0] },
    { sampleNode 4 ⟨60, 80, 0⟩ 100 80 with neighbors := [0, 1, 2, 3] }]

/-- The field `gridTopology` with the `mprs` lists `selectMPRs` gives it. -/
def gridRelays : List (Node ℚ) :=
  [{ sampleNode 0 ⟨0, 0, 0⟩ 100 0 with
      mprs := [1], neighbors := [1, 4], twoHopNeighbors := [2, 3] },
    { sampleNode 1 ⟨60, 0, 0⟩ 100 0 with neighbors := [0, 2, 3, 4] },
    { sampleNode 2 ⟨120, 0, 0⟩ 100 0 with
      mprs := [1], neighbors := [1, 3, 4], twoHopNeighbors := [0] },
    { sampleNode 3 ⟨120, 80, 0⟩ 100 80 with
      mprs := [1], neighbors := [1, 2, 4], twoHopNeighbors := [0] },
    { sampleNode 4 ⟨60, 80, 0⟩ 100 80 with neighbors := [0, 1, 2, 3] }]

/-- A frame over `gridField` in which both emission draws pass their thresholds: a
packet from node 0 to node 1 and a packet from node 3 to the sink, no mesh mounted. -/
def sampleFrame : FrameInput ℚ :=
  { isSimulating := true, nodes := gridField, refPositions := fun _ => none,
    emitRandom := 0, sourceIdx := 0, targetIdx := 1, colorIdx := 2, packetIdNow := 17,
    packetCreatedAt := 17, sinkRandom := 0, sinkSourceIdx := 3, sinkIdNow := 18,
    sinkCreatedAt := 18, now := 20 }

/-- Five nodes at range 100: node 1 reaches both 2-hop neighbors 3 and 4 of node 0,
node 2 reaches only 4. -/
def crossField : List (Node ℚ) :=
  [sampleNode 0 ⟨0, 0, 0⟩ 100 0, sampleNode 1 ⟨80, 0, 0⟩ 100 0,
    sampleNode 2 ⟨0, 80, 0⟩ 100 80, sampleNode 3 ⟨160, 0, 0⟩ 100 0,
    sampleNode 4 ⟨80, 80, 0⟩ 100 80]

/-- The field `crossField` with the topology lists `calculateNeighbors` gives it at
range 100. -/
def crossTopology : List (Node ℚ) :=
  [{ sampleNode 0 ⟨0, 0, 0⟩ 100 0 with neighbors := [1, 2], twoHopNeighbors := [3, 4] },
    { sampleNode 1 ⟨80, 0, 0⟩ 100 0 with neighbors := [0, 3, 4], twoHopNeighbors := [2] },
    { sampleNode 2 ⟨0, 80, 0⟩ 100 80 with neighbors := [0, 4], twoHopNeighbors := [1] },
    { sampleNode 3 ⟨160, 0, 0⟩ 100 0 with neighbors := [1], twoHopNeighbors := [0, 4] },
    { sampleNode 4 ⟨80, 80, 0⟩ 100 80 with neighbors := [1, 2], twoHopNeighbors := [0, 3] }]

/-- Node 0 of `crossTopology`. -/
def crossSource : Node ℚ :=
  { sampleNode 0 ⟨0, 0, 0⟩ 100 0 with neighbors := [1, 2], twoHopNeighbors := [3, 4] }

/-- Four nodes at range 100: node 1 is the only neighbor of node 0 and the only reacher
of both its 2-hop neighbors 2 and 3. -/
def forkField : List (Node ℚ) :=
  [sampleNode 0 ⟨0, 0, 0⟩ 100 0, sampleNode 1 ⟨80, 0, 0⟩ 100 0,
    sampleNode 2 ⟨160, 0, 0⟩ 100 0, sampleNode 3 ⟨80, 80, 0⟩ 100 80]

/-- The field `forkField` with the topology lists `calculateNeighbors` gives it at
range 100. -/
def forkTopology : List (Node ℚ) :=
  [{ sampleNode 0 ⟨0, 0, 0⟩ 100 0 with neighbors := [1], twoHopNeighbors := [2, 3] },
    { sampleNode 1 ⟨80, 0, 0⟩ 100 0 with neighbors := [0, 2, 3] },
    { sampleNode 2 ⟨160, 0, 0⟩ 100 0 with neighbors := [1], twoHopNeighbors := [0, 3] },
    { sampleNode 3 ⟨80, 80, 0⟩ 100 80 with neighbors := [1], twoHopNeighbors := [0, 2] }]

/-- A source 100 units from the sink. -/
def pipeSource : Node ℚ := sampleNode 0 ⟨100, 0, 0⟩ 100 0

/-- A candidate 104 units from the sink, 40 units off the axis from `pipeSource` to the
sink and 4 units along it. -/
def pipeCandidate : Node ℚ := sampleNode 1 ⟨96, 40, 0⟩ 100 40

end Examples

/-! ## Theorems -/

section SortLemmas

variable {α : Type} [LinearOrderedField α]

theorem mem_jsSort {β : Type} (compare : β → β → α) (l : List β) (b : β) :
    b ∈ jsSort compare l ↔ b ∈ l :=
  (List.perm_insertionSort _ l).mem_iff

theorem jsSort_perm {β : Type} (compare : β → β → α) (l : List β) :
    (jsSort compare l).Perm l :=
  List.perm_insertionSort _ l

/-- When the comparator orders by a key, the sorted array is ascending in that key. -/
theorem jsSort_pairwise {β : Type} (compare : β → β → α) (key : β → α)
    (hc : ∀ a b, compare a b ≤ 0 ↔ key a ≤ key b) (l : List β) :
    (jsSort compare l).Pairwise (fun a b => key a ≤ key b) := by
  haveI : IsTotal β (fun a b => compare a b ≤ 0) :=
    ⟨fun a b => by simp only [hc]; exact le_total _ _⟩
  haveI : IsTrans β (fun a b => compare a b ≤ 0) :=
    ⟨fun a b c => by simp only [hc]; exact le_trans⟩
  exact (List.sorted_insertionSort (fun a b => compare a b ≤ 0) l).imp
    (fun {a b} h => (hc a b).1 h)

end SortLemmas

section ResolveLemmas

variable {α : Type}

/-- Resolving a list of ids through `nodes.find` and keeping the nodes that pass `p`:
every node kept carries one of the ids, belongs to `nodes` and passes `p`. -/
theorem mem_resolve {nodes : List (Node α)} {ids : List Nat} {p : Node α → Bool} {n : Node α}
    (h : n ∈ (ids.map (fun k => nodes.find? (fun node => node.id == k))).filterMap
      (fun node => node.filter p)) :
    n.id ∈ ids ∧ n ∈ nodes ∧ p n = true := by
  simp only [List.mem_filterMap, List.mem_map] at h
  obtain ⟨o, ⟨k, hk, rfl⟩, ho⟩ := h
  cases hf : nodes.find? (fun node => node.id == k) with
  | none => simp [hf] at ho
  | some m =>
    rw [hf] at ho
    simp only [Option.filter] at ho
    split at ho
    · cases ho
      have h1 := List.find?_some hf
      have h2 := List.mem_of_find?_eq_some hf
      simp only [beq_iff_eq] at h1
      exact ⟨h1 ▸ hk, h2, by assumption⟩
    · cases ho

end ResolveLemmas

section RoutingLemmas

variable {α : Type} [LinearOrderedField α]

/-- The depth filter shared by the DBR and EEDBR branches. -/
theorem mem_depthFilter (s n : Node α) (nodes : List (Node α)) :
    n ∈ nodes.filter (fun node =>
        if node.id = s.id ∨ node.energy < 10 then false
        else decide (node.depth < s.depth)) ↔
      n ∈ nodes ∧ n.id ≠ s.id ∧ 10 ≤ n.energy ∧ n.depth < s.depth := by
  simp only [List.mem_filter]
  constructor
  · rintro ⟨hm, hf⟩
    split at hf
    · cases hf
    · rename_i hno
      rw [not_or, not_lt] at hno
      exact ⟨hm, hno.1, hno.2, of_decide_eq_true hf⟩
  · rintro ⟨hm, hid, he, hd⟩
    refine ⟨hm, ?_⟩
    rw [if_neg (by rw [not_or, not_lt]; exact ⟨hid, he⟩)]
    exact decide_eq_true hd

theorem selectNextHopNodes_DBR (sqrt : α → α) (s : Node α) (nodes : List (Node α)) :
    selectNextHopNodes sqrt s nodes "DBR" = nodes.filter (fun node =>
      if node.id = s.id ∨ node.energy < 10 then false
      else decide (node.depth < s.depth)) := by
  simp [selectNextHopNodes]

theorem selectNextHopNodes_EEDBR (sqrt : α → α) (s : Node α) (nodes : List (Node α)) :
    selectNextHopNodes sqrt s nodes "EEDBR" =
      jsSort (fun a b =>
        ((100 - b.depth) * 0.7 + b.energy * 0.3) - ((100 - a.depth) * 0.7 + a.energy * 0.3))
        (nodes.filter (fun node =>
          if node.id = s.id ∨ node.energy < 10 then false
          else decide (node.depth < s.depth))) := by
  simp [selectNextHopNodes]

end RoutingLemmas

section RoutingClaims

variable {α : Type} [LinearOrderedField α]

/-- C1 (as stated, refuted): under OLSR a source 100 units from the sink whose `mprs`
list holds its own id gets itself back as the only next hop. -/
theorem selectNextHopNodes_OLSR_returns_source :
    selectNextHopNodes sqrtQ selfRelaySource [selfRelaySource] "OLSR" = [selfRelaySource] := by
  with_unfolding_all decide

/-- C1 (amended): for every protocol value, source and node list, no node returned by
`selectNextHopNodes` has the source's id, provided that under OLSR the source's id
occurs in neither its `mprs` nor its `neighbors` list. -/
theorem selectNextHopNodes_excludes_source (sqrt : α → α) (sourceNode : Node α)
    (nodes : List (Node α)) (routingProtocol : String)
    (h : routingProtocol = "OLSR" →
      sourceNode.id ∉ sourceNode.mprs ∧ sourceNode.id ∉ sourceNode.neighbors) :
    ∀ n ∈ selectNextHopNodes sqrt sourceNode nodes routingProtocol, n.id ≠ sourceNode.id := by
  intro n hn
  unfold selectNextHopNodes at hn
  split at hn
  · simp only [List.mem_filter] at hn
    intro hc
    simp [hc] at hn
  · simp only [List.mem_filter] at hn
    intro hc
    simp [hc] at hn
  · simp only [List.mem_filter] at hn
    intro hc
    simp [hc] at hn
  · simp only [mem_jsSort, List.mem_filter] at hn
    intro hc
    simp [hc] at hn
  · obtain ⟨h1, h2⟩ := h rfl
    simp only at hn
    split at hn
    · simp at hn
    · split at hn
      · split at hn
        · rw [mem_jsSort] at hn
          have := (mem_resolve hn).1
          intro hc; exact h1 (hc ▸ this)
        · rw [mem_jsSort] at hn
          have := (mem_resolve hn).1
          intro hc; exact h2 (hc ▸ this)
      · rw [mem_jsSort] at hn
        have := (mem_resolve hn).1
        intro hc; exact h2 (hc ▸ this)
  · simp only [List.mem_filter] at hn
    intro hc
    simp [hc] at hn

theorem selectNextHopNodes_excludes_source_witness :
    ("OLSR" = "OLSR" → farSource.id ∉ farSource.mprs ∧ farSource.id ∉ farSource.neighbors) ∧
      (sampleNode 1 ⟨150, 0, 0⟩ 80 0) ∈ selectNextHopNodes sqrtQ farSource farField "OLSR" ∧
      (sampleNode 1 ⟨150, 0, 0⟩ 80 0).id ≠ farSource.id :=
  ⟨by decide, by with_unfolding_all decide,
    selectNextHopNodes_excludes_source sqrtQ farSource farField "OLSR" (by decide) _
      (by with_unfolding_all decide)⟩

/-- C2: for every protocol value, source and node list, every node returned by
`selectNextHopNodes` has energy at least 10. -/
theorem selectNextHopNodes_energy_ge_ten (sqrt : α → α) (sourceNode : Node α)
    (nodes : List (Node α)) (routingProtocol : String) :
    ∀ n ∈ selectNextHopNodes sqrt sourceNode nodes routingProtocol, 10 ≤ n.energy := by
  intro n hn
  have key : ∀ (s n : Node α) (b : Bool),
      (if n.id = s.id ∨ n.energy < 10 then false else b) = true → 10 ≤ n.energy := by
    intro s n b hb
    split at hb
    · cases hb
    · rename_i hno
      rw [not_or, not_lt] at hno
      exact hno.2
  have h20 : ∀ m : Node α, decide (m.energy > 20) = true → 10 ≤ m.energy := by
    intro m hm
    have := of_decide_eq_true hm
    linarith
  have h10 : ∀ m : Node α, decide (m.energy > 10) = true → 10 ≤ m.energy := by
    intro m hm
    exact le_of_lt (of_decide_eq_true hm)
  unfold selectNextHopNodes at hn
  split at hn
  · simp only [List.mem_filter] at hn
    exact key _ _ _ hn.2
  · simp only [List.mem_filter] at hn
    exact key _ _ _ hn.2
  · simp only [List.mem_filter] at hn
    exact key _ _ _ hn.2
  · simp only [mem_jsSort, List.mem_filter] at hn
    exact key _ _ _ hn.2
  · simp only at hn
    split at hn
    · simp at hn
    · split at hn
      · split at hn
        · rw [mem_jsSort] at hn
          exact h20 _ (mem_resolve hn).2.2
        · rw [mem_jsSort] at hn
          exact h10 _ (mem_resolve hn).2.2
      · rw [mem_jsSort] at hn
        exact h10 _ (mem_resolve hn).2.2
  · simp only [List.mem_filter, decide_eq_true_eq] at hn
    exact le_of_lt hn.2.2

theorem selectNextHopNodes_energy_ge_ten_witness :
    (sampleNode 1 ⟨150, 0, 0⟩ 80 0) ∈ selectNextHopNodes sqrtQ farSource farField "OLSR" ∧
      10 ≤ (sampleNode 1 ⟨150, 0, 0⟩ 80 0).energy :=
  ⟨by with_unfolding_all decide,
    selectNextHopNodes_energy_ge_ten sqrtQ farSource farField "OLSR" _
      (by with_unfolding_all decide)⟩

/-- C8: under EEDBR the returned sequence is non-increasing in the score
`0.7*(100 - depth) + 0.3*energy`: each returned node scores at least as much as every
node after it, in particular as its immediate successor. -/
theorem selectNextHopNodes_EEDBR_sorted (sqrt : α → α) (sourceNode : Node α)
    (nodes : List (Node α)) :
    (selectNextHopNodes sqrt sourceNode nodes "EEDBR").Pairwise
        (fun a b => eedbrScore a ≥ eedbrScore b) ∧
      (selectNextHopNodes sqrt sourceNode nodes "EEDBR").Chain'
        (fun a b => eedbrScore a ≥ eedbrScore b) := by
  have hp : (selectNextHopNodes sqrt sourceNode nodes "EEDBR").Pairwise
      (fun a b => eedbrScore a ≥ eedbrScore b) := by
    rw [selectNextHopNodes_EEDBR]
    refine (jsSort_pairwise _ (fun n => - eedbrScore n) ?_ _).imp ?_
    · intro a b
      simp only [eedbrScore]
      constructor <;> intro h <;> linarith
    · intro a b h
      simp only [ge_iff_le]
      linarith
  exact ⟨hp, hp.chain'⟩

/-- C9: under DBR, and under EEDBR, a node is returned exactly when it is in the list,
its id differs from the source's, its energy is at least 10 and its depth is strictly
less than the source's; the EEDBR result is a permutation of the DBR result; and in a
field of nodes at depths 10, 50, 90 with a source at depth 50 no node but the depth-10
one is returned, which is returned when it is not the source and has energy at least
10. -/
theorem selectNextHopNodes_DBR_EEDBR_eligibility (sqrt : α → α) (sourceNode : Node α)
    (nodes : List (Node α)) :
    (∀ n, n ∈ selectNextHopNodes sqrt sourceNode nodes "DBR" ↔
      n ∈ nodes ∧ n.id ≠ sourceNode.id ∧ 10 ≤ n.energy ∧ n.depth < sourceNode.depth) ∧
    (∀ n, n ∈ selectNextHopNodes sqrt sourceNode nodes "EEDBR" ↔
      n ∈ nodes ∧ n.id ≠ sourceNode.id ∧ 10 ≤ n.energy ∧ n.depth < sourceNode.depth) ∧
    (selectNextHopNodes sqrt sourceNode nodes "EEDBR").Perm
      (selectNextHopNodes sqrt sourceNode nodes "DBR") ∧
    (∀ a b c : Node α, a.depth = 10 → b.depth = 50 → c.depth = 90 →
      sourceNode.depth = 50 →
      (∀ n ∈ selectNextHopNodes sqrt sourceNode [a, b, c] "DBR", n = a) ∧
      (a.id ≠ sourceNode.id → 10 ≤ a.energy →
        selectNextHopNodes sqrt sourceNode [a, b, c] "DBR" = [a])) := by
  refine ⟨?_, ?_, ?_, ?_⟩
  · intro n
    rw [selectNextHopNodes_DBR]
    exact mem_depthFilter sourceNode n nodes
  · intro n
    rw [selectNextHopNodes_EEDBR, mem_jsSort]
    exact mem_depthFilter sourceNode n nodes
  · rw [selectNextHopNodes_EEDBR, selectNextHopNodes_DBR]
    exact jsSort_perm _ _
  · intro a b c ha hb hc hs
    have hb' : ¬ b.depth < sourceNode.depth := by rw [hb, hs]; exact lt_irrefl _
    have hc' : ¬ c.depth < sourceNode.depth := by rw [hc, hs]; norm_num
    have ha' : a.depth < sourceNode.depth := by rw [ha, hs]; norm_num
    constructor
    · intro n hn
      rw [selectNextHopNodes_DBR, mem_depthFilter] at hn
      obtain ⟨hm, -, -, hd⟩ := hn
      simp only [List.mem_cons, List.mem_singleton, List.not_mem_nil, or_false] at hm
      rcases hm with rfl | rfl | rfl
      · rfl
      · exact absurd hd hb'
      · exact absurd hd hc'
    · intro hid he
      rw [selectNextHopNodes_DBR]
      simp [List.filter, hid, not_lt.2 he, ha', hb', hc']

theorem selectNextHopNodes_DBR_EEDBR_eligibility_witness :
    selectNextHopNodes sqrtQ (sampleNode 1 ⟨0, 50, 0⟩ 100 50)
        [sampleNode 0 ⟨0, 10, 0⟩ 100 10, sampleNode 1 ⟨0, 50, 0⟩ 100 50,
          sampleNode 2 ⟨0, 90, 0⟩ 100 90] "DBR" =
      [sampleNode 0 ⟨0, 10, 0⟩ 100 10] :=
  ((selectNextHopNodes_DBR_EEDBR_eligibility sqrtQ (sampleNode 1 ⟨0, 50, 0⟩ 100 50)
      [sampleNode 0 ⟨0, 10, 0⟩ 100 10, sampleNode 1 ⟨0, 50, 0⟩ 100 50,
        sampleNode 2 ⟨0, 90, 0⟩ 100 90]).2.2.2
    (sampleNode 0 ⟨0, 10, 0⟩ 100 10) (sampleNode 1 ⟨0, 50, 0⟩ 100 50)
    (sampleNode 2 ⟨0, 90, 0⟩ 100 90) rfl rfl rfl rfl).2
    (by decide) (by with_unfolding_all decide)

/-- C10: under OLSR a source whose distance to the sink is strictly less than 100 gets
the empty sequence, whatever its `mprs` and `neighbors` lists and the node list hold. -/
theorem selectNextHopNodes_OLSR_near_sink (sqrt : α → α) (sourceNode : Node α)
    (nodes : List (Node α))
    (h : calculateDistance sqrt sourceNode.position sinkPosition < 100) :
    selectNextHopNodes sqrt sourceNode nodes "OLSR" = [] := by
  simp [selectNextHopNodes, h]

theorem selectNextHopNodes_OLSR_near_sink_witness :
    calculateDistance sqrtQ nearSource.position sinkPosition < 100 ∧
      selectNextHopNodes sqrtQ nearSource farField "OLSR" = [] :=
  ⟨by with_unfolding_all decide,
    selectNextHopNodes_OLSR_near_sink sqrtQ nearSource farField (by with_unfolding_all decide)⟩

end RoutingClaims

section MonadLemmas
variable {ε β γ : Type}

theorem mapM_ok_of_forall {f : β → Except ε γ} :
    ∀ (l : List β), (∀ x ∈ l, ∃ y, f x = .ok y) → ∃ r, l.mapM f = .ok r
  | [], _ => ⟨[], rfl⟩
  | a :: l, h => by
    obtain ⟨y, hy⟩ := h a (List.mem_cons_self a l)
    obtain ⟨r, hr⟩ := mapM_ok_of_forall l (fun x hx => h x (List.mem_cons_of_mem a hx))
    refine ⟨y :: r, ?_⟩
    rw [List.mapM_cons, hy, hr]
    rfl

theorem mapM_ok_getElem? {f : β → Except ε γ} :
    ∀ (l : List β) (r : List γ), l.mapM f = .ok r →
      r.length = l.length ∧ ∀ (i : Nat) (y : γ), r[i]? = some y → ∃ x, l[i]? = some x ∧ f x = .ok y
  | [], r, h => by
    cases h
    simp
  | a :: l, r, h => by
    rw [List.mapM_cons] at h
    cases hfa : f a with
    | error e => rw [hfa] at h; cases h
    | ok y =>
      cases hl : l.mapM f with
      | error e => rw [hfa, hl] at h; cases h
      | ok r' =>
        rw [hfa, hl] at h
        cases h
        obtain ⟨hlen, hget⟩ := mapM_ok_getElem? l r' hl
        refine ⟨by simp [hlen], ?_⟩
        intro i z hz
        cases i with
        | zero =>
          simp only [List.getElem?_cons_zero, Option.some.injEq] at hz
          subst hz
          exact ⟨a, by simp, hfa⟩
        | succ k =>
          simp only [List.getElem?_cons_succ] at hz ⊢
          exact hget k z hz

end MonadLemmas

section LookupLemmas
variable {α : Type}

theorem lookupNode_of_getElem? {nodes : List (Node α)} {k : Nat} {n : Node α}
    (h : nodes[k]? = some n) : lookupNode nodes k = .ok n := by
  simp [lookupNode, h]

end LookupLemmas

section TopologyLemmas
variable {α : Type} [LinearOrderedField α]

theorem calculateDistance_comm (sqrt : α → α) (p q : Vec3 α) :
    calculateDistance sqrt p q = calculateDistance sqrt q p := by
  unfold calculateDistance
  congr 1
  ring

theorem oneHopNeighbors_eq (sqrt : α → α) (nodes : List (Node α)) (range : α)
    (i : Nat) (ni : Node α) :
    oneHopNeighbors sqrt nodes range i ni =
      (nodes.enum.filter (fun jn => decide (i ≠ jn.1 ∧
        calculateDistance sqrt ni.position jn.2.position ≤ range))).map Prod.fst := by
  unfold oneHopNeighbors
  induction nodes.enum with
  | nil => rfl
  | cons a l ih =>
    rw [List.filterMap_cons, List.filter_cons]
    by_cases h1 : i ≠ a.1
    · by_cases h2 : calculateDistance sqrt ni.position a.2.position ≤ range
      · have hd : decide (i ≠ a.1 ∧
            calculateDistance sqrt ni.position a.2.position ≤ range) = true :=
          decide_eq_true ⟨h1, h2⟩
        simp only [if_pos h1, if_pos h2, hd, if_true, List.map_cons, ih]
      · have hd : decide (i ≠ a.1 ∧
            calculateDistance sqrt ni.position a.2.position ≤ range) = false :=
          decide_eq_false (fun h => h2 h.2)
        simp only [if_pos h1, if_neg h2, hd, ih]
        rfl
    · have hd : decide (i ≠ a.1 ∧
          calculateDistance sqrt ni.position a.2.position ≤ range) = false :=
        decide_eq_false (fun h => h1 h.1)
      simp only [if_neg h1, hd, ih]
      rfl

theorem mem_oneHopNeighbors (sqrt : α → α) (nodes : List (Node α)) (range : α)
    (i : Nat) (ni : Node α) (j : Nat) :
    j ∈ oneHopNeighbors sqrt nodes range i ni ↔
      j ≠ i ∧ ∃ nj, nodes[j]? = some nj ∧
        calculateDistance sqrt ni.position nj.position ≤ range := by
  rw [oneHopNeighbors_eq]
  simp only [List.mem_map, List.mem_filter, decide_eq_true_eq, Prod.exists,
    List.mk_mem_enum_iff_getElem?]
  constructor
  · rintro ⟨a, b, ⟨hab, hne, hd⟩, rfl⟩
    exact ⟨fun h => hne h.symm, b, hab, hd⟩
  · rintro ⟨hne, nj, hj, hd⟩
    exact ⟨j, nj, ⟨hj, fun h => hne h.symm, hd⟩, rfl⟩

theorem nodup_oneHopNeighbors (sqrt : α → α) (nodes : List (Node α)) (range : α)
    (i : Nat) (ni : Node α) : (oneHopNeighbors sqrt nodes range i ni).Nodup := by
  rw [oneHopNeighbors_eq]
  have h : (nodes.enum.map Prod.fst).Nodup := by
    rw [List.enum_map_fst]
    exact List.nodup_range _
  exact ((List.filter_sublist _).map Prod.fst).nodup h

end TopologyLemmas

section SetLemmas

theorem mem_setAdd (s : List Nat) (x y : Nat) : y ∈ setAdd s x ↔ y ∈ s ∨ y = x := by
  unfold setAdd
  split
  · constructor
    · exact Or.inl
    · rintro (h | rfl)
      · exact h
      · assumption
  · simp

theorem nodup_setAdd (s : List Nat) (x : Nat) (h : s.Nodup) : (setAdd s x).Nodup := by
  unfold setAdd
  split
  · exact h
  · rename_i hx
    rw [List.nodup_append]
    refine ⟨h, List.nodup_singleton x, ?_⟩
    intro a ha hb
    rw [List.mem_singleton] at hb
    exact hx (hb ▸ ha)

theorem mem_setDelete (s : List Nat) (x y : Nat) : y ∈ setDelete s x ↔ y ∈ s ∧ y ≠ x := by
  simp [setDelete]

theorem mem_setOfArray (l : List Nat) (x : Nat) : x ∈ setOfArray l ↔ x ∈ l := by
  have h : ∀ (l acc : List Nat), x ∈ l.foldl setAdd acc ↔ x ∈ acc ∨ x ∈ l := by
    intro l
    induction l with
    | nil => simp
    | cons a l ih =>
      intro acc
      rw [List.foldl_cons, ih, mem_setAdd, List.mem_cons]
      tauto
  simpa using h l []

end SetLemmas

section TwoHopLemmas
variable {α : Type}

theorem twoHopInner_spec (i : Nat) (nbrs : List Nat) : ∀ (l acc : List Nat),
    (acc.Nodup → (l.foldl (fun acc twoHopIdx =>
        if twoHopIdx ≠ i ∧ ¬ twoHopIdx ∈ nbrs then setAdd acc twoHopIdx else acc) acc).Nodup) ∧
    ∀ x, x ∈ l.foldl (fun acc twoHopIdx =>
        if twoHopIdx ≠ i ∧ ¬ twoHopIdx ∈ nbrs then setAdd acc twoHopIdx else acc) acc ↔
      x ∈ acc ∨ (x ∈ l ∧ x ≠ i ∧ x ∉ nbrs)
  | [], acc => by simp
  | a :: l, acc => by
    rw [List.foldl_cons]
    obtain ⟨ih1, ih2⟩ := twoHopInner_spec i nbrs l
      (if a ≠ i ∧ ¬ a ∈ nbrs then setAdd acc a else acc)
    refine ⟨fun hacc => ih1 ?_, fun x => ?_⟩
    · split
      · exact nodup_setAdd _ _ hacc
      · exact hacc
    · rw [ih2 x]
      by_cases hc : a ≠ i ∧ ¬ a ∈ nbrs
      · rw [if_pos hc, mem_setAdd, List.mem_cons]
        constructor
        · rintro ((h | rfl) | h)
          · exact Or.inl h
          · exact Or.inr ⟨Or.inl rfl, hc⟩
          · exact Or.inr ⟨Or.inr h.1, h.2⟩
        · rintro (h | ⟨rfl | h, h2⟩)
          · exact Or.inl (Or.inl h)
          · exact Or.inl (Or.inr rfl)
          · exact Or.inr ⟨h, h2⟩
      · rw [if_neg hc, List.mem_cons]
        constructor
        · rintro (h | h)
          · exact Or.inl h
          · exact Or.inr ⟨Or.inr h.1, h.2⟩
        · rintro (h | ⟨rfl | h, h2⟩)
          · exact Or.inl h
          · exact absurd h2 hc
          · exact Or.inr ⟨h, h2⟩

theorem twoHopOuter_spec (nodes : List (Node α)) (i : Nat) (nbrs : List Nat) :
    ∀ (l acc : List Nat), (∀ k ∈ l, k < nodes.length) →
      ∃ r, l.foldlM (fun acc neighborIdx => do
          let neighborNode ← lookupNode nodes neighborIdx
          pure (neighborNode.neighbors.foldl (fun acc twoHopIdx =>
            if twoHopIdx ≠ i ∧ ¬ twoHopIdx ∈ nbrs then setAdd acc twoHopIdx else acc) acc))
          acc = Except.ok r ∧
        (acc.Nodup → r.Nodup) ∧
        ∀ x, x ∈ r ↔ x ∈ acc ∨ ∃ k ∈ l, ∃ nk, nodes[k]? = some nk ∧
          x ∈ nk.neighbors ∧ x ≠ i ∧ x ∉ nbrs
  | [], acc, _ => ⟨acc, rfl, id, by simp⟩
  | a :: l, acc, hv => by
    have ha : a < nodes.length := hv a (List.mem_cons_self a l)
    obtain ⟨r, hr, hnd, hmem⟩ := twoHopOuter_spec nodes i nbrs l
      ((nodes[a]).neighbors.foldl (fun acc twoHopIdx =>
            if twoHopIdx ≠ i ∧ ¬ twoHopIdx ∈ nbrs then setAdd acc twoHopIdx else acc) acc)
      (fun k hk => hv k (List.mem_cons_of_mem a hk))
    obtain ⟨in1, in2⟩ := twoHopInner_spec i nbrs (nodes[a]).neighbors acc
    have hget : nodes[a]? = some nodes[a] := List.getElem?_eq_getElem ha
    refine ⟨r, ?_, fun hacc => hnd (in1 hacc), fun x => ?_⟩
    · rw [List.foldlM_cons, lookupNode_of_getElem? hget]
      exact hr
    · rw [hmem x, in2 x]
      constructor
      · rintro ((h | h) | ⟨k, hk, nk, h1, h2⟩)
        · exact Or.inl h
        · exact Or.inr ⟨a, List.mem_cons_self a l, nodes[a], hget, h⟩
        · exact Or.inr ⟨k, List.mem_cons_of_mem a hk, nk, h1, h2⟩
      · rintro (h | ⟨k, hk, nk, h1, h2⟩)
        · exact Or.inl (Or.inl h)
        · rcases List.mem_cons.1 hk with rfl | hk
          · rw [hget] at h1
            cases h1
            exact Or.inl (Or.inr h2)
          · exact Or.inr ⟨k, hk, nk, h1, h2⟩

theorem twoHopNeighborsOf_spec (nodes : List (Node α)) (i : Nat) (ni : Node α)
    (hv : ∀ k ∈ ni.neighbors, k < nodes.length) :
    ∃ r, twoHopNeighborsOf nodes i ni = Except.ok r ∧ r.Nodup ∧
      ∀ x, x ∈ r ↔ x ≠ i ∧ x ∉ ni.neighbors ∧
        ∃ k ∈ ni.neighbors, ∃ nk, nodes[k]? = some nk ∧ x ∈ nk.neighbors := by
  obtain ⟨r, hr, hnd, hmem⟩ := twoHopOuter_spec nodes i ni.neighbors ni.neighbors [] hv
  refine ⟨r, hr, hnd List.nodup_nil, fun x => ?_⟩
  rw [hmem x]
  constructor
  · rintro (h | ⟨k, hk, nk, h1, h2, h3, h4⟩)
    · cases h
    · exact ⟨h3, h4, k, hk, nk, h1, h2⟩
  · rintro ⟨h3, h4, k, hk, nk, h1, h2⟩
    exact Or.inr ⟨k, hk, nk, h1, h2, h3, h4⟩

end TwoHopLemmas

section EnumLemmas
variable {ε β γ : Type}

theorem enum_mapM_inv {f : Nat × β → Except ε γ} (l : List β) (r : List γ)
    (h : l.enum.mapM f = .ok r) :
    r.length = l.length ∧
      ∀ (i : Nat) (x : β), l[i]? = some x → ∃ y, r[i]? = some y ∧ f (i, x) = .ok y := by
  obtain ⟨hlen, hget⟩ := mapM_ok_getElem? l.enum r h
  rw [List.enum_length] at hlen
  refine ⟨hlen, fun i x hx => ?_⟩
  have hi : i < r.length := by
    rw [hlen]
    exact (List.getElem?_eq_some.1 hx).1
  obtain ⟨x', hx', hf⟩ := hget i r[i] (List.getElem?_eq_getElem hi)
  rw [List.getElem?_enum, hx] at hx'
  cases hx'
  exact ⟨r[i], List.getElem?_eq_getElem hi, hf⟩

theorem enum_mapM_ok {f : Nat × β → Except ε γ} (l : List β)
    (h : ∀ (i : Nat) (x : β), l[i]? = some x → ∃ y, f (i, x) = .ok y) :
    ∃ r, l.enum.mapM f = .ok r := by
  apply mapM_ok_of_forall
  rintro ⟨i, x⟩ hx
  exact h i x (List.mk_mem_enum_iff_getElem?.1 hx)

end EnumLemmas

section CalcLemmas
variable {α : Type} [LinearOrderedField α]

theorem length_assignNeighbors (sqrt : α → α) (nodes : List (Node α)) (range : α) :
    (assignNeighbors sqrt nodes range).length = nodes.length := by
  simp [assignNeighbors]

theorem getElem?_assignNeighbors (sqrt : α → α) (nodes : List (Node α)) (range : α) (i : Nat) :
    (assignNeighbors sqrt nodes range)[i]? = (nodes[i]?).map (fun ni =>
      { ni with neighbors := oneHopNeighbors sqrt nodes range i ni }) := by
  simp only [assignNeighbors, List.getElem?_map, List.getElem?_enum, Option.map_map]
  rfl

theorem oneHopNeighbors_lt (sqrt : α → α) (nodes : List (Node α)) (range : α)
    (i : Nat) (ni : Node α) : ∀ k ∈ oneHopNeighbors sqrt nodes range i ni, k < nodes.length := by
  intro k hk
  obtain ⟨-, nk, hnk, -⟩ := (mem_oneHopNeighbors sqrt nodes range i ni k).1 hk
  exact (List.getElem?_eq_some.1 hnk).1

end CalcLemmas

section SecondPass
variable {α : Type}

/-- The second pass succeeds when all neighbor indices are in range, and then leaves
every field but `twoHopNeighbors` alone and fills that one with the 2-hop set. -/
theorem assignTwoHopNeighbors_spec (nodes : List (Node α))
    (hv : ∀ n ∈ nodes, ∀ k ∈ n.neighbors, k < nodes.length) :
    ∃ result, assignTwoHopNeighbors nodes = .ok result ∧ result.length = nodes.length ∧
      ∀ (i : Nat) (ni : Node α), nodes[i]? = some ni →
        ∃ twoHop, result[i]? = some { ni with twoHopNeighbors := twoHop } ∧ twoHop.Nodup ∧
          ∀ x, x ∈ twoHop ↔ x ≠ i ∧ x ∉ ni.neighbors ∧
            ∃ k ∈ ni.neighbors, ∃ nk, nodes[k]? = some nk ∧ x ∈ nk.neighbors := by
  have hok : ∀ (i : Nat) (x : Node α), nodes[i]? = some x →
      ∃ y, (fun ini : Nat × Node α => do
        let twoHop ← twoHopNeighborsOf nodes ini.1 ini.2
        pure ({ ini.2 with twoHopNeighbors := twoHop } : Node α)) (i, x) = Except.ok y := by
    intro i x hx
    obtain ⟨r, hr, -⟩ := twoHopNeighborsOf_spec nodes i x
      (hv x (List.getElem?_mem hx))
    exact ⟨{ x with twoHopNeighbors := r }, by simp only [hr]; rfl⟩
  obtain ⟨result, hres⟩ : ∃ r, assignTwoHopNeighbors nodes = .ok r :=
    enum_mapM_ok nodes hok
  obtain ⟨hlen, hget⟩ := enum_mapM_inv nodes result hres
  refine ⟨result, hres, hlen, fun i ni hi => ?_⟩
  obtain ⟨y, hy, hf⟩ := hget i ni hi
  obtain ⟨r, hr, hnd, hmem⟩ := twoHopNeighborsOf_spec nodes i ni
    (hv ni (List.getElem?_mem hi))
  simp only [hr] at hf
  cases hf
  exact ⟨r, hy, hnd, hmem⟩

end SecondPass

section CalcSpec
variable {α : Type} [LinearOrderedField α]

/-- Full description of the result of `calculateNeighbors`: it always returns, and node
`i` of the result is node `i` of the input with its `neighbors` and `twoHopNeighbors`
replaced. -/
theorem calculateNeighbors_spec (sqrt : α → α) (nodes : List (Node α)) (range : α) :
    ∃ result, calculateNeighbors sqrt nodes range = .ok result ∧
      result.length = nodes.length ∧
      ∀ (i : Nat) (ni : Node α), nodes[i]? = some ni →
        ∃ twoHop, result[i]? = some { ni with
            neighbors := oneHopNeighbors sqrt nodes range i ni, twoHopNeighbors := twoHop } ∧
          twoHop.Nodup ∧
          ∀ x, x ∈ twoHop ↔ x ≠ i ∧ x ∉ oneHopNeighbors sqrt nodes range i ni ∧
            ∃ k ∈ oneHopNeighbors sqrt nodes range i ni, ∃ nk, nodes[k]? = some nk ∧
              x ∈ oneHopNeighbors sqrt nodes range k nk := by
  have hv : ∀ n ∈ assignNeighbors sqrt nodes range, ∀ k ∈ n.neighbors,
      k < (assignNeighbors sqrt nodes range).length := by
    intro n hn k hk
    obtain ⟨i, hi⟩ := List.mem_iff_getElem?.1 hn
    rw [getElem?_assignNeighbors] at hi
    cases hni : nodes[i]? with
    | none => rw [hni] at hi; cases hi
    | some ni =>
      rw [hni] at hi
      cases hi
      rw [length_assignNeighbors]
      exact oneHopNeighbors_lt sqrt nodes range i ni k hk
  obtain ⟨result, hres, hlen, hget⟩ :=
    assignTwoHopNeighbors_spec (assignNeighbors sqrt nodes range) hv
  refine ⟨result, hres, by rw [hlen, length_assignNeighbors], fun i ni hi => ?_⟩
  have hi' : (assignNeighbors sqrt nodes range)[i]? =
      some { ni with neighbors := oneHopNeighbors sqrt nodes range i ni } := by
    rw [getElem?_assignNeighbors, hi]
    rfl
  obtain ⟨twoHop, h1, h2, h3⟩ := hget i _ hi'
  refine ⟨twoHop, h1, h2, fun x => ?_⟩
  rw [h3 x]
  constructor
  · rintro ⟨hx1, hx2, k, hk, nk, hnk, hx3⟩
    refine ⟨hx1, hx2, k, hk, ?_⟩
    rw [getElem?_assignNeighbors] at hnk
    cases hk' : nodes[k]? with
    | none => rw [hk'] at hnk; cases hnk
    | some mk =>
      rw [hk'] at hnk
      cases hnk
      exact ⟨mk, rfl, hx3⟩
  · rintro ⟨hx1, hx2, k, hk, nk, hnk, hx3⟩
    refine ⟨hx1, hx2, k, hk,
      ({ nk with neighbors := oneHopNeighbors sqrt nodes range k nk } : Node α), ?_, hx3⟩
    rw [getElem?_assignNeighbors, hnk]
    rfl

/-- Reading the result of `calculateNeighbors` back at an index. -/
theorem calculateNeighbors_getElem? (sqrt : α → α) (nodes : List (Node α)) (range : α)
    (result : List (Node α)) (h : calculateNeighbors sqrt nodes range = .ok result)
    (i : Nat) (ri : Node α) (hri : result[i]? = some ri) :
    ∃ ni, nodes[i]? = some ni ∧ ri.position = ni.position ∧
      ri.neighbors = oneHopNeighbors sqrt nodes range i ni ∧
      ri.twoHopNeighbors.Nodup ∧
      ∀ x, x ∈ ri.twoHopNeighbors ↔ x ≠ i ∧ x ∉ ri.neighbors ∧
        ∃ k ∈ ri.neighbors, ∃ rk, result[k]? = some rk ∧ x ∈ rk.neighbors := by
  obtain ⟨result', hres, hlen, hget⟩ := calculateNeighbors_spec sqrt nodes range
  rw [h] at hres
  cases hres
  have hi : i < nodes.length := by
    rw [← hlen]
    exact (List.getElem?_eq_some.1 hri).1
  obtain ⟨twoHop, h1, h2, h3⟩ := hget i nodes[i] (List.getElem?_eq_getElem hi)
  rw [hri] at h1
  cases h1
  refine ⟨nodes[i], List.getElem?_eq_getElem hi, rfl, rfl, h2, fun x => ?_⟩
  rw [h3 x]
  constructor
  · rintro ⟨hx1, hx2, k, hk, nk, hnk, hx3⟩
    obtain ⟨t, ht, -⟩ := hget k nk hnk
    exact ⟨hx1, hx2, k, hk, _, ht, hx3⟩
  · rintro ⟨hx1, hx2, k, hk, rk, hrk, hx3⟩
    have hk' : k < nodes.length := by
      rw [← hlen]
      exact (List.getElem?_eq_some.1 hrk).1
    obtain ⟨t, ht, -⟩ := hget k nodes[k] (List.getElem?_eq_getElem hk')
    rw [hrk] at ht
    cases ht
    exact ⟨hx1, hx2, k, hk, nodes[k], List.getElem?_eq_getElem hk', hx3⟩

end CalcSpec

section TopologyClaims
variable {α : Type} [LinearOrderedField α]

/-- C4: `calculateNeighbors` returns, and in its result the 1-hop relation is symmetric:
for all indices `i ≠ j` of the result, `j` is in the `neighbors` of node `i` exactly
when `i` is in the `neighbors` of node `j`, for every node list and range. -/
theorem calculateNeighbors_symmetric (sqrt : α → α) (nodes : List (Node α)) (range : α) :
    (∃ result, calculateNeighbors sqrt nodes range = .ok result) ∧
    ∀ result, calculateNeighbors sqrt nodes range = .ok result →
      ∀ (i j : Nat) (ri rj : Node α), i ≠ j → result[i]? = some ri → result[j]? = some rj →
        (j ∈ ri.neighbors ↔ i ∈ rj.neighbors) := by
  refine ⟨(calculateNeighbors_spec sqrt nodes range).imp fun _ h => h.1, ?_⟩
  intro result h i j ri rj hij hi hj
  obtain ⟨ni, hni, -, hri, -⟩ := calculateNeighbors_getElem? sqrt nodes range result h i ri hi
  obtain ⟨nj, hnj, -, hrj, -⟩ := calculateNeighbors_getElem? sqrt nodes range result h j rj hj
  rw [hri, hrj, mem_oneHopNeighbors, mem_oneHopNeighbors]
  constructor
  · rintro ⟨-, m, hm, hd⟩
    rw [hnj] at hm
    cases hm
    exact ⟨hij, ni, hni, by rw [calculateDistance_comm]; exact hd⟩
  · rintro ⟨-, m, hm, hd⟩
    rw [hni] at hm
    cases hm
    exact ⟨fun h => hij h.symm, nj, hnj, by rw [calculateDistance_comm]; exact hd⟩

theorem calculateNeighbors_symmetric_witness :
    calculateNeighbors sqrtQ gridField 100 = .ok gridTopology ∧
      (4 ∈ ({ sampleNode 0 ⟨0, 0, 0⟩ 100 0 with
          neighbors := [1, 4], twoHopNeighbors := [2, 3] } : Node ℚ).neighbors ↔
        0 ∈ ({ sampleNode 4 ⟨60, 80, 0⟩ 100 80 with
          neighbors := [0, 1, 2, 3] } : Node ℚ).neighbors) :=
  ⟨by with_unfolding_all decide,
    (calculateNeighbors_symmetric sqrtQ gridField 100).2 gridTopology
      (by with_unfolding_all decide) 0 4 _ _ (by decide) rfl rfl⟩

/-- C5: `calculateNeighbors` returns, and in its result the `neighbors` list of node `i`
holds index `j` exactly when `j ≠ i`, `j` is the index of a node and the distance
between the positions of nodes `i` and `j` is at most `range`; the list never holds
`i` itself and holds no index twice. -/
theorem calculateNeighbors_neighbors (sqrt : α → α) (nodes : List (Node α)) (range : α) :
    (∃ result, calculateNeighbors sqrt nodes range = .ok result) ∧
    ∀ result, calculateNeighbors sqrt nodes range = .ok result →
      ∀ (i : Nat) (ni ri : Node α), nodes[i]? = some ni → result[i]? = some ri →
        ri.neighbors.Nodup ∧ i ∉ ri.neighbors ∧
        ∀ j, j ∈ ri.neighbors ↔
          j ≠ i ∧ ∃ nj, nodes[j]? = some nj ∧
            calculateDistance sqrt ni.position nj.position ≤ range := by
  refine ⟨(calculateNeighbors_spec sqrt nodes range).imp fun _ h => h.1, ?_⟩
  intro result h i ni ri hni hi
  obtain ⟨ni', hni', -, hri, -⟩ := calculateNeighbors_getElem? sqrt nodes range result h i ri hi
  rw [hni] at hni'
  cases hni'
  rw [hri]
  refine ⟨nodup_oneHopNeighbors sqrt nodes range i ni, ?_, mem_oneHopNeighbors sqrt nodes range i ni⟩
  intro hmem
  exact ((mem_oneHopNeighbors sqrt nodes range i ni i).1 hmem).1 rfl

theorem calculateNeighbors_neighbors_witness :
    calculateNeighbors sqrtQ gridField 100 = .ok gridTopology ∧
      (4 ∈ ({ sampleNode 0 ⟨0, 0, 0⟩ 100 0 with
          neighbors := [1, 4], twoHopNeighbors := [2, 3] } : Node ℚ).neighbors ↔
        4 ≠ 0 ∧ ∃ nj, gridField[4]? = some nj ∧
          calculateDistance sqrtQ (sampleNode 0 ⟨0, 0, 0⟩ 100 0).position nj.position ≤ 100) :=
  ⟨by with_unfolding_all decide,
    ((calculateNeighbors_neighbors sqrtQ gridField 100).2 gridTopology
      (by with_unfolding_all decide) 0 _ _ rfl rfl).2.2 4⟩

/-- C6: `calculateNeighbors` returns, and in its result index `t` is in the
`twoHopNeighbors` of node `i` exactly when `t ≠ i`, `t` is not in the `neighbors` of
node `i`, and `t` is in the `neighbors` of node `j` for some `j` in the `neighbors` of
node `i`; so the list excludes `i` and all 1-hop neighbors of `i`, and it holds no
index twice. -/
theorem calculateNeighbors_twoHop (sqrt : α → α) (nodes : List (Node α)) (range : α) :
    (∃ result, calculateNeighbors sqrt nodes range = .ok result) ∧
    ∀ result, calculateNeighbors sqrt nodes range = .ok result →
      ∀ (i : Nat) (ri : Node α), result[i]? = some ri →
        ri.twoHopNeighbors.Nodup ∧ i ∉ ri.twoHopNeighbors ∧
        (∀ t ∈ ri.neighbors, t ∉ ri.twoHopNeighbors) ∧
        ∀ t, t ∈ ri.twoHopNeighbors ↔
          t ≠ i ∧ t ∉ ri.neighbors ∧
            ∃ j ∈ ri.neighbors, ∃ rj, result[j]? = some rj ∧ t ∈ rj.neighbors := by
  refine ⟨(calculateNeighbors_spec sqrt nodes range).imp fun _ h => h.1, ?_⟩
  intro result h i ri hi
  obtain ⟨ni, -, -, -, hnd, hmem⟩ := calculateNeighbors_getElem? sqrt nodes range result h i ri hi
  refine ⟨hnd, fun hc => ((hmem i).1 hc).1 rfl, fun t ht hc => ((hmem t).1 hc).2.1 ht, hmem⟩

theorem calculateNeighbors_twoHop_witness :
    calculateNeighbors sqrtQ gridField 100 = .ok gridTopology ∧
      (3 ∈ ({ sampleNode 0 ⟨0, 0, 0⟩ 100 0 with
          neighbors := [1, 4], twoHopNeighbors := [2, 3] } : Node ℚ).twoHopNeighbors ↔
        3 ≠ 0 ∧ 3 ∉ ({ sampleNode 0 ⟨0, 0, 0⟩ 100 0 with
          neighbors := [1, 4], twoHopNeighbors := [2, 3] } : Node ℚ).neighbors ∧
        ∃ j ∈ ({ sampleNode 0 ⟨0, 0, 0⟩ 100 0 with
          neighbors := [1, 4], twoHopNeighbors := [2, 3] } : Node ℚ).neighbors,
          ∃ rj, gridTopology[j]? = some rj ∧ 3 ∈ rj.neighbors) :=
  ⟨by with_unfolding_all decide,
    ((calculateNeighbors_twoHop sqrtQ gridField 100).2 gridTopology
      (by with_unfolding_all decide) 0 _ rfl).2.2.2 3⟩

end TopologyClaims

section GreedyLemmas
variable {α : Type}

theorem foldl_setDelete (l u : List Nat) :
    l.foldl setDelete u = u.filter (fun y => decide (y ∉ l)) := by
  induction l generalizing u with
  | nil => simp
  | cons a l ih =>
    rw [List.foldl_cons, ih, setDelete, List.filter_filter]
    congr 1
    funext y
    simp only [List.mem_cons, not_or, ne_eq, decide_not, Bool.decide_and]
    rw [Bool.and_comm]

theorem mem_foldl_setDelete (l u : List Nat) (x : Nat) :
    x ∈ l.foldl setDelete u ↔ x ∈ u ∧ x ∉ l := by
  rw [foldl_setDelete]
  simp

theorem coverageOf_eq_countP (neighbor : Node α) (uncovered : List Nat) :
    coverageOf neighbor uncovered = neighbor.neighbors.countP (fun x => decide (x ∈ uncovered)) := by
  unfold coverageOf
  have h : ∀ (l : List Nat) (c : Nat),
      l.foldl (fun coverage x => if x ∈ uncovered then coverage + 1 else coverage) c =
        c + l.countP (fun x => decide (x ∈ uncovered)) := by
    intro l
    induction l with
    | nil => simp
    | cons a l ih =>
      intro c
      rw [List.foldl_cons, ih, List.countP_cons]
      by_cases ha : a ∈ uncovered
      · simp [ha]; omega
      · simp [ha]
  simpa using h neighbor.neighbors 0

theorem coverageOf_pos_iff (neighbor : Node α) (uncovered : List Nat) :
    0 < coverageOf neighbor uncovered ↔ ∃ x ∈ neighbor.neighbors, x ∈ uncovered := by
  rw [coverageOf_eq_countP, List.countP_pos_iff]
  simp

theorem length_foldl_setDelete_lt (neighbor : Node α) (uncovered : List Nat)
    (h : 0 < coverageOf neighbor uncovered) :
    (neighbor.neighbors.foldl setDelete uncovered).length < uncovered.length := by
  obtain ⟨x, hx1, hx2⟩ := (coverageOf_pos_iff neighbor uncovered).1 h
  rw [foldl_setDelete]
  apply List.length_filter_lt_length_iff_exists.2
  exact ⟨x, hx2, by simpa using hx1⟩

/-- What the search for the best neighbor returns: it succeeds when the indices
searched are in range; a neighbor found is an unselected member of the list searched
whose coverage is the returned positive maximum; and when none is found, no unselected
member of the list covers more than the initial maximum. -/
theorem findBest_spec (nodes : List (Node α)) (mprs uncovered : List Nat) :
    ∀ (l : List Nat) (st : Option Nat × Nat), (∀ k ∈ l, k < nodes.length) →
      ∃ st', l.foldlM (fun st neighborIdx =>
          if ¬ neighborIdx ∈ mprs then do
            let neighbor ← lookupNode nodes neighborIdx
            let coverage := coverageOf neighbor uncovered
            if coverage > st.2 then pure (some neighborIdx, coverage) else pure st
          else pure st) st = Except.ok st' ∧
        st.2 ≤ st'.2 ∧
        (∀ b, st'.1 = some b → (st.1 = some b ∧ st'.2 = st.2) ∨
          (b ∈ l ∧ b ∉ mprs ∧ ∃ nb, nodes[b]? = some nb ∧
            coverageOf nb uncovered = st'.2 ∧ st.2 < st'.2)) ∧
        (st'.1 = none → st.1 = none ∧ st'.2 = st.2 ∧
          ∀ k ∈ l, k ∉ mprs → ∀ nk, nodes[k]? = some nk → coverageOf nk uncovered ≤ st.2)
  | [], st, _ => ⟨st, rfl, le_refl _, fun b hb => Or.inl ⟨hb, rfl⟩,
      fun h => ⟨h, rfl, by simp⟩⟩
  | a :: l, st, hv => by
    have ha : a < nodes.length := hv a (List.mem_cons_self a l)
    have hget : nodes[a]? = some nodes[a] := List.getElem?_eq_getElem ha
    have hl : ∀ k ∈ l, k < nodes.length := fun k hk => hv k (List.mem_cons_of_mem a hk)
    rw [List.foldlM_cons]
    by_cases hm : a ∈ mprs
    · obtain ⟨st', h1, h2, h3, h4⟩ := findBest_spec nodes mprs uncovered l st hl
      refine ⟨st', ?_, h2, ?_, ?_⟩
      · rw [if_neg (not_not.2 hm)]
        exact h1
      · intro b hb
        rcases h3 b hb with h | ⟨hb1, hb2⟩
        · exact Or.inl h
        · exact Or.inr ⟨List.mem_cons_of_mem a hb1, hb2⟩
      · intro hn
        obtain ⟨h5, h6, h7⟩ := h4 hn
        refine ⟨h5, h6, fun k hk hkm nk hnk => ?_⟩
        rcases List.mem_cons.1 hk with rfl | hk
        · exact absurd hm hkm
        · exact h7 k hk hkm nk hnk
    · rw [if_pos hm, lookupNode_of_getElem? hget]
      by_cases hc : coverageOf nodes[a] uncovered > st.2
      · obtain ⟨st', h1, h2, h3, h4⟩ := findBest_spec nodes mprs uncovered l
          (some a, coverageOf nodes[a] uncovered) hl
        refine ⟨st', ?_, ?_, ?_, ?_⟩
        · simp only [Except.bind, bind, if_pos hc]
          exact h1
        · exact le_trans (le_of_lt hc) h2
        · intro b hb
          rcases h3 b hb with ⟨h5, h6⟩ | ⟨hb1, hb2, nb, hnb, hcov, hlt⟩
          · simp only [Option.some.injEq] at h5
            subst h5
            refine Or.inr ⟨List.mem_cons_self _ _, hm, nodes[a], hget, ?_, ?_⟩
            · exact h6.symm
            · rw [h6]; exact hc
          · exact Or.inr ⟨List.mem_cons_of_mem a hb1, hb2, nb, hnb, hcov,
              lt_trans hc hlt⟩
        · intro hn
          obtain ⟨h5, -⟩ := h4 hn
          cases h5
      · obtain ⟨st', h1, h2, h3, h4⟩ := findBest_spec nodes mprs uncovered l st hl
        refine ⟨st', ?_, h2, ?_, ?_⟩
        · simp only [Except.bind, bind, if_neg hc]
          exact h1
        · intro b hb
          rcases h3 b hb with h | ⟨hb1, hb2⟩
          · exact Or.inl h
          · exact Or.inr ⟨List.mem_cons_of_mem a hb1, hb2⟩
        · intro hn
          obtain ⟨h5, h6, h7⟩ := h4 hn
          refine ⟨h5, h6, fun k hk hkm nk hnk => ?_⟩
          rcases List.mem_cons.1 hk with rfl | hk
          · rw [hget] at hnk
            cases hnk
            exact not_lt.1 hc
          · exact h7 k hk hkm nk hnk

end GreedyLemmas

section GreedyLoopLemmas
variable {α : Type}

theorem findBestNeighbor_spec (nodes : List (Node α)) (node : Node α)
    (mprs uncovered : List Nat) (hv : ∀ k ∈ node.neighbors, k < nodes.length) :
    ∃ st, findBestNeighbor nodes node mprs uncovered = Except.ok st ∧
      (∀ b, st.1 = some b → b ∈ node.neighbors ∧ b ∉ mprs ∧ ∃ nb, nodes[b]? = some nb ∧
        coverageOf nb uncovered = st.2 ∧ 0 < st.2) ∧
      (st.1 = none → ∀ k ∈ node.neighbors, k ∉ mprs → ∀ nk, nodes[k]? = some nk →
        coverageOf nk uncovered = 0) := by
  obtain ⟨st, h1, -, h3, h4⟩ := findBest_spec nodes mprs uncovered node.neighbors (none, 0) hv
  refine ⟨st, h1, fun b hb => ?_, fun hn k hk hkm nk hnk => ?_⟩
  · rcases h3 b hb with ⟨h, -⟩ | h
    · cases h
    · exact h
  · exact Nat.le_zero.1 ((h4 hn).2.2 k hk hkm nk hnk)

/-- The `while` loop returns whenever its fuel is at least the number of uncovered
indices; it only appends neighbors of the node, and afterwards every index that was
uncovered and is reached by some neighbor is reached by a selected one. -/
theorem greedyLoop_spec (nodes : List (Node α)) (node : Node α)
    (hv : ∀ k ∈ node.neighbors, k < nodes.length) :
    ∀ (fuel : Nat) (mprs uncovered : List Nat), uncovered.length ≤ fuel →
      ∃ r, greedyLoop nodes node fuel mprs uncovered = Except.ok r ∧
        (∀ m ∈ mprs, m ∈ r) ∧
        (∀ m ∈ r, m ∈ mprs ∨ m ∈ node.neighbors) ∧
        ∀ t ∈ uncovered,
          (∃ k ∈ node.neighbors, ∃ nk, nodes[k]? = some nk ∧ t ∈ nk.neighbors) →
          ∃ m ∈ r, ∃ nm, nodes[m]? = some nm ∧ t ∈ nm.neighbors
  | 0, mprs, uncovered, hf => by
    have hu : uncovered = [] := List.length_eq_zero.1 (Nat.le_zero.1 hf)
    subst hu
    exact ⟨mprs, by simp [greedyLoop], fun m hm => hm, fun m hm => Or.inl hm, by simp⟩
  | fuel + 1, mprs, uncovered, hf => by
    by_cases hu : uncovered.length > 0
    · obtain ⟨st, hst, hsome, hnone⟩ := findBestNeighbor_spec nodes node mprs uncovered hv
      cases hb : st.1 with
      | none =>
        refine ⟨mprs, ?_, fun m hm => hm, fun m hm => Or.inl hm, ?_⟩
        · rw [greedyLoop, if_pos hu, hst]
          simp only [Except.bind, bind, hb]
          rfl
        · rintro t ht ⟨k, hk, nk, hnk, htk⟩
          by_cases hkm : k ∈ mprs
          · exact ⟨k, hkm, nk, hnk, htk⟩
          · have h0 := hnone hb k hk hkm nk hnk
            have hpos : 0 < coverageOf nk uncovered :=
              (coverageOf_pos_iff nk uncovered).2 ⟨t, htk, ht⟩
            omega
      | some b =>
        obtain ⟨hbn, -, nb, hnb, hcov, hpos⟩ := hsome b hb
        have hlt := length_foldl_setDelete_lt nb uncovered (by rw [hcov]; exact hpos)
        obtain ⟨r, hr, h1, h2, h3⟩ := greedyLoop_spec nodes node hv fuel (mprs ++ [b])
          (nb.neighbors.foldl setDelete uncovered) (by omega)
        refine ⟨r, ?_, fun m hm => h1 m (List.mem_append_left _ hm), ?_, ?_⟩
        · rw [greedyLoop, if_pos hu, hst]
          simp only [Except.bind, bind, hb, lookupNode_of_getElem? hnb]
          exact hr
        · intro m hm
          rcases h2 m hm with h | h
          · rcases List.mem_append.1 h with h | h
            · exact Or.inl h
            · rw [List.mem_singleton] at h
              exact Or.inr (h ▸ hbn)
          · exact Or.inr h
        · intro t ht hreach
          by_cases htb : t ∈ nb.neighbors
          · exact ⟨b, h1 b (by simp), nb, hnb, htb⟩
          · exact h3 t ((mem_foldl_setDelete _ _ _).2 ⟨ht, htb⟩) hreach
    · refine ⟨mprs, ?_, fun m hm => hm, fun m hm => Or.inl hm, ?_⟩
      · rw [greedyLoop, if_neg hu]
        rfl
      · intro t ht
        have : uncovered = [] := List.length_eq_zero.1 (by omega)
        rw [this] at ht
        cases ht

end GreedyLoopLemmas

section ForcedLemmas

theorem length_setOfArray_le (l : List Nat) : (setOfArray l).length ≤ l.length := by
  have h : ∀ (l acc : List Nat), (l.foldl setAdd acc).length ≤ acc.length + l.length := by
    intro l
    induction l with
    | nil => simp
    | cons a l ih =>
      intro acc
      rw [List.foldl_cons]
      refine le_trans (ih _) ?_
      unfold setAdd
      split
      · simp only [List.length_cons]
        omega
      · simp only [List.length_append, List.length_cons, List.length_nil]
        omega
  simpa [setOfArray] using h l []

theorem length_setDelete_le (s : List Nat) (x : Nat) : (setDelete s x).length ≤ s.length :=
  List.length_filter_le _ _

/-- The forced step keeps what was selected before, selects only sole reachers, never
grows the uncovered set, and removes an index from it only together with selecting
its sole reacher. -/
theorem forcedStep_fold_spec : ∀ (m : List (Nat × List Nat)) (st : List Nat × List Nat),
    (∀ x ∈ st.1, x ∈ (m.foldl (fun st entry =>
        match entry.2 with
        | [only] => (st.1 ++ [only], setDelete st.2 entry.1)
        | _ => st) st).1) ∧
    (∀ x ∈ (m.foldl (fun st entry =>
        match entry.2 with
        | [only] => (st.1 ++ [only], setDelete st.2 entry.1)
        | _ => st) st).1, x ∈ st.1 ∨ ∃ e ∈ m, e.2 = [x]) ∧
    (m.foldl (fun st entry =>
        match entry.2 with
        | [only] => (st.1 ++ [only], setDelete st.2 entry.1)
        | _ => st) st).2.length ≤ st.2.length ∧
    (∀ t ∈ st.2, t ∈ (m.foldl (fun st entry =>
        match entry.2 with
        | [only] => (st.1 ++ [only], setDelete st.2 entry.1)
        | _ => st) st).2 ∨
      ∃ e ∈ m, e.1 = t ∧ ∃ x, e.2 = [x] ∧ x ∈ (m.foldl (fun st entry =>
        match entry.2 with
        | [only] => (st.1 ++ [only], setDelete st.2 entry.1)
        | _ => st) st).1)
  | [], st => ⟨fun x hx => hx, fun x hx => Or.inl hx, le_refl _, fun t ht => Or.inl ht⟩
  | e :: m, st => by
    rw [List.foldl_cons]
    cases he : e.2 with
    | nil =>
      obtain ⟨h1, h2, h3, h4⟩ := forcedStep_fold_spec m st
      refine ⟨h1, fun x hx => ?_, h3, fun t ht => ?_⟩
      · rcases h2 x hx with h | ⟨e', he', hx'⟩
        · exact Or.inl h
        · exact Or.inr ⟨e', List.mem_cons_of_mem e he', hx'⟩
      · rcases h4 t ht with h | ⟨e', he', hx'⟩
        · exact Or.inl h
        · exact Or.inr ⟨e', List.mem_cons_of_mem e he', hx'⟩
    | cons a tl =>
      cases htl : tl with
      | nil =>
        subst htl
        obtain ⟨h1, h2, h3, h4⟩ := forcedStep_fold_spec m (st.1 ++ [a], setDelete st.2 e.1)
        refine ⟨fun x hx => h1 x (List.mem_append_left _ hx), fun x hx => ?_, ?_,
          fun t ht => ?_⟩
        · rcases h2 x hx with h | ⟨e', he', hx'⟩
          · rcases List.mem_append.1 h with h | h
            · exact Or.inl h
            · rw [List.mem_singleton] at h
              subst h
              exact Or.inr ⟨e, List.mem_cons_self e m, he⟩
          · exact Or.inr ⟨e', List.mem_cons_of_mem e he', hx'⟩
        · exact le_trans h3 (length_setDelete_le _ _)
        · by_cases hte : t = e.1
          · exact Or.inr ⟨e, List.mem_cons_self e m, hte.symm, a, he, h1 a (by simp)⟩
          · rcases h4 t ((mem_setDelete _ _ _).2 ⟨ht, hte⟩) with h | ⟨e', he', hx'⟩
            · exact Or.inl h
            · exact Or.inr ⟨e', List.mem_cons_of_mem e he', hx'⟩
      | cons b tl' =>
        subst htl
        obtain ⟨h1, h2, h3, h4⟩ := forcedStep_fold_spec m st
        refine ⟨h1, fun x hx => ?_, h3, fun t ht => ?_⟩
        · rcases h2 x hx with h | ⟨e', he', hx'⟩
          · exact Or.inl h
          · exact Or.inr ⟨e', List.mem_cons_of_mem e he', hx'⟩
        · rcases h4 t ht with h | ⟨e', he', hx'⟩
          · exact Or.inl h
          · exact Or.inr ⟨e', List.mem_cons_of_mem e he', hx'⟩

theorem reachMapPush_inv (R : Nat → Nat → Prop) (m : List (Nat × List Nat)) (key v : Nat)
    (hm : ∀ e ∈ m, ∀ k ∈ e.2, R e.1 k) (hv : R key v) :
    ∀ e ∈ reachMapPush m key v, ∀ k ∈ e.2, R e.1 k := by
  intro e he k hk
  unfold reachMapPush at he
  split at he
  · rw [List.mem_map] at he
    obtain ⟨e0, he0, rfl⟩ := he
    by_cases h : e0.1 = key
    · rw [if_pos h] at hk ⊢
      simp only at hk ⊢
      rcases List.mem_append.1 hk with hk | hk
      · exact hm e0 he0 k hk
      · rw [List.mem_singleton] at hk
        subst hk
        rw [h]
        exact hv
    · rw [if_neg h] at hk ⊢
      exact hm e0 he0 k hk
  · rcases List.mem_append.1 he with he | he
    · exact hm e he k hk
    · rw [List.mem_singleton] at he
      subst he
      simp only [List.mem_singleton] at hk
      subst hk
      exact hv

end ForcedLemmas

section ReachMapLemmas
variable {α : Type}

theorem reachInner_inv (R : Nat → Nat → Prop) (nbrs : List Nat) (i a : Nat) :
    ∀ (l : List Nat) (m : List (Nat × List Nat)),
      (∀ e ∈ m, ∀ k ∈ e.2, R e.1 k) → (∀ p ∈ l, R p a) →
      ∀ e ∈ l.foldl (fun m potentialTwoHopIdx =>
          if ¬ potentialTwoHopIdx ∈ nbrs ∧ potentialTwoHopIdx ≠ i then
            reachMapPush m potentialTwoHopIdx a
          else m) m, ∀ k ∈ e.2, R e.1 k
  | [], m, hm, _ => hm
  | p :: l, m, hm, hl => by
    rw [List.foldl_cons]
    refine reachInner_inv R nbrs i a l _ ?_ (fun q hq => hl q (List.mem_cons_of_mem p hq))
    split
    · exact reachMapPush_inv R m p a hm (hl p (List.mem_cons_self p l))
    · exact hm

/-- Building the reach map succeeds when the neighbor indices are in range, and every
index listed under a key is a neighbor of the node that has the key among its own
neighbors. -/
theorem buildReachMap_fold_spec (nodes : List (Node α)) (i : Nat) (nbrs : List Nat) :
    ∀ (l : List Nat) (m : List (Nat × List Nat)), (∀ k ∈ l, k < nodes.length) →
      (∀ k ∈ l, k ∈ nbrs) →
      (∀ e ∈ m, ∀ k ∈ e.2, k ∈ nbrs ∧ ∃ nk, nodes[k]? = some nk ∧ e.1 ∈ nk.neighbors) →
      ∃ m', l.foldlM (fun m neighborIdx => do
          let neighbor ← lookupNode nodes neighborIdx
          pure (neighbor.neighbors.foldl (fun m potentialTwoHopIdx =>
            if ¬ potentialTwoHopIdx ∈ nbrs ∧ potentialTwoHopIdx ≠ i then
              reachMapPush m potentialTwoHopIdx neighborIdx
            else m) m)) m = Except.ok m' ∧
        ∀ e ∈ m', ∀ k ∈ e.2, k ∈ nbrs ∧ ∃ nk, nodes[k]? = some nk ∧ e.1 ∈ nk.neighbors
  | [], m, _, _, hm => ⟨m, rfl, hm⟩
  | a :: l, m, hv, hn, hm => by
    have ha : a < nodes.length := hv a (List.mem_cons_self a l)
    have hget : nodes[a]? = some nodes[a] := List.getElem?_eq_getElem ha
    have hstep := reachInner_inv
      (fun key k => k ∈ nbrs ∧ ∃ nk, nodes[k]? = some nk ∧ key ∈ nk.neighbors)
      nbrs i a (nodes[a]).neighbors m hm
      (fun p hp => ⟨hn a (List.mem_cons_self a l), nodes[a], hget, hp⟩)
    obtain ⟨m', h1, h2⟩ := buildReachMap_fold_spec nodes i nbrs l _
      (fun k hk => hv k (List.mem_cons_of_mem a hk))
      (fun k hk => hn k (List.mem_cons_of_mem a hk)) hstep
    refine ⟨m', ?_, h2⟩
    rw [List.foldlM_cons, lookupNode_of_getElem? hget]
    exact h1

/-- What `selectMPRs` computes for one node: it returns when the node's neighbor indices
are in range and the fuel is at least the number of its 2-hop entries; every index
selected is a neighbor of the node; and every 2-hop entry that some neighbor reaches is
reached by a selected neighbor. -/
theorem selectMPRsFor_spec (fuel : Nat) (nodes : List (Node α)) (i : Nat) (node : Node α)
    (hv : ∀ k ∈ node.neighbors, k < nodes.length)
    (hf : node.twoHopNeighbors.length ≤ fuel) :
    ∃ r, selectMPRsFor fuel nodes i node = Except.ok r ∧
      (∀ m ∈ r, m ∈ node.neighbors) ∧
      ∀ t ∈ node.twoHopNeighbors,
        (∃ k ∈ node.neighbors, ∃ nk, nodes[k]? = some nk ∧ t ∈ nk.neighbors) →
        ∃ m ∈ r, ∃ nm, nodes[m]? = some nm ∧ t ∈ nm.neighbors := by
  by_cases h0 : node.twoHopNeighbors.length > 0
  · obtain ⟨rm, hrm, hq⟩ := buildReachMap_fold_spec nodes i node.neighbors node.neighbors []
      hv (fun k hk => hk) (by simp)
    obtain ⟨f1, f2, f3, f4⟩ := forcedStep_fold_spec rm ([], setOfArray node.twoHopNeighbors)
    have hfuel : (forcedStep rm (setOfArray node.twoHopNeighbors)).2.length ≤ fuel :=
      le_trans f3 (le_trans (length_setOfArray_le _) hf)
    obtain ⟨r, hr, g1, g2, g3⟩ := greedyLoop_spec nodes node hv fuel
      (forcedStep rm (setOfArray node.twoHopNeighbors)).1
      (forcedStep rm (setOfArray node.twoHopNeighbors)).2 hfuel
    refine ⟨r, ?_, ?_, ?_⟩
    · unfold selectMPRsFor
      rw [if_pos h0]
      have hrm' : buildReachMap nodes i node = Except.ok rm := hrm
      rw [hrm']
      exact hr
    · intro m hm
      rcases g2 m hm with h | h
      · rcases f2 m h with h | ⟨e, he, hem⟩
        · cases h
        · exact (hq e he m (by rw [hem]; simp)).1
      · exact h
    · intro t ht hreach
      rcases f4 t ((mem_setOfArray _ _).2 ht) with h | ⟨e, he, het, x, hex, hx⟩
      · exact g3 t h hreach
      · obtain ⟨-, nx, hnx, htx⟩ := hq e he x (by rw [hex]; simp)
        exact ⟨x, g1 x hx, nx, hnx, het ▸ htx⟩
  · refine ⟨[], ?_, by simp, ?_⟩
    · unfold selectMPRsFor
      rw [if_neg h0]
      rfl
    · intro t ht
      have : node.twoHopNeighbors = [] := List.length_eq_zero.1 (by omega)
      rw [this] at ht
      cases ht

/-- What `selectMPRs` returns on a list whose neighbor indices are in range, given
fuel for the longest 2-hop list: node `i` of the result is node `i` of the input with
`mprs` replaced by a list of its neighbors that reaches every reachable 2-hop entry. -/
theorem selectMPRs_spec (fuel : Nat) (nodes : List (Node α))
    (hv : ∀ n ∈ nodes, ∀ k ∈ n.neighbors, k < nodes.length)
    (hf : ∀ n ∈ nodes, n.twoHopNeighbors.length ≤ fuel) :
    ∃ result, selectMPRs fuel nodes = Except.ok result ∧ result.length = nodes.length ∧
      ∀ (i : Nat) (ni : Node α), nodes[i]? = some ni →
        ∃ mprs, result[i]? = some { ni with mprs := mprs } ∧
          (∀ m ∈ mprs, m ∈ ni.neighbors) ∧
          ∀ t ∈ ni.twoHopNeighbors,
            (∃ k ∈ ni.neighbors, ∃ nk, nodes[k]? = some nk ∧ t ∈ nk.neighbors) →
            ∃ m ∈ mprs, ∃ nm, nodes[m]? = some nm ∧ t ∈ nm.neighbors := by
  have hok : ∀ (i : Nat) (x : Node α), nodes[i]? = some x →
      ∃ y, (do
        let mprs ← selectMPRsFor fuel nodes i x
        pure ({ x with mprs := mprs } : Node α)) = Except.ok y := by
    intro i x hx
    obtain ⟨r, hr, -⟩ := selectMPRsFor_spec fuel nodes i x
      (hv x (List.getElem?_mem hx)) (hf x (List.getElem?_mem hx))
    exact ⟨{ x with mprs := r }, by simp only [hr]; rfl⟩
  obtain ⟨result, hres⟩ : ∃ r, selectMPRs fuel nodes = .ok r := enum_mapM_ok nodes hok
  obtain ⟨hlen, hget⟩ := enum_mapM_inv nodes result hres
  refine ⟨result, hres, hlen, fun i ni hi => ?_⟩
  obtain ⟨y, hy, hfy⟩ := hget i ni hi
  obtain ⟨r, hr, h1, h2⟩ := selectMPRsFor_spec fuel nodes i ni
    (hv ni (List.getElem?_mem hi)) (hf ni (List.getElem?_mem hi))
  simp only [hr] at hfy
  cases hfy
  exact ⟨r, hy, h1, h2⟩

end ReachMapLemmas

section MPRClaims
variable {α : Type}

/-- A duplicate-free list of indices below `n` has at most `n` entries. -/
theorem length_le_of_nodup_lt (l : List Nat) (n : Nat) (hnd : l.Nodup)
    (hlt : ∀ x ∈ l, x < n) : l.length ≤ n := by
  have hsub : l ⊆ List.range n := fun x hx => List.mem_range.2 (hlt x hx)
  have := (List.subperm_of_subset hnd hsub).length_le
  simpa using this

/-- C7: on a node list whose neighbor indices are all in range (and with fuel for the
longest 2-hop list) `selectMPRs` returns, it leaves the `neighbors` lists as they were,
and every index in the `mprs` list it assigns to node `i` is a member of the
`neighbors` list of node `i`. -/
theorem selectMPRs_mprs_subset_neighbors (fuel : Nat) (nodes : List (Node α))
    (hv : ∀ n ∈ nodes, ∀ k ∈ n.neighbors, k < nodes.length)
    (hf : ∀ n ∈ nodes, n.twoHopNeighbors.length ≤ fuel) :
    (∃ result, selectMPRs fuel nodes = .ok result) ∧
    ∀ result, selectMPRs fuel nodes = .ok result →
      ∀ (i : Nat) (ni ri : Node α), nodes[i]? = some ni → result[i]? = some ri →
        ri.neighbors = ni.neighbors ∧ ∀ m ∈ ri.mprs, m ∈ ri.neighbors := by
  obtain ⟨result, hres, -, hget⟩ := selectMPRs_spec fuel nodes hv hf
  refine ⟨⟨result, hres⟩, ?_⟩
  intro result' h i ni ri hni hri
  rw [hres] at h
  cases h
  obtain ⟨mprs, h1, h2, -⟩ := hget i ni hni
  rw [hri] at h1
  cases h1
  exact ⟨rfl, h2⟩

theorem selectMPRs_mprs_subset_neighbors_witness :
    (∀ n ∈ gridTopology, ∀ k ∈ n.neighbors, k < gridTopology.length) ∧
      (∀ n ∈ gridTopology, n.twoHopNeighbors.length ≤ 5) ∧
      selectMPRs 5 gridTopology = .ok gridRelays ∧
      ∀ m ∈ ({ sampleNode 0 ⟨0, 0, 0⟩ 100 0 with
          mprs := [1], neighbors := [1, 4], twoHopNeighbors := [2, 3] } : Node ℚ).mprs,
        m ∈ ({ sampleNode 0 ⟨0, 0, 0⟩ 100 0 with
          mprs := [1], neighbors := [1, 4], twoHopNeighbors := [2, 3] } : Node ℚ).neighbors :=
  ⟨by decide, by decide, by decide,
    ((selectMPRs_mprs_subset_neighbors 5 gridTopology (by decide) (by decide)).2 gridRelays
      (by decide) 0 _ _ rfl rfl).2⟩

end MPRClaims

section CoverageClaim
variable {α : Type} [LinearOrderedField α]

/-- C3: for every node list and range, and fuel at least the number of nodes,
`calculateNeighbors` followed by `selectMPRs` returns, and in the result every entry
`t` of the `twoHopNeighbors` of every node `i` is in the `neighbors` list of some member
of the `mprs` list of node `i`. -/
theorem selectMPRs_covers_twoHop (sqrt : α → α) (nodes : List (Node α)) (range : α)
    (fuel : Nat) (hfuel : nodes.length ≤ fuel) :
    ∃ topology result, calculateNeighbors sqrt nodes range = .ok topology ∧
      selectMPRs fuel topology = .ok result ∧
      ∀ (i : Nat) (ri : Node α), result[i]? = some ri →
        ∀ t ∈ ri.twoHopNeighbors, ∃ m ∈ ri.mprs, ∃ rm, result[m]? = some rm ∧
          t ∈ rm.neighbors := by
  obtain ⟨topology, htopo, hlen, -⟩ := calculateNeighbors_spec sqrt nodes range
  have hnbr : ∀ (k : Nat) (tk : Node α), topology[k]? = some tk →
      ∀ x ∈ tk.neighbors, x < topology.length := by
    intro k tk hk x hx
    obtain ⟨nk, -, -, hn, -⟩ := calculateNeighbors_getElem? sqrt nodes range topology htopo k tk hk
    rw [hn] at hx
    rw [hlen]
    exact oneHopNeighbors_lt sqrt nodes range k nk x hx
  have hv : ∀ n ∈ topology, ∀ k ∈ n.neighbors, k < topology.length := by
    intro n hn
    obtain ⟨k, hk⟩ := List.mem_iff_getElem?.1 hn
    exact hnbr k n hk
  have hf : ∀ n ∈ topology, n.twoHopNeighbors.length ≤ fuel := by
    intro n hn
    obtain ⟨i, hi⟩ := List.mem_iff_getElem?.1 hn
    obtain ⟨ni, -, -, -, hnd, hmem⟩ :=
      calculateNeighbors_getElem? sqrt nodes range topology htopo i n hi
    refine le_trans (length_le_of_nodup_lt _ topology.length hnd ?_) (by omega)
    intro x hx
    obtain ⟨-, -, k, -, rk, hrk, hxk⟩ := (hmem x).1 hx
    exact hnbr k rk hrk x hxk
  obtain ⟨result, hres, hlen', hget⟩ := selectMPRs_spec fuel topology hv hf
  refine ⟨topology, result, htopo, hres, ?_⟩
  intro i ri hri t ht
  have hi : i < topology.length := by
    rw [← hlen']
    exact (List.getElem?_eq_some.1 hri).1
  have hti : topology[i]? = some topology[i] := List.getElem?_eq_getElem hi
  obtain ⟨mprs, h1, -, h3⟩ := hget i topology[i] hti
  rw [hri] at h1
  cases h1
  obtain ⟨ni, -, -, -, -, hmem⟩ :=
    calculateNeighbors_getElem? sqrt nodes range topology htopo i topology[i] hti
  obtain ⟨-, -, k, hk, rk, hrk, htk⟩ := (hmem t).1 ht
  obtain ⟨m, hm, nm, hnm, htm⟩ := h3 t ht ⟨k, hk, rk, hrk, htk⟩
  obtain ⟨mprs', h4, -⟩ := hget m nm hnm
  exact ⟨m, hm, _, h4, htm⟩

theorem selectMPRs_covers_twoHop_witness :
    gridField.length ≤ 5 ∧
      ∃ topology result, calculateNeighbors sqrtQ gridField 100 = .ok topology ∧
        selectMPRs 5 topology = .ok result ∧
        ∀ (i : Nat) (ri : Node ℚ), result[i]? = some ri →
          ∀ t ∈ ri.twoHopNeighbors, ∃ m ∈ ri.mprs, ∃ rm, result[m]? = some rm ∧
            t ∈ rm.neighbors :=
  ⟨by decide, selectMPRs_covers_twoHop sqrtQ gridField 100 5 (by decide)⟩

end CoverageClaim

section ResolveIdsLemmas
variable {α : Type}

/-- The way the OLSR branch resolves and filters ids agrees with `resolveIds` followed
by a filter. -/
theorem map_find_filterMap_eq (nodes : List (Node α)) (p : Node α → Bool) (ids : List Nat) :
    (ids.map (fun k => nodes.find? (fun node => node.id == k))).filterMap
        (fun node => node.filter p) =
      (resolveIds nodes ids).filter p := by
  unfold resolveIds
  induction ids with
  | nil => rfl
  | cons k ids ih =>
    rw [List.map_cons, List.filterMap_cons, List.filterMap_cons, ih]
    cases hf : nodes.find? (fun node => node.id == k) with
    | none => rfl
    | some m =>
      have h1 : Option.filter p (some m) = if p m = true then some m else none := rfl
      rw [h1, List.filter_cons]
      by_cases hp : p m = true
      · rw [if_pos hp, if_pos hp]
      · rw [if_neg hp, if_neg hp]

end ResolveIdsLemmas

section OLSRLemmas
variable {α : Type} [LinearOrderedField α]

/-- The OLSR branch for a source at least 100 from the sink, when some resolved MPR has
energy above 20: the MPR candidates sorted by the score comparator. -/
theorem selectNextHopNodes_OLSR_mprBranch (sqrt : α → α) (s : Node α)
    (nodes : List (Node α))
    (hfar : 100 ≤ calculateDistance sqrt s.position sinkPosition)
    (hmpr : ∃ n ∈ resolveIds nodes s.mprs, n.energy > 20) :
    selectNextHopNodes sqrt s nodes "OLSR" =
      jsSort (fun a b =>
          (calculateDistance sqrt a.position sinkPosition * 0.7 - a.energy * 0.3) -
            (calculateDistance sqrt b.position sinkPosition * 0.7 - b.energy * 0.3))
        ((resolveIds nodes s.mprs).filter (fun n => decide (n.energy > 20))) := by
  obtain ⟨n, hn, he⟩ := hmpr
  have hmem : n ∈ (resolveIds nodes s.mprs).filter (fun n => decide (n.energy > 20)) :=
    List.mem_filter.2 ⟨hn, decide_eq_true he⟩
  have hlen : ((resolveIds nodes s.mprs).filter (fun n => decide (n.energy > 20))).length > 0 :=
    List.length_pos_of_mem hmem
  have hm : s.mprs.length > 0 := by
    cases hs : s.mprs with
    | nil => rw [hs] at hn; simp [resolveIds] at hn
    | cons a l => simp
  simp only [selectNextHopNodes, not_lt.2 hfar, if_false, map_find_filterMap_eq, if_pos hm,
    if_pos hlen]

/-- The OLSR branch for a source at least 100 from the sink, when no resolved MPR has
energy above 20: the neighbor candidates sorted by distance to the sink. -/
theorem selectNextHopNodes_OLSR_fallback (sqrt : α → α) (s : Node α)
    (nodes : List (Node α))
    (hfar : 100 ≤ calculateDistance sqrt s.position sinkPosition)
    (hnone : ∀ n ∈ resolveIds nodes s.mprs, ¬ n.energy > 20) :
    selectNextHopNodes sqrt s nodes "OLSR" =
      jsSort (fun a b =>
          calculateDistance sqrt a.position sinkPosition -
            calculateDistance sqrt b.position sinkPosition)
        ((resolveIds nodes s.neighbors).filter (fun n => decide (n.energy > 10))) := by
  have hnil : (resolveIds nodes s.mprs).filter (fun n => decide (n.energy > 20)) = [] := by
    rw [List.filter_eq_nil_iff]
    intro n hn
    simpa using hnone n hn
  simp only [selectNextHopNodes, not_lt.2 hfar, if_false, map_find_filterMap_eq, hnil,
    List.length_nil, gt_iff_lt, lt_self_iff_false, ite_self]

end OLSRLemmas

section OLSRClaims
variable {α : Type} [LinearOrderedField α]

/-- C11: under OLSR, for a source at distance at least 100 from the sink with some MPR
id resolving to a node of energy above 20, `selectNextHopNodes` returns a permutation
of the resolved MPR nodes of energy above 20 (so it returns exactly those nodes), in
ascending order of the score `0.7*distanceToSink - 0.3*energy`. -/
theorem selectNextHopNodes_OLSR_mprs (sqrt : α → α) (sourceNode : Node α)
    (nodes : List (Node α))
    (hfar : 100 ≤ calculateDistance sqrt sourceNode.position sinkPosition)
    (hmpr : ∃ n ∈ resolveIds nodes sourceNode.mprs, n.energy > 20) :
    (selectNextHopNodes sqrt sourceNode nodes "OLSR").Perm
        ((resolveIds nodes sourceNode.mprs).filter (fun n => decide (n.energy > 20))) ∧
      (∀ n, n ∈ selectNextHopNodes sqrt sourceNode nodes "OLSR" ↔
        n ∈ resolveIds nodes sourceNode.mprs ∧ n.energy > 20) ∧
      (selectNextHopNodes sqrt sourceNode nodes "OLSR").Pairwise
        (fun a b => olsrScore sqrt a ≤ olsrScore sqrt b) ∧
      (selectNextHopNodes sqrt sourceNode nodes "OLSR").Chain'
        (fun a b => olsrScore sqrt a ≤ olsrScore sqrt b) := by
  rw [selectNextHopNodes_OLSR_mprBranch sqrt sourceNode nodes hfar hmpr]
  have hp := jsSort_pairwise (fun a b : Node α =>
      (calculateDistance sqrt a.position sinkPosition * 0.7 - a.energy * 0.3) -
        (calculateDistance sqrt b.position sinkPosition * 0.7 - b.energy * 0.3))
    (olsrScore sqrt)
    (by
      intro a b
      simp only [olsrScore]
      constructor <;> intro h <;> linarith)
    ((resolveIds nodes sourceNode.mprs).filter (fun n => decide (n.energy > 20)))
  refine ⟨jsSort_perm _ _, fun n => ?_, hp, hp.chain'⟩
  rw [mem_jsSort, List.mem_filter, decide_eq_true_iff]

theorem selectNextHopNodes_OLSR_mprs_witness :
    100 ≤ calculateDistance sqrtQ farSource.position sinkPosition ∧
      (∃ n ∈ resolveIds farField farSource.mprs, n.energy > 20) ∧
      (selectNextHopNodes sqrtQ farSource farField "OLSR").Perm
        ((resolveIds farField farSource.mprs).filter (fun n => decide (n.energy > 20))) :=
  ⟨by with_unfolding_all decide, by with_unfolding_all decide,
    (selectNextHopNodes_OLSR_mprs sqrtQ farSource farField (by with_unfolding_all decide)
      (by with_unfolding_all decide)).1⟩

/-- C12: under OLSR, for a source at distance at least 100 from the sink none of whose
MPR ids resolves to a node of energy above 20 (in particular a source without MPRs),
`selectNextHopNodes` returns a permutation of the resolved 1-hop neighbors of energy
above 10 (so it returns exactly those nodes), in ascending order of distance to the
sink. -/
theorem selectNextHopNodes_OLSR_neighbors (sqrt : α → α) (sourceNode : Node α)
    (nodes : List (Node α))
    (hfar : 100 ≤ calculateDistance sqrt sourceNode.position sinkPosition)
    (hnone : ∀ n ∈ resolveIds nodes sourceNode.mprs, ¬ n.energy > 20) :
    (selectNextHopNodes sqrt sourceNode nodes "OLSR").Perm
        ((resolveIds nodes sourceNode.neighbors).filter (fun n => decide (n.energy > 10))) ∧
      (∀ n, n ∈ selectNextHopNodes sqrt sourceNode nodes "OLSR" ↔
        n ∈ resolveIds nodes sourceNode.neighbors ∧ n.energy > 10) ∧
      (selectNextHopNodes sqrt sourceNode nodes "OLSR").Pairwise
        (fun a b => calculateDistance sqrt a.position sinkPosition ≤
          calculateDistance sqrt b.position sinkPosition) ∧
      (selectNextHopNodes sqrt sourceNode nodes "OLSR").Chain'
        (fun a b => calculateDistance sqrt a.position sinkPosition ≤
          calculateDistance sqrt b.position sinkPosition) := by
  rw [selectNextHopNodes_OLSR_fallback sqrt sourceNode nodes hfar hnone]
  have hp := jsSort_pairwise (fun a b : Node α =>
      calculateDistance sqrt a.position sinkPosition -
        calculateDistance sqrt b.position sinkPosition)
    (fun n => calculateDistance sqrt n.position sinkPosition)
    (fun a b => sub_nonpos)
    ((resolveIds nodes sourceNode.neighbors).filter (fun n => decide (n.energy > 10)))
  refine ⟨jsSort_perm _ _, fun n => ?_, hp, hp.chain'⟩
  rw [mem_jsSort, List.mem_filter, decide_eq_true_iff]

theorem selectNextHopNodes_OLSR_neighbors_witness :
    100 ≤ calculateDistance sqrtQ lowRelaySource.position sinkPosition ∧
      (∀ n ∈ resolveIds lowRelayField lowRelaySource.mprs, ¬ n.energy > 20) ∧
      selectNextHopNodes sqrtQ lowRelaySource lowRelayField "OLSR" =
        [sampleNode 2 ⟨160, 30, 0⟩ 15 30, sampleNode 1 ⟨180, 0, 0⟩ 18 0] ∧
      (selectNextHopNodes sqrtQ lowRelaySource lowRelayField "OLSR").Perm
        ((resolveIds lowRelayField lowRelaySource.neighbors).filter
          (fun n => decide (n.energy > 10))) :=
  ⟨by with_unfolding_all decide, by with_unfolding_all decide, by with_unfolding_all decide,
    (selectNextHopNodes_OLSR_neighbors sqrtQ lowRelaySource lowRelayField
      (by with_unfolding_all decide) (by with_unfolding_all decide)).1⟩

end OLSRClaims

section PipeClaims
variable {α : Type} [LinearOrderedField α]

/-- C13: under VBF, for a source not located at the sink, a node is returned exactly
when it is in the list, its id differs from the source's, its energy is at least 10,
the projection of the source-to-candidate vector onto the unit source-to-sink vector is
strictly positive, and its distance to the projected point is at most 50; the returned
nodes keep their order in the node list. -/
theorem selectNextHopNodes_VBF_eligibility (sqrt : α → α) (sourceNode : Node α)
    (nodes : List (Node α)) (_hsrc : sourceNode.position ≠ sinkPosition) :
    (∀ n, n ∈ selectNextHopNodes sqrt sourceNode nodes "VBF" ↔
      n ∈ nodes ∧ n.id ≠ sourceNode.id ∧ 10 ≤ n.energy ∧
        0 < vbfProjection sqrt sourceNode n ∧
        calculateDistance sqrt n.position (vbfProjectedPoint sqrt sourceNode n) ≤ 50) ∧
      (selectNextHopNodes sqrt sourceNode nodes "VBF").Sublist nodes := by
  have hdef : selectNextHopNodes sqrt sourceNode nodes "VBF" = nodes.filter (fun node =>
      if node.id = sourceNode.id ∨ node.energy < 10 then false
      else if vbfProjection sqrt sourceNode node ≤ 0 then false
      else decide (calculateDistance sqrt node.position
        (vbfProjectedPoint sqrt sourceNode node) ≤ 50)) := by
    simp only [selectNextHopNodes, vbfProjection, vbfProjectedPoint]
  rw [hdef]
  refine ⟨fun n => ?_, List.filter_sublist _⟩
  rw [List.mem_filter]
  constructor
  · rintro ⟨hm, hf⟩
    split at hf
    · cases hf
    · rename_i h1
      rw [not_or, not_lt] at h1
      split at hf
      · cases hf
      · rename_i h2
        exact ⟨hm, h1.1, h1.2, not_le.1 h2, of_decide_eq_true hf⟩
  · rintro ⟨hm, hid, he, hp, hd⟩
    refine ⟨hm, ?_⟩
    rw [if_neg (by rw [not_or, not_lt]; exact ⟨hid, he⟩), if_neg (not_le.2 hp)]
    exact decide_eq_true hd

theorem selectNextHopNodes_VBF_eligibility_witness :
    farSource.position ≠ sinkPosition ∧
      selectNextHopNodes sqrtQ farSource farField "VBF" =
        [sampleNode 1 ⟨150, 0, 0⟩ 80 0, sampleNode 2 ⟨160, 30, 0⟩ 15 30] ∧
      (selectNextHopNodes sqrtQ farSource farField "VBF").Sublist farField :=
  ⟨by with_unfolding_all decide, by with_unfolding_all decide,
    (selectNextHopNodes_VBF_eligibility sqrtQ farSource farField
      (by with_unfolding_all decide)).2⟩

/-- C14: under HHVBF a node is returned exactly when it is in the list, its id differs
from the source's, its energy is at least 10, its distance from the source lies in
`[20, 150]` and its distance to the sink is strictly less than the source's; the
result is the same for every value given to the pipe radius in place of 70. -/
theorem selectNextHopNodes_HHVBF_eligibility (sqrt : α → α) (sourceNode : Node α)
    (nodes : List (Node α)) :
    (∀ n, n ∈ selectNextHopNodes sqrt sourceNode nodes "HHVBF" ↔
      n ∈ nodes ∧ n.id ≠ sourceNode.id ∧ 10 ≤ n.energy ∧
        20 ≤ calculateDistance sqrt sourceNode.position n.position ∧
        calculateDistance sqrt sourceNode.position n.position ≤ 150 ∧
        calculateDistance sqrt n.position sinkPosition <
          calculateDistance sqrt sourceNode.position sinkPosition) ∧
      (∀ pipeRadius : α, selectNextHopNodes sqrt sourceNode nodes "HHVBF" =
        selectNextHopNodesHHVBF pipeRadius sqrt sourceNode nodes) := by
  have hdef : ∀ pipeRadius : α, selectNextHopNodes sqrt sourceNode nodes "HHVBF" =
      selectNextHopNodesHHVBF pipeRadius sqrt sourceNode nodes := by
    intro pipeRadius
    simp only [selectNextHopNodes, selectNextHopNodesHHVBF]
  refine ⟨fun n => ?_, hdef⟩
  rw [hdef 70, selectNextHopNodesHHVBF, List.mem_filter]
  constructor
  · rintro ⟨hm, hf⟩
    split at hf
    · cases hf
    · rename_i h1
      rw [not_or, not_lt] at h1
      simp only at hf
      split at hf
      · cases hf
      · rename_i h2
        rw [not_or, not_lt, not_lt] at h2
        exact ⟨hm, h1.1, h1.2, h2.1, h2.2, of_decide_eq_true hf⟩
  · rintro ⟨hm, hid, he, h20, h150, hd⟩
    refine ⟨hm, ?_⟩
    rw [if_neg (by rw [not_or, not_lt]; exact ⟨hid, he⟩)]
    simp only
    rw [if_neg (by rw [not_or, not_lt, not_lt]; exact ⟨h20, h150⟩)]
    exact decide_eq_true hd

theorem selectNextHopNodes_HHVBF_eligibility_witness :
    selectNextHopNodes sqrtQ farSource farField "HHVBF" =
        selectNextHopNodesHHVBF 0 sqrtQ farSource farField ∧
      selectNextHopNodes sqrtQ farSource farField "HHVBF" =
        [sampleNode 1 ⟨150, 0, 0⟩ 80 0, sampleNode 2 ⟨160, 30, 0⟩ 15 30] :=
  ⟨(selectNextHopNodes_HHVBF_eligibility sqrtQ farSource farField).2 0,
    by with_unfolding_all decide⟩

end PipeClaims

section FieldLemmas
variable {α : Type} [LinearOrderedField α]

theorem length_generateNodes (rand : Nat → α) (count : Int) :
    (generateNodes rand count).length = count.toNat := by
  simp [generateNodes]

theorem generateNodes_of_lt_one (rand : Nat → α) (count : Int) (h : count < 1) :
    generateNodes rand count = [] := by
  have h0 : count.toNat = 0 := by omega
  simp [generateNodes, h0]

/-- The fields of the node that `generateNodes` puts at index `k` which do not depend
on the random draws. -/
theorem generateNodes_getElem? (rand : Nat → α) (count : Int) (k : Nat) (n : Node α)
    (h : (generateNodes rand count)[k]? = some n) :
    n.id = k ∧ n.energy = 100 ∧ n.isActive = false ∧ n.depth = 0 ∧
      n.neighbors = [] ∧ n.twoHopNeighbors = [] ∧ n.mprs = [] := by
  simp only [generateNodes, List.getElem?_map] at h
  cases hk : (List.range count.toNat)[k]? with
  | none => rw [hk] at h; cases h
  | some i =>
    rw [hk] at h
    have hi : i = k := by
      have := List.getElem?_eq_some.1 hk
      obtain ⟨hlt, heq⟩ := this
      rw [List.getElem_range] at heq
      exact heq.symm
    simp only [Option.map_some', Option.some.injEq] at h
    subst h
    exact ⟨hi, rfl, rfl, rfl, rfl, rfl, rfl⟩

theorem map_id_generateNodes (rand : Nat → α) (count : Int) :
    (generateNodes rand count).map (fun n => n.id) = List.range count.toNat := by
  simp only [generateNodes, List.map_map]
  exact List.map_id'' (fun _ => rfl) _

end FieldLemmas

section FieldClaims
variable {α : Type} [LinearOrderedField α]

/-- C15 (as stated, refuted): the 2D view-mode update leaves a node initialised at
`position[1] = 0` with depth 20, not with the absolute value of `position[1]`. -/
theorem applyViewMode_2D_depth_not_abs_y :
    (applyViewMode "2D" (initializeNodes (fun _ => (1 / 2 : ℚ)) 1)).map
        (fun n => (n.depth, |n.position.y|)) = [(20, 0)] := by
  with_unfolding_all decide

/-- C15 (amended): after field initialisation every node's depth equals the absolute
value of `position[1]`; the 2D view-mode update sets `position[2]` to -20 and the depth
to 20 on every node and keeps everything else, `position[0]` and `position[1]`
included. -/
theorem depth_after_position_updates (rand : Nat → α) (nodeCount : Int)
    (prevNodes : List (Node α)) :
    (∀ n ∈ initializeNodes rand nodeCount, n.depth = |n.position.y|) ∧
      (∀ n ∈ applyViewMode "2D" prevNodes, n.depth = 20 ∧ n.position.z = -20) ∧
      applyViewMode "2D" prevNodes = prevNodes.map (fun node =>
        { node with position := ⟨node.position.x, node.position.y, -20⟩, depth := 20 }) := by
  refine ⟨?_, ?_, ?_⟩
  · intro n hn
    simp only [initializeNodes, List.mem_map] at hn
    obtain ⟨m, -, rfl⟩ := hn
    rfl
  · intro n hn
    simp only [applyViewMode, if_true, List.mem_map] at hn
    obtain ⟨m, -, rfl⟩ := hn
    exact ⟨rfl, rfl⟩
  · simp only [applyViewMode, if_true]

theorem depth_after_position_updates_witness :
    sampleNode 0 ⟨0, 50, -107⟩ 100 50 ∈
        initializeNodes (fun k => if k = 2 then (2 / 3 : ℚ) else 1 / 2) 1 ∧
      (sampleNode 0 ⟨0, 50, -107⟩ 100 50).depth =
        |(sampleNode 0 ⟨0, 50, -107⟩ 100 50).position.y| :=
  ⟨by with_unfolding_all decide,
    (depth_after_position_updates (fun k => if k = 2 then (2 / 3 : ℚ) else 1 / 2) 1 []).1 _
      (by with_unfolding_all decide)⟩

end FieldClaims

section CountClaims
variable {α : Type} [LinearOrderedField α]

/-- C16 (as stated, refuted): a count of 0 is not rejected; `generateNodes` returns the
empty field for it, and the node-count input replaces an entered 0 by 1. -/
theorem count_zero_not_rejected :
    generateNodes (fun _ => (1 / 2 : ℚ)) 0 = [] ∧ nodeCountInput (some 0) = 1 := by
  with_unfolding_all decide

/-- C16 (amended): neither `generateNodes` nor the node-count input signals an error.
For every count below 1 `generateNodes` returns the empty field; the input replaces an
entered 0 and an unparsable entry by 1 and passes every count of at least 1 on
unchanged. -/
theorem count_below_one_handling (rand : Nat → α) (count : Int) (h : count < 1) :
    generateNodes rand count = [] ∧
      nodeCountInput (some 0) = 1 ∧ nodeCountInput none = 1 ∧
      ∀ n : Int, 1 ≤ n → nodeCountInput (some n) = n := by
  refine ⟨generateNodes_of_lt_one rand count h, rfl, rfl, fun n hn => ?_⟩
  have h0 : n ≠ 0 := by omega
  simp [nodeCountInput, h0]

theorem count_below_one_handling_witness :
    (-3 : Int) < 1 ∧ generateNodes (fun _ => (1 / 2 : ℚ)) (-3) = [] :=
  ⟨by decide, (count_below_one_handling (fun _ => (1 / 2 : ℚ)) (-3) (by decide)).1⟩

/-- C17: for every count of at least 1 and every sequence of random draws,
`generateNodes` returns exactly `count` nodes, the node at index `k` has id `k` (the
ids are `0, ..., count - 1` in order, hence distinct), and every node has energy 100,
is inactive, and has empty `neighbors`, `twoHopNeighbors` and `mprs` lists. -/
theorem generateNodes_initial_state (rand : Nat → α) (count : Int) (h : 1 ≤ count) :
    ((generateNodes rand count).length : Int) = count ∧
      (generateNodes rand count).map (fun n => n.id) = List.range count.toNat ∧
      ((generateNodes rand count).map (fun n => n.id)).Nodup ∧
      ∀ (k : Nat) (n : Node α), (generateNodes rand count)[k]? = some n →
        n.id = k ∧ n.energy = 100 ∧ n.isActive = false ∧
          n.neighbors = [] ∧ n.twoHopNeighbors = [] ∧ n.mprs = [] := by
  refine ⟨?_, map_id_generateNodes rand count, ?_, ?_⟩
  · rw [length_generateNodes]
    omega
  · rw [map_id_generateNodes]
    exact List.nodup_range _
  · intro k n hk
    obtain ⟨h1, h2, h3, -, h5, h6, h7⟩ := generateNodes_getElem? rand count k n hk
    exact ⟨h1, h2, h3, h5, h6, h7⟩

theorem generateNodes_initial_state_witness :
    (1 : Int) ≤ 3 ∧ ((generateNodes (fun _ => (1 / 2 : ℚ)) 3).length : Int) = 3 ∧
      (generateNodes (fun _ => (1 / 2 : ℚ)) 3).map (fun n => n.id) = List.range 3 :=
  ⟨by decide, (generateNodes_initial_state (fun _ => (1 / 2 : ℚ)) 3 (by decide)).1,
    (generateNodes_initial_state (fun _ => (1 / 2 : ℚ)) 3 (by decide)).2.1⟩

end CountClaims

section EnergyClaims
variable {α : Type} [LinearOrderedField α]

theorem energyTickNode_energy (speedFactor random : α) (now : Nat) (node : Node α) :
    (energyTickNode speedFactor random now node).energy =
      max 0 (node.energy - 0.01 * speedFactor) := by
  unfold energyTickNode
  simp only
  split <;> rfl

theorem energyTick_map_energy (simulationSpeed : α) (rand : Nat → α) (now : Nat)
    (prevNodes : List (Node α)) :
    (energyTick simulationSpeed rand now prevNodes).map (fun n => n.energy) =
      prevNodes.map (fun n => max 0 (n.energy - 0.01 * (simulationSpeed / 50))) := by
  apply List.ext_getElem?
  intro i
  simp only [energyTick, List.getElem?_map, List.getElem?_enum, Option.map_map]
  cases prevNodes[i]? with
  | none => rfl
  | some n => exact congrArg some (energyTickNode_energy _ _ _ _)

/-- C18: for every speed factor of at least 0 and every node with energy in
`[0, 100]`, one energy tick sets the energy to `max(0, energy - 0.01*speedFactor)`,
which is at most the old energy and within `[0, 100]`; so after any number of ticks
the energy is at most the initial one and within `[0, 100]`. The tick of a whole node
list at `simulationSpeed = 50*speedFactor` does this to every node. -/
theorem energyTick_energy_bounds (speedFactor : α) (hs : 0 ≤ speedFactor) (node : Node α)
    (h0 : 0 ≤ node.energy) (h100 : node.energy ≤ 100) :
    (∀ (random : α) (now : Nat),
      (energyTickNode speedFactor random now node).energy =
          max 0 (node.energy - 0.01 * speedFactor) ∧
        (energyTickNode speedFactor random now node).energy ≤ node.energy ∧
        0 ≤ (energyTickNode speedFactor random now node).energy ∧
        (energyTickNode speedFactor random now node).energy ≤ 100) ∧
      (∀ ticks : List (α × Nat),
        (ticks.foldl (fun n t => energyTickNode speedFactor t.1 t.2 n) node).energy ≤
            node.energy ∧
          0 ≤ (ticks.foldl (fun n t => energyTickNode speedFactor t.1 t.2 n) node).energy ∧
          (ticks.foldl (fun n t => energyTickNode speedFactor t.1 t.2 n) node).energy ≤ 100) ∧
      ∀ (simulationSpeed : α) (rand : Nat → α) (now : Nat) (prevNodes : List (Node α)),
        simulationSpeed / 50 = speedFactor →
        (energyTick simulationSpeed rand now prevNodes).map (fun n => n.energy) =
          prevNodes.map (fun n => max 0 (n.energy - 0.01 * speedFactor)) := by
  have hstep : ∀ (m : Node α) (random : α) (now : Nat), 0 ≤ m.energy →
      (energyTickNode speedFactor random now m).energy ≤ m.energy ∧
        0 ≤ (energyTickNode speedFactor random now m).energy := by
    intro m random now hm
    rw [energyTickNode_energy]
    have hd : (0 : α) ≤ 0.01 * speedFactor := mul_nonneg (by norm_num) hs
    exact ⟨max_le hm (by linarith), le_max_left _ _⟩
  refine ⟨?_, ?_, ?_⟩
  · intro random now
    obtain ⟨h1, h2⟩ := hstep node random now h0
    exact ⟨energyTickNode_energy _ _ _ _, h1, h2, le_trans h1 h100⟩
  · intro ticks
    have hfold : ∀ (ticks : List (α × Nat)) (m : Node α), 0 ≤ m.energy →
        (ticks.foldl (fun n t => energyTickNode speedFactor t.1 t.2 n) m).energy ≤ m.energy ∧
          0 ≤ (ticks.foldl (fun n t => energyTickNode speedFactor t.1 t.2 n) m).energy := by
      intro ticks
      induction ticks with
      | nil => intro m hm; exact ⟨le_refl _, hm⟩
      | cons t ticks ih =>
        intro m hm
        obtain ⟨h1, h2⟩ := hstep m t.1 t.2 hm
        obtain ⟨h3, h4⟩ := ih _ h2
        exact ⟨le_trans h3 h1, h4⟩
    obtain ⟨h1, h2⟩ := hfold ticks node h0
    exact ⟨h1, h2, le_trans h1 h100⟩
  · intro simulationSpeed rand now prevNodes hsp
    rw [energyTick_map_energy, hsp]

theorem energyTick_energy_bounds_witness :
    (0 : ℚ) ≤ 1 ∧ 0 ≤ (sampleNode 0 ⟨0, 50, -107⟩ 100 50).energy ∧
      (sampleNode 0 ⟨0, 50, -107⟩ 100 50).energy ≤ 100 ∧
      (energyTickNode 1 0 7 (sampleNode 0 ⟨0, 50, -107⟩ 100 50)).energy =
        max 0 ((sampleNode 0 ⟨0, 50, -107⟩ 100 50).energy - 0.01 * 1) :=
  ⟨by decide, by with_unfolding_all decide, by with_unfolding_all decide,
    ((energyTick_energy_bounds (1 : ℚ) (by decide) (sampleNode 0 ⟨0, 50, -107⟩ 100 50)
      (by with_unfolding_all decide) (by with_unfolding_all decide)).1 0 7).1⟩

end EnergyClaims

section PacketLemmas
variable {α : Type} [LinearOrderedField α]

theorem newProgress_of_ne_zero (now : α) (packet : Packet α) (h : packet.createdAt ≠ 0) :
    newProgress now packet = min 1 ((now - packet.createdAt) / 3000) := by
  simp only [newProgress, if_neg h]
  exact min_comm _ _

theorem newProgress_of_eq_zero (now : α) (packet : Packet α) (h : packet.createdAt = 0) :
    newProgress now packet = 0 := by
  simp only [newProgress, if_pos h, sub_self, zero_div]
  exact min_eq_left zero_le_one

theorem mem_updatePackets (simulationSpeed now : α) (prev : List (Packet α))
    (q : Packet α) :
    q ∈ updatePackets simulationSpeed now prev ↔
      ∃ packet ∈ prev, q = { packet with progress := newProgress now packet } ∧
        newProgress now packet < 1 := by
  simp only [updatePackets, List.mem_filter, List.mem_map, decide_eq_true_eq]
  constructor
  · rintro ⟨⟨packet, hp, rfl⟩, hlt⟩
    exact ⟨packet, hp, rfl, hlt⟩
  · rintro ⟨packet, hp, rfl, hlt⟩
    exact ⟨⟨packet, hp, rfl⟩, hlt⟩

theorem newProgress_mono (packet : Packet α) (now1 now2 : α) (h : now1 ≤ now2) :
    newProgress now1 packet ≤ newProgress now2 packet := by
  by_cases hc : packet.createdAt = 0
  · rw [newProgress_of_eq_zero now1 packet hc, newProgress_of_eq_zero now2 packet hc]
  · rw [newProgress_of_ne_zero now1 packet hc, newProgress_of_ne_zero now2 packet hc]
    refine min_le_min (le_refl _) ?_
    exact div_le_div_of_nonneg_right (by linarith) (by norm_num)

end PacketLemmas

section PacketClaims
variable {α : Type} [LinearOrderedField α]

/-- C19 (as stated, refuted): for a packet with `createdAt = 0` the update at time 3000
sets the progress to 0, not to `min(1, (3000 - 0) / 3000) = 1`, and keeps the packet. -/
theorem newProgress_zero_createdAt :
    newProgress 3000 (samplePacket 0) = 0 ∧
      min 1 ((3000 - (samplePacket 0).createdAt) / 3000) = 1 ∧
      updatePackets 50 3000 [samplePacket 0] = [samplePacket 0] := by
  with_unfolding_all decide

/-- C19 (amended): for every packet with `createdAt` other than 0 and every time `now`
the progress computed is `min(1, (now - createdAt) / 3000)`, and the packets of the
updated list are the previous packets with that progress, kept when it is below 1; for
a packet with `createdAt = 0` the progress computed is 0 at every time. -/
theorem newProgress_formula (simulationSpeed now : α) (packet : Packet α)
    (h : packet.createdAt ≠ 0) :
    newProgress now packet = min 1 ((now - packet.createdAt) / 3000) ∧
      (∀ prev : List (Packet α), packet ∈ prev →
        min 1 ((now - packet.createdAt) / 3000) < 1 →
        { packet with progress := min 1 ((now - packet.createdAt) / 3000) } ∈
          updatePackets simulationSpeed now prev) ∧
      (∀ (prev : List (Packet α)) (q : Packet α),
        q ∈ updatePackets simulationSpeed now prev →
        ∃ p ∈ prev, q = { p with progress := newProgress now p }) ∧
      ∀ p : Packet α, p.createdAt = 0 → newProgress now p = 0 := by
  have hf := newProgress_of_ne_zero now packet h
  refine ⟨hf, fun prev hp hlt => ?_, fun prev q hq => ?_,
    fun p hp => newProgress_of_eq_zero now p hp⟩
  · rw [mem_updatePackets]
    exact ⟨packet, hp, by rw [hf], by rw [hf]; exact hlt⟩
  · obtain ⟨p, hp, hq, -⟩ := (mem_updatePackets simulationSpeed now prev q).1 hq
    exact ⟨p, hp, hq⟩

theorem newProgress_formula_witness :
    (samplePacket 1000).createdAt ≠ 0 ∧
      newProgress 3000 (samplePacket 1000) =
        min 1 ((3000 - (samplePacket 1000).createdAt) / 3000) ∧
      newProgress 3000 (samplePacket 1000) = 2 / 3 :=
  ⟨by with_unfolding_all decide,
    (newProgress_formula 50 3000 (samplePacket 1000) (by with_unfolding_all decide)).1,
    by with_unfolding_all decide⟩

/-- C20 (as stated, refuted): a packet with `createdAt = 0` does not reach progress 1
at time `createdAt + 3000` nor later; at time 10000 its progress is 0 and the update
keeps it. -/
theorem newProgress_never_saturates_zero_createdAt :
    (samplePacket 0).createdAt + 3000 ≤ 10000 ∧
      newProgress 10000 (samplePacket 0) = 0 ∧
      samplePacket 0 ∈ updatePackets 50 10000 [samplePacket 0] := by
  with_unfolding_all decide

/-- C20 (amended): for every packet the progress computed by the update is
non-decreasing in `now` and the update does not depend on `simulationSpeed`; for every
packet with `createdAt` other than 0 the progress is 1 at every `now` of at least
`createdAt + 3000`, and the update then drops the packet. -/
theorem newProgress_monotone_saturating (packet : Packet α) :
    (∀ now1 now2 : α, now1 ≤ now2 → newProgress now1 packet ≤ newProgress now2 packet) ∧
      (∀ (speed1 speed2 now : α) (prev : List (Packet α)),
        updatePackets speed1 now prev = updatePackets speed2 now prev) ∧
      (packet.createdAt ≠ 0 → ∀ now : α, packet.createdAt + 3000 ≤ now →
        newProgress now packet = 1 ∧
        ∀ (speed : α) (prev : List (Packet α)),
          { packet with progress := 1 } ∉ updatePackets speed now prev) := by
  refine ⟨newProgress_mono packet, fun _ _ _ _ => rfl, fun hc now hnow => ?_⟩
  have h1 : newProgress now packet = 1 := by
    rw [newProgress_of_ne_zero now packet hc]
    apply min_eq_left
    rw [le_div_iff₀ (by norm_num)]
    linarith
  refine ⟨h1, fun speed prev hmem => ?_⟩
  obtain ⟨p, -, hq, hlt⟩ := (mem_updatePackets speed now prev _).1 hmem
  have hprog : (1 : α) = newProgress now p := congrArg Packet.progress hq
  rw [← hprog] at hlt
  exact lt_irrefl _ hlt

theorem newProgress_monotone_saturating_witness :
    (samplePacket 1000).createdAt ≠ 0 ∧ (samplePacket 1000).createdAt + 3000 ≤ 4000 ∧
      newProgress 4000 (samplePacket 1000) = 1 :=
  ⟨by with_unfolding_all decide, by with_unfolding_all decide,
    ((newProgress_monotone_saturating (samplePacket 1000)).2.2
      (by with_unfolding_all decide) 4000 (by with_unfolding_all decide)).1⟩

end PacketClaims

section UpdateClaims
variable {α : Type} [LinearOrderedField α]

theorem updatePackets_eq (simulationSpeed now : α) (prev : List (Packet α)) :
    updatePackets simulationSpeed now prev =
      (prev.filter (fun packet => decide (newProgress now packet < 1))).map
        (fun packet => { packet with progress := newProgress now packet }) := by
  unfold updatePackets
  rw [List.filter_map]
  rfl

/-- C21: after the packet update the live list consists of the previous packets whose
newly computed progress is below 1, in their previous order, each with that progress;
so no packet of the new list has progress 1 or more, and every previous packet whose
new progress is below 1 is still there. -/
theorem updatePackets_keeps_exactly_live (simulationSpeed now : α)
    (prev : List (Packet α)) :
    updatePackets simulationSpeed now prev =
        (prev.filter (fun packet => decide (newProgress now packet < 1))).map
          (fun packet => { packet with progress := newProgress now packet }) ∧
      (∀ q ∈ updatePackets simulationSpeed now prev, q.progress < 1) ∧
      (∀ packet ∈ prev, newProgress now packet < 1 →
        { packet with progress := newProgress now packet } ∈
          updatePackets simulationSpeed now prev) ∧
      (∀ packet ∈ prev, 1 ≤ newProgress now packet →
        { packet with progress := newProgress now packet } ∉
          updatePackets simulationSpeed now prev) := by
  refine ⟨updatePackets_eq simulationSpeed now prev, ?_, ?_, ?_⟩
  · intro q hq
    obtain ⟨p, -, rfl, hlt⟩ := (mem_updatePackets simulationSpeed now prev q).1 hq
    exact hlt
  · intro packet hp hlt
    exact (mem_updatePackets simulationSpeed now prev _).2 ⟨packet, hp, rfl, hlt⟩
  · intro packet _ hge hmem
    obtain ⟨p, -, hq, hlt⟩ := (mem_updatePackets simulationSpeed now prev _).1 hmem
    have hprog : newProgress now packet = newProgress now p := congrArg Packet.progress hq
    rw [← hprog] at hlt
    exact absurd hlt (not_lt.2 hge)

theorem updatePackets_keeps_exactly_live_witness :
    samplePacket 1000 ∈ [samplePacket 500, samplePacket 1000, samplePacket 2500] ∧
      1 ≤ newProgress 4000 (samplePacket 1000) ∧
      (updatePackets 50 4000 [samplePacket 500, samplePacket 1000, samplePacket 2500]).map
        (fun q => q.progress) = [1 / 2] ∧
      { samplePacket 1000 with progress := newProgress 4000 (samplePacket 1000) } ∉
        updatePackets 50 4000 [samplePacket 500, samplePacket 1000, samplePacket 2500] :=
  ⟨List.mem_cons_of_mem _ (List.mem_cons_self _ _), by with_unfolding_all decide,
    by with_unfolding_all decide,
    (updatePackets_keeps_exactly_live 50 4000
      [samplePacket 500, samplePacket 1000, samplePacket 2500]).2.2.2 (samplePacket 1000)
      (List.mem_cons_of_mem _ (List.mem_cons_self _ _)) (by with_unfolding_all decide)⟩

end UpdateClaims

section ExceptLemmas
variable {ε β γ : Type}

theorem bind_ok_inv {x : Except ε β} {f : β → Except ε γ} {c : γ}
    (h : (x >>= f) = Except.ok c) : ∃ b, x = Except.ok b ∧ f b = Except.ok c := by
  cases x with
  | error e => cases h
  | ok b => exact ⟨b, rfl, h⟩

end ExceptLemmas

section FrameLemmas
variable {α : Type} [LinearOrderedField α]

theorem nodePacket_targetId (inp : FrameInput α) (p : Packet α)
    (h : nodePacket inp = Except.ok p) : p.targetId.isSome = true := by
  unfold nodePacket at h
  obtain ⟨a, -, h⟩ := bind_ok_inv h
  obtain ⟨b, -, h⟩ := bind_ok_inv h
  cases h
  rfl

theorem sinkPacket_targetId (inp : FrameInput α) (p : Packet α)
    (h : sinkPacket inp = Except.ok p) : p.targetId = none := by
  unfold sinkPacket at h
  obtain ⟨a, -, h⟩ := bind_ok_inv h
  cases h
  rfl

theorem length_updatePackets_le (simulationSpeed now : α) (l : List (Packet α)) :
    (updatePackets simulationSpeed now l).length ≤ l.length := by
  rw [updatePackets_eq, List.length_map]
  exact List.length_filter_le _ _

theorem countP_updatePackets_le (f : Option Nat → Bool) (simulationSpeed now : α)
    (l : List (Packet α)) :
    (updatePackets simulationSpeed now l).countP (fun p => f p.targetId) ≤
      l.countP (fun p => f p.targetId) := by
  rw [updatePackets_eq, List.countP_map]
  exact (List.filter_sublist _).countP_le _

/-- The three updates of one frame, read off a successful run: the list after the
emissions is the old list plus at most one node-to-node packet, appended only below 10
live packets, plus at most one sink packet, appended only below 15 live packets. -/
theorem frameStep_ok_inv (simulationSpeed : α) (inp : FrameInput α)
    (packets live : List (Packet α))
    (h : frameStep simulationSpeed inp packets = Except.ok live) :
    live = packets ∨
      ∃ afterNode afterSink,
        (afterNode = packets ∨ (packets.length < 10 ∧
          ∃ p, p.targetId.isSome = true ∧ afterNode = packets ++ [p])) ∧
        (afterSink = afterNode ∨ (packets.length < 15 ∧
          ∃ p, p.targetId = none ∧ afterSink = afterNode ++ [p])) ∧
        live = updatePackets simulationSpeed inp.now afterSink := by
  unfold frameStep at h
  by_cases hsim : inp.isSimulating = true
  · rw [if_neg (not_not.2 hsim)] at h
    right
    obtain ⟨afterNode, h1, h⟩ := bind_ok_inv h
    obtain ⟨afterSink, h2, h⟩ := bind_ok_inv h
    refine ⟨afterNode, afterSink, ?_, ?_, ?_⟩
    · unfold emitNodePacket at h1
      by_cases hg : packets.length < 10 ∧ inp.emitRandom < 0.05
      · rw [if_pos hg] at h1
        by_cases hn : inp.nodes.length ≥ 2
        · rw [if_pos hn] at h1
          obtain ⟨p, hp, h1⟩ := bind_ok_inv h1
          cases h1
          exact Or.inr ⟨hg.1, p, nodePacket_targetId inp p hp, rfl⟩
        · rw [if_neg hn] at h1
          cases h1
          exact Or.inl rfl
      · rw [if_neg hg] at h1
        cases h1
        exact Or.inl rfl
    · unfold emitSinkPacket at h2
      by_cases hg : inp.sinkRandom < 0.03 ∧ inp.nodes.length > 0 ∧ packets.length < 15
      · rw [if_pos hg] at h2
        obtain ⟨p, hp, h2⟩ := bind_ok_inv h2
        cases h2
        exact Or.inr ⟨hg.2.2, p, sinkPacket_targetId inp p hp, rfl⟩
      · rw [if_neg hg] at h2
        cases h2
        exact Or.inl rfl
    · cases h
      rfl
  · rw [if_pos hsim] at h
    cases h
    exact Or.inl rfl

/-- The cap invariant of one frame: at most 15 live packets, at most 10 of them
node-to-node. -/
theorem frameStep_cap (simulationSpeed : α) (inp : FrameInput α)
    (packets live : List (Packet α))
    (h : frameStep simulationSpeed inp packets = Except.ok live)
    (hlen : packets.length ≤ 15)
    (hnn : packets.countP (fun p => p.targetId.isSome) ≤ 10) :
    live.length ≤ 15 ∧ live.countP (fun p => p.targetId.isSome) ≤ 10 := by
  rcases frameStep_ok_inv simulationSpeed inp packets live h with rfl |
    ⟨afterNode, afterSink, hN, hS, rfl⟩
  · exact ⟨hlen, hnn⟩
  · have hle : packets.countP (fun p => p.targetId.isSome) ≤ packets.length :=
      List.countP_le_length _
    have hNlen : afterNode.length ≤ 15 ∧
        (10 ≤ packets.length → afterNode.length ≤ packets.length) ∧
        afterNode.length ≤ packets.length + 1 ∧
        afterNode.countP (fun p => p.targetId.isSome) ≤ 10 := by
      rcases hN with rfl | ⟨hlt, p, hp, rfl⟩
      · exact ⟨hlen, fun h => by omega, by omega, hnn⟩
      · simp only [List.length_append, List.length_singleton, List.countP_append,
          List.countP_singleton, hp, if_true]
        omega
    have hSlen : afterSink.length ≤ 15 ∧
        afterSink.countP (fun p => p.targetId.isSome) ≤ 10 := by
      rcases hS with rfl | ⟨hlt, p, hp, rfl⟩
      · exact ⟨hNlen.1, hNlen.2.2.2⟩
      · simp only [List.length_append, List.length_singleton, List.countP_append,
          List.countP_singleton, hp, Option.isSome_none, Bool.false_eq_true, if_false]
        have h1 := hNlen.2.1
        have h2 := hNlen.2.2.1
        have h3 := hNlen.2.2.2
        omega
    exact ⟨le_trans (length_updatePackets_le _ _ _) hSlen.1,
      le_trans (countP_updatePackets_le (fun t => t.isSome) _ _ _) hSlen.2⟩

theorem runFrames_cap (simulationSpeed : α) :
    ∀ (inputs : List (FrameInput α)) (packets live : List (Packet α)),
      runFrames simulationSpeed inputs packets = Except.ok live →
      packets.length ≤ 15 → packets.countP (fun p => p.targetId.isSome) ≤ 10 →
      live.length ≤ 15 ∧ live.countP (fun p => p.targetId.isSome) ≤ 10
  | [], packets, live, h, hlen, hnn => by
    cases h
    exact ⟨hlen, hnn⟩
  | inp :: inputs, packets, live, h, hlen, hnn => by
    unfold runFrames at h
    rw [List.foldlM_cons] at h
    obtain ⟨mid, hmid, h⟩ := bind_ok_inv h
    obtain ⟨h1, h2⟩ := frameStep_cap simulationSpeed inp packets mid hmid hlen hnn
    exact runFrames_cap simulationSpeed inputs mid live h h1 h2

end FrameLemmas

section FrameClaims
variable {α : Type} [LinearOrderedField α]

theorem frameStep_ok (simulationSpeed : α) (inp : FrameInput α) (packets : List (Packet α))
    (hn : inp.nodes.length ≥ 2 →
      inp.sourceIdx < inp.nodes.length ∧ inp.targetIdx < inp.nodes.length)
    (hs : inp.nodes.length > 0 → inp.sinkSourceIdx < inp.nodes.length) :
    ∃ live, frameStep simulationSpeed inp packets = Except.ok live := by
  unfold frameStep
  by_cases hsim : inp.isSimulating = true
  · rw [if_neg (not_not.2 hsim)]
    have h1 : ∃ afterNode, emitNodePacket inp packets packets = Except.ok afterNode := by
      unfold emitNodePacket
      by_cases hg : packets.length < 10 ∧ inp.emitRandom < 0.05
      · rw [if_pos hg]
        by_cases h2 : inp.nodes.length ≥ 2
        · rw [if_pos h2]
          obtain ⟨ha, hb⟩ := hn h2
          unfold nodePacket
          rw [lookupNode_of_getElem? (List.getElem?_eq_getElem ha),
            lookupNode_of_getElem? (List.getElem?_eq_getElem hb)]
          exact ⟨_, rfl⟩
        · rw [if_neg h2]
          exact ⟨_, rfl⟩
      · rw [if_neg hg]
        exact ⟨_, rfl⟩
    obtain ⟨afterNode, h1⟩ := h1
    have h2 : ∃ afterSink, emitSinkPacket inp packets afterNode = Except.ok afterSink := by
      unfold emitSinkPacket
      by_cases hg : inp.sinkRandom < 0.03 ∧ inp.nodes.length > 0 ∧ packets.length < 15
      · rw [if_pos hg]
        unfold sinkPacket
        rw [lookupNode_of_getElem? (List.getElem?_eq_getElem (hs hg.2.1))]
        exact ⟨_, rfl⟩
      · rw [if_neg hg]
        exact ⟨_, rfl⟩
    obtain ⟨afterSink, h2⟩ := h2
    rw [h1]
    refine ⟨updatePackets simulationSpeed inp.now afterSink, ?_⟩
    show (emitSinkPacket inp packets afterNode >>= fun afterSink =>
      pure (updatePackets simulationSpeed inp.now afterSink)) = _
    rw [h2]
    rfl
  · rw [if_pos hsim]
    exact ⟨_, rfl⟩

theorem runFrames_ok (simulationSpeed : α) :
    ∀ (inputs : List (FrameInput α)) (packets : List (Packet α)),
      (∀ inp ∈ inputs,
        (inp.nodes.length ≥ 2 →
          inp.sourceIdx < inp.nodes.length ∧ inp.targetIdx < inp.nodes.length) ∧
        (inp.nodes.length > 0 → inp.sinkSourceIdx < inp.nodes.length)) →
      ∃ live, runFrames simulationSpeed inputs packets = Except.ok live
  | [], packets, _ => ⟨packets, rfl⟩
  | inp :: inputs, packets, h => by
    obtain ⟨mid, hmid⟩ := frameStep_ok simulationSpeed inp packets
      (h inp (List.mem_cons_self _ _)).1 (h inp (List.mem_cons_self _ _)).2
    obtain ⟨live, hlive⟩ := runFrames_ok simulationSpeed inputs mid
      (fun i hi => h i (List.mem_cons_of_mem _ hi))
    refine ⟨live, ?_⟩
    unfold runFrames
    rw [List.foldlM_cons, hmid]
    exact hlive

/-- C22: taking one frame as a step on the live packet list, with the emission draws,
the sampled indices, the node list and the clock of every frame as arbitrary inputs:
every sequence of frames whose sampled indices are in range runs through from the
empty list, and after any sequence of frames from the empty list the live list holds
at most 10 packets with a `targetId` and at most 15 packets without one (at most 15
packets in all). -/
theorem runFrames_inflight_cap (simulationSpeed : α) (inputs : List (FrameInput α)) :
    ((∀ inp ∈ inputs,
        (inp.nodes.length ≥ 2 →
          inp.sourceIdx < inp.nodes.length ∧ inp.targetIdx < inp.nodes.length) ∧
        (inp.nodes.length > 0 → inp.sinkSourceIdx < inp.nodes.length)) →
      ∃ live, runFrames simulationSpeed inputs [] = Except.ok live) ∧
    ∀ live, runFrames simulationSpeed inputs [] = Except.ok live →
      live.countP (fun p => p.targetId.isSome) ≤ 10 ∧
        live.countP (fun p => p.targetId.isNone) ≤ 15 ∧ live.length ≤ 15 := by
  refine ⟨runFrames_ok simulationSpeed inputs [], fun live h => ?_⟩
  obtain ⟨h1, h2⟩ := runFrames_cap simulationSpeed inputs [] live h
    (Nat.zero_le _) (Nat.zero_le _)
  exact ⟨h2, le_trans (List.countP_le_length _) h1, h1⟩

theorem runFrames_inflight_cap_witness :
    ∃ live, runFrames (50 : ℚ) (List.replicate 12 sampleFrame) [] = Except.ok live ∧
      live.countP (fun p => p.targetId.isSome) ≤ 10 ∧
      live.countP (fun p => p.targetId.isNone) ≤ 15 ∧ live.length ≤ 15 := by
  have hv : ∀ inp ∈ List.replicate 12 sampleFrame,
      (inp.nodes.length ≥ 2 →
        inp.sourceIdx < inp.nodes.length ∧ inp.targetIdx < inp.nodes.length) ∧
      (inp.nodes.length > 0 → inp.sinkSourceIdx < inp.nodes.length) := by
    decide
  obtain ⟨live, h⟩ :=
    (runFrames_inflight_cap (50 : ℚ) (List.replicate 12 sampleFrame)).1 hv
  exact ⟨live, h,
    (runFrames_inflight_cap (50 : ℚ) (List.replicate 12 sampleFrame)).2 live h⟩

end FrameClaims

section RenderClaims
variable {α : Type} [LinearOrderedField α]

/-- C23 (as stated, refuted): with a live position `(100, 0, 0)` recorded for its source
node, a packet between nodes 0 and 1 stored with the path from `(0, 0, -107)` to
`(60, 80, -50)` is shown, at progress 1/2, at `(80, 40, -25)` and not at the point
`(30, 40, -157/2)` of its stored path. -/
theorem packetRenderPosition_follows_live_source :
    ({ samplePacket 17 with progress := 1 / 2 } : Packet ℚ).targetId = some 1 ∧
      packetRenderPosition (fun k => if k = 0 then some (⟨100, 0, 0⟩ : Vec3 ℚ) else none)
        (fun _ => none) { samplePacket 17 with progress := 1 / 2 } = ⟨80, 40, -25⟩ ∧
      storedPathPosition { samplePacket 17 with progress := 1 / 2 } = ⟨30, 40, -157 / 2⟩ := by
  refine ⟨rfl, by with_unfolding_all decide, by with_unfolding_all decide⟩

/-- C23 (amended): for a packet between two nodes, that is one with a `targetId`, the
position at which it is shown is `start + (end - start) * progress`, where `start` is
the live position of the source node (the entry of `nodePositions`, else the mounted
mesh) when there is one and the stored `startPos` otherwise, and `end` is likewise the
live position of the target node, the stored `endPos` otherwise; when no live position
is known for the source nor for the target it is the point of the stored path. -/
theorem packetRenderPosition_spec (nodePositions refPositions : Nat → Option (Vec3 α))
    (packet : Packet α) (targetId : Nat) (ht : packet.targetId = some targetId) :
    packetRenderPosition nodePositions refPositions packet =
        storedPathPosition { packet with
          startPos := ((nodePositions packet.sourceId).orElse
            (fun _ => refPositions packet.sourceId)).getD packet.startPos,
          endPos := ((nodePositions targetId).orElse
            (fun _ => refPositions targetId)).getD packet.endPos } ∧
      (nodePositions packet.sourceId = none → refPositions packet.sourceId = none →
        nodePositions targetId = none → refPositions targetId = none →
        packetRenderPosition nodePositions refPositions packet =
          storedPathPosition packet) := by
  constructor
  · unfold packetRenderPosition storedPathPosition
    rw [ht]
    dsimp only
    cases h1 : nodePositions packet.sourceId <;> cases h2 : refPositions packet.sourceId <;>
      cases h4 : nodePositions targetId <;> cases h5 : refPositions targetId <;> rfl
  · intro h1 h2 h5 h6
    unfold packetRenderPosition storedPathPosition
    rw [h1, h2, ht]
    simp only [h5, h6]

theorem packetRenderPosition_spec_witness :
    (samplePacket 17).targetId = some 1 ∧
      packetRenderPosition (fun k => if k = 0 then some (⟨100, 0, 0⟩ : Vec3 ℚ) else none)
          (fun _ => none) (samplePacket 17) =
        storedPathPosition { samplePacket 17 with startPos := ⟨100, 0, 0⟩ } ∧
      packetRenderPosition (fun _ => none) (fun _ => none) (samplePacket 17) =
        storedPathPosition (samplePacket 17) :=
  ⟨rfl,
    (packetRenderPosition_spec (fun k => if k = 0 then some (⟨100, 0, 0⟩ : Vec3 ℚ) else none)
      (fun _ => none) (samplePacket 17) 1 rfl).1,
    (packetRenderPosition_spec (fun _ => none) (fun _ => none) (samplePacket 17) 1 rfl).2
      rfl rfl rfl rfl⟩

end RenderClaims

section ExportClaims
variable {α : Type}

theorem intercalate_go_eq_foldl (sep : String) :
    ∀ (l : List String) (acc : String),
      String.intercalate.go acc sep l = l.foldl (fun acc x => acc ++ sep ++ x) acc
  | [], _ => rfl
  | a :: l, acc => by
    rw [String.intercalate.go, intercalate_go_eq_foldl sep l, List.foldl_cons]

theorem csvLines_header (toFixed : α → Nat → String)
    (energyReadings : List (EnergyReading α)) :
    ∃ rows, csvLines toFixed energyReadings =
        "Timestamp(s),AvgEnergy(J),MaxEnergy(J),NodeCount,Protocol" :: rows ∧
      rows.length = energyReadings.length ∧
      rows = energyReadings.map (fun reading =>
        String.intercalate ","
          [toFixed reading.timestamp 1, toFixed reading.avgEnergy 2,
            toFixed reading.maxEnergy 2, toString reading.nodeCount, reading.protocol]) := by
  refine ⟨_, ?_, ?_, rfl⟩
  · unfold csvLines
    congr 1
  · simp

/-- C24: `exportCSV` returns without an artifact exactly when the readings log is empty,
and it never fails. With at least one reading it builds the content by joining with
newlines the header line `Timestamp(s),AvgEnergy(J),MaxEnergy(J),NodeCount,Protocol`
and one line per reading, in order: the content is the header followed, for each
reading, by a newline and the line of that reading. -/
theorem exportCSV_spec (toFixed : α → Nat → String) (routingProtocol : String) (now : Nat)
    (energyReadings : List (EnergyReading α)) :
    (exportCSV toFixed routingProtocol now energyReadings = none ↔ energyReadings = []) ∧
      (energyReadings ≠ [] →
        ∃ download rows, exportCSV toFixed routingProtocol now energyReadings = some download ∧
          download.content =
            String.intercalate "\n"
              ("Timestamp(s),AvgEnergy(J),MaxEnergy(J),NodeCount,Protocol" :: rows) ∧
          rows = energyReadings.map (fun reading =>
            String.intercalate ","
              [toFixed reading.timestamp 1, toFixed reading.avgEnergy 2,
                toFixed reading.maxEnergy 2, toString reading.nodeCount,
                reading.protocol]) ∧
          rows.length = energyReadings.length ∧
          download.content =
            rows.foldl (fun acc row => acc ++ "\n" ++ row)
              "Timestamp(s),AvgEnergy(J),MaxEnergy(J),NodeCount,Protocol") := by
  constructor
  · unfold exportCSV
    constructor
    · intro h
      split at h
      · rename_i h0
        exact List.length_eq_zero.1 h0
      · cases h
    · intro h
      rw [if_pos (by rw [h]; rfl)]
  · intro hne
    obtain ⟨rows, hrows, hlen, hmap⟩ := csvLines_header toFixed energyReadings
    have h0 : ¬ energyReadings.length = 0 := fun h => hne (List.length_eq_zero.1 h)
    refine ⟨{ content := String.intercalate "\n" (csvLines toFixed energyReadings),
              filename := "uwsn_energy_" ++ routingProtocol ++ "_" ++ toString now ++ ".csv" },
      rows, ?_, ?_, hmap, hlen, ?_⟩
    · unfold exportCSV
      rw [if_neg h0]
    · simp only [hrows]
    · simp only [hrows, String.intercalate]
      exact intercalate_go_eq_foldl _ _ _

theorem exportCSV_spec_witness :
    ([⟨0, 0, 0, 5, "VBF"⟩, ⟨1 / 5, 1 / 20, 1 / 10, 5, "VBF"⟩] :
        List (EnergyReading ℚ)) ≠ [] ∧
      exportCSV (fun (x : ℚ) (d : Nat) => toString (x * 10 ^ d) ++ "e-" ++ toString d)
          "VBF" 5 [] = none ∧
      ∃ download rows,
        exportCSV (fun (x : ℚ) (d : Nat) => toString (x * 10 ^ d) ++ "e-" ++ toString d)
          "VBF" 5 [⟨0, 0, 0, 5, "VBF"⟩, ⟨1 / 5, 1 / 20, 1 / 10, 5, "VBF"⟩] =
            some download ∧
        download.content =
          String.intercalate "\n"
            ("Timestamp(s),AvgEnergy(J),MaxEnergy(J),NodeCount,Protocol" :: rows) ∧
        rows.length = 2 :=
  ⟨by simp, rfl,
    let ⟨download, rows, h1, h2, _, h4, _⟩ :=
      (exportCSV_spec (fun (x : ℚ) (d : Nat) => toString (x * 10 ^ d) ++ "e-" ++ toString d)
        "VBF" 5 [⟨0, 0, 0, 5, "VBF"⟩, ⟨1 / 5, 1 / 20, 1 / 10, 5, "VBF"⟩]).2 (by simp)
    ⟨download, rows, h1, h2, h4⟩⟩

end ExportClaims

section ArgmaxLemmas
variable {α : Type}

/-- The search for the best neighbor, with positions: it succeeds on indices in range,
no unselected member of the list searched covers more than the returned maximum, and
either the state is the initial one or the neighbor returned occurs in the list after
a prefix whose unselected members all cover strictly less than it does. -/
theorem findBest_argmax (nodes : List (Node α)) (mprs uncovered : List Nat) :
    ∀ (l : List Nat) (st : Option Nat × Nat), (∀ k ∈ l, k < nodes.length) →
      ∃ st', l.foldlM (fun st neighborIdx =>
          if ¬ neighborIdx ∈ mprs then do
            let neighbor ← lookupNode nodes neighborIdx
            let coverage := coverageOf neighbor uncovered
            if coverage > st.2 then pure (some neighborIdx, coverage) else pure st
          else pure st) st = Except.ok st' ∧
        st.2 ≤ st'.2 ∧
        (∀ k ∈ l, k ∉ mprs → ∀ nk, nodes[k]? = some nk →
          coverageOf nk uncovered ≤ st'.2) ∧
        (st' = st ∨ ∃ b pre post nb, l = pre ++ b :: post ∧ st'.1 = some b ∧ b ∉ mprs ∧
          nodes[b]? = some nb ∧ coverageOf nb uncovered = st'.2 ∧ st.2 < st'.2 ∧
          ∀ k ∈ pre, k ∉ mprs → ∀ nk, nodes[k]? = some nk →
            coverageOf nk uncovered < st'.2)
  | [], st, _ => ⟨st, rfl, le_refl _, by simp, Or.inl rfl⟩
  | a :: l, st, hv => by
    have ha : a < nodes.length := hv a (List.mem_cons_self a l)
    have hget : nodes[a]? = some nodes[a] := List.getElem?_eq_getElem ha
    have hl : ∀ k ∈ l, k < nodes.length := fun k hk => hv k (List.mem_cons_of_mem a hk)
    rw [List.foldlM_cons]
    by_cases hm : a ∈ mprs
    · obtain ⟨st', h1, h2, h3, h4⟩ := findBest_argmax nodes mprs uncovered l st hl
      refine ⟨st', ?_, h2, ?_, ?_⟩
      · rw [if_neg (not_not.2 hm)]
        exact h1
      · intro k hk hkm nk hnk
        rcases List.mem_cons.1 hk with rfl | hk
        · exact absurd hm hkm
        · exact h3 k hk hkm nk hnk
      · rcases h4 with h | ⟨b, pre, post, nb, hl', hb, hbm, hnb, hcov, hlt, hpre⟩
        · exact Or.inl h
        · refine Or.inr ⟨b, a :: pre, post, nb, by rw [hl']; rfl, hb, hbm, hnb, hcov, hlt, ?_⟩
          intro k hk hkm nk hnk
          rcases List.mem_cons.1 hk with rfl | hk
          · exact absurd hm hkm
          · exact hpre k hk hkm nk hnk
    · rw [if_pos hm, lookupNode_of_getElem? hget]
      by_cases hc : coverageOf nodes[a] uncovered > st.2
      · obtain ⟨st', h1, h2, h3, h4⟩ := findBest_argmax nodes mprs uncovered l
          (some a, coverageOf nodes[a] uncovered) hl
        refine ⟨st', ?_, le_trans (le_of_lt hc) h2, ?_, Or.inr ?_⟩
        · simp only [Except.bind, bind, if_pos hc]
          exact h1
        · intro k hk hkm nk hnk
          rcases List.mem_cons.1 hk with rfl | hk
          · rw [hget] at hnk
            cases hnk
            exact h2
          · exact h3 k hk hkm nk hnk
        · rcases h4 with h | ⟨b, pre, post, nb, hl', hb, hbm, hnb, hcov, hlt, hpre⟩
          · refine ⟨a, [], l, nodes[a], rfl, by rw [h], hm, hget, by rw [h], by rw [h]; exact hc,
              by simp⟩
          · refine ⟨b, a :: pre, post, nb, by rw [hl']; rfl, hb, hbm, hnb, hcov,
              lt_trans hc hlt, ?_⟩
            intro k hk hkm nk hnk
            rcases List.mem_cons.1 hk with rfl | hk
            · rw [hget] at hnk
              cases hnk
              exact hlt
            · exact hpre k hk hkm nk hnk
      · obtain ⟨st', h1, h2, h3, h4⟩ := findBest_argmax nodes mprs uncovered l st hl
        refine ⟨st', ?_, h2, ?_, ?_⟩
        · simp only [Except.bind, bind, if_neg hc]
          exact h1
        · intro k hk hkm nk hnk
          rcases List.mem_cons.1 hk with rfl | hk
          · rw [hget] at hnk
            cases hnk
            exact le_trans (not_lt.1 hc) h2
          · exact h3 k hk hkm nk hnk
        · rcases h4 with h | ⟨b, pre, post, nb, hl', hb, hbm, hnb, hcov, hlt, hpre⟩
          · exact Or.inl h
          · refine Or.inr
              ⟨b, a :: pre, post, nb, by rw [hl']; rfl, hb, hbm, hnb, hcov, hlt, ?_⟩
            intro k hk hkm nk hnk
            rcases List.mem_cons.1 hk with rfl | hk
            · rw [hget] at hnk
              cases hnk
              exact lt_of_le_of_lt (not_lt.1 hc) hlt
            · exact hpre k hk hkm nk hnk

end ArgmaxLemmas

section RoundLemmas
variable {α : Type}

theorem greedyLoop_succ_of_some (nodes : List (Node α)) (node : Node α) (fuel : Nat)
    (mprs uncovered : List Nat) (st : Option Nat × Nat) (b : Nat) (nb : Node α)
    (hu : uncovered ≠ [])
    (hst : findBestNeighbor nodes node mprs uncovered = Except.ok st)
    (hb : st.1 = some b) (hnb : nodes[b]? = some nb) :
    greedyLoop nodes node (fuel + 1) mprs uncovered =
      greedyLoop nodes node fuel (mprs ++ [b]) (nb.neighbors.foldl setDelete uncovered) := by
  have hpos : uncovered.length > 0 := List.length_pos.2 hu
  rw [greedyLoop, if_pos hpos, hst]
  simp only [Except.bind, bind, hb, lookupNode_of_getElem? hnb]

theorem greedyLoop_succ_of_none (nodes : List (Node α)) (node : Node α) (fuel : Nat)
    (mprs uncovered : List Nat) (st : Option Nat × Nat)
    (hu : uncovered ≠ [])
    (hst : findBestNeighbor nodes node mprs uncovered = Except.ok st)
    (hb : st.1 = none) :
    greedyLoop nodes node (fuel + 1) mprs uncovered = Except.ok mprs := by
  have hpos : uncovered.length > 0 := List.length_pos.2 hu
  rw [greedyLoop, if_pos hpos, hst]
  simp only [Except.bind, bind, hb]
  rfl

/-- The loop appends to `mprs`, and at most as many indices as there are uncovered
ones. -/
theorem greedyLoop_appends (nodes : List (Node α)) (node : Node α)
    (hv : ∀ k ∈ node.neighbors, k < nodes.length) :
    ∀ (fuel : Nat) (mprs uncovered : List Nat), uncovered.length ≤ fuel →
      ∃ added, greedyLoop nodes node fuel mprs uncovered = Except.ok (mprs ++ added) ∧
        added.length ≤ uncovered.length
  | 0, mprs, uncovered, hf => by
    have hu : uncovered = [] := List.length_eq_zero.1 (Nat.le_zero.1 hf)
    subst hu
    exact ⟨[], by simp [greedyLoop], le_refl _⟩
  | fuel + 1, mprs, uncovered, hf => by
    by_cases hu : uncovered = []
    · subst hu
      refine ⟨[], ?_, le_refl _⟩
      rw [greedyLoop, if_neg (by simp)]
      simp
      rfl
    · obtain ⟨st, hst, hsome, -⟩ := findBestNeighbor_spec nodes node mprs uncovered hv
      cases hb : st.1 with
      | none =>
        exact ⟨[], by rw [greedyLoop_succ_of_none nodes node fuel mprs uncovered st hu hst hb,
          List.append_nil], Nat.zero_le _⟩
      | some b =>
        obtain ⟨-, -, nb, hnb, hcov, hpos⟩ := hsome b hb
        have hlt := length_foldl_setDelete_lt nb uncovered (by rw [hcov]; exact hpos)
        obtain ⟨added, hadd, hlen⟩ := greedyLoop_appends nodes node hv fuel (mprs ++ [b])
          (nb.neighbors.foldl setDelete uncovered) (by omega)
        refine ⟨b :: added, ?_, ?_⟩
        · rw [greedyLoop_succ_of_some nodes node fuel mprs uncovered st b nb hu hst hb hnb,
            hadd, List.append_assoc]
          rfl
        · simp only [List.length_cons]
          omega

/-- Beyond the number of uncovered indices the fuel has no effect on the result. -/
theorem greedyLoop_fuel_irrelevant (nodes : List (Node α)) (node : Node α)
    (hv : ∀ k ∈ node.neighbors, k < nodes.length) :
    ∀ (fuel1 fuel2 : Nat) (mprs uncovered : List Nat), uncovered.length ≤ fuel1 →
      uncovered.length ≤ fuel2 →
      greedyLoop nodes node fuel1 mprs uncovered = greedyLoop nodes node fuel2 mprs uncovered
  | 0, fuel2, mprs, uncovered, h1, _ => by
    have hu : uncovered = [] := List.length_eq_zero.1 (Nat.le_zero.1 h1)
    subst hu
    cases fuel2 with
    | zero => rfl
    | succ n =>
      simp only [greedyLoop, List.length_nil, gt_iff_lt, lt_self_iff_false, if_false]
      rfl
  | fuel1 + 1, 0, mprs, uncovered, _, h2 => by
    have hu : uncovered = [] := List.length_eq_zero.1 (Nat.le_zero.1 h2)
    subst hu
    simp only [greedyLoop, List.length_nil, gt_iff_lt, lt_self_iff_false, if_false]
    rfl
  | fuel1 + 1, fuel2 + 1, mprs, uncovered, h1, h2 => by
    by_cases hu : uncovered = []
    · subst hu
      simp [greedyLoop]
    · obtain ⟨st, hst, hsome, -⟩ := findBestNeighbor_spec nodes node mprs uncovered hv
      cases hb : st.1 with
      | none =>
        rw [greedyLoop_succ_of_none nodes node fuel1 mprs uncovered st hu hst hb,
          greedyLoop_succ_of_none nodes node fuel2 mprs uncovered st hu hst hb]
      | some b =>
        obtain ⟨-, -, nb, hnb, hcov, hpos⟩ := hsome b hb
        have hlt := length_foldl_setDelete_lt nb uncovered (by rw [hcov]; exact hpos)
        rw [greedyLoop_succ_of_some nodes node fuel1 mprs uncovered st b nb hu hst hb hnb,
          greedyLoop_succ_of_some nodes node fuel2 mprs uncovered st b nb hu hst hb hnb]
        exact greedyLoop_fuel_irrelevant nodes node hv fuel1 fuel2 _ _ (by omega) (by omega)

end RoundLemmas

section GreedyClaims
variable {α : Type}

/-- C26: in a round of the greedy loop (some index still uncovered, neighbor indices in
range) the search either finds no neighbor, and the loop ends, or finds a neighbor
`b` of the node that is not yet selected, covers the maximum number of uncovered
indices among the unselected neighbors, that number being at least 1, and comes in the
neighbors list before every other unselected neighbor covering as many; the round
appends `b` to `mprs` and deletes from the uncovered set every index that `b`
reaches. -/
theorem greedyLoop_round_earliest_max (nodes : List (Node α)) (node : Node α)
    (hv : ∀ k ∈ node.neighbors, k < nodes.length) (fuel : Nat)
    (mprs uncovered : List Nat) (hu : uncovered ≠ []) :
    ∃ st, findBestNeighbor nodes node mprs uncovered = Except.ok st ∧
      (st.1 = none → greedyLoop nodes node (fuel + 1) mprs uncovered = Except.ok mprs) ∧
      ∀ b, st.1 = some b →
        ∃ pre post nb, node.neighbors = pre ++ b :: post ∧ b ∉ mprs ∧
          nodes[b]? = some nb ∧
          coverageOf nb uncovered = st.2 ∧ 1 ≤ st.2 ∧
          st.2 = nb.neighbors.countP (fun t => decide (t ∈ uncovered)) ∧
          (∀ k ∈ node.neighbors, k ∉ mprs → ∀ nk, nodes[k]? = some nk →
            coverageOf nk uncovered ≤ st.2) ∧
          (∀ k ∈ pre, k ∉ mprs → ∀ nk, nodes[k]? = some nk →
            coverageOf nk uncovered < st.2) ∧
          greedyLoop nodes node (fuel + 1) mprs uncovered =
            greedyLoop nodes node fuel (mprs ++ [b])
              (nb.neighbors.foldl setDelete uncovered) ∧
          ∀ t ∈ nb.neighbors, t ∉ nb.neighbors.foldl setDelete uncovered := by
  obtain ⟨st, hst, -, hmax, hcase⟩ :=
    findBest_argmax nodes mprs uncovered node.neighbors (none, 0) hv
  have hst' : findBestNeighbor nodes node mprs uncovered = Except.ok st := hst
  refine ⟨st, hst',
    fun hn => greedyLoop_succ_of_none nodes node fuel mprs uncovered st hu hst' hn,
    fun b hb => ?_⟩
  rcases hcase with h | ⟨b', pre, post, nb, hl, hb', hbm, hnb, hcov, hlt, hpre⟩
  · rw [h] at hb
    cases hb
  · rw [hb] at hb'
    cases hb'
    refine ⟨pre, post, nb, hl, hbm, hnb, hcov, hlt, ?_, hmax, hpre,
      greedyLoop_succ_of_some nodes node fuel mprs uncovered st b nb hu hst' hb hnb, ?_⟩
    · rw [← hcov, coverageOf_eq_countP]
    · intro t ht hmem
      exact ((mem_foldl_setDelete _ _ _).1 hmem).2 ht

theorem greedyLoop_round_earliest_max_witness :
    (∀ k ∈ ({ sampleNode 0 ⟨0, 0, 0⟩ 100 0 with
        neighbors := [1, 4], twoHopNeighbors := [2, 3] } : Node ℚ).neighbors,
        k < gridTopology.length) ∧ ([2, 3] : List Nat) ≠ [] ∧
      findBestNeighbor gridTopology ({ sampleNode 0 ⟨0, 0, 0⟩ 100 0 with
        neighbors := [1, 4], twoHopNeighbors := [2, 3] } : Node ℚ) [] [2, 3] =
          Except.ok (some 1, 2) ∧
      ∃ st, findBestNeighbor gridTopology ({ sampleNode 0 ⟨0, 0, 0⟩ 100 0 with
        neighbors := [1, 4], twoHopNeighbors := [2, 3] } : Node ℚ) [] [2, 3] =
          Except.ok st ∧
        (st.1 = none → greedyLoop gridTopology ({ sampleNode 0 ⟨0, 0, 0⟩ 100 0 with
          neighbors := [1, 4], twoHopNeighbors := [2, 3] } : Node ℚ) (1 + 1) [] [2, 3] =
            Except.ok []) :=
  ⟨by decide, by decide, by decide,
    let ⟨st, h1, h2, _⟩ := greedyLoop_round_earliest_max gridTopology
      ({ sampleNode 0 ⟨0, 0, 0⟩ 100 0 with
        neighbors := [1, 4], twoHopNeighbors := [2, 3] } : Node ℚ) (by decide) 1 [] [2, 3]
      (by decide)
    ⟨st, h1, h2⟩⟩

/-- C27: on a node list whose neighbor indices are in range `selectMPRs` terminates:
it returns for every fuel that is at least the length of the longest 2-hop list, and
more fuel does not change a loop's result; each iteration of the greedy loop either
stops, when no unselected neighbor covers an uncovered index, or strictly decreases
the number of uncovered indices; so the loop appends at most as many neighbors as
there are uncovered indices, which is at most the number of 2-hop entries of the
node. -/
theorem selectMPRs_terminates (nodes : List (Node α))
    (hv : ∀ n ∈ nodes, ∀ k ∈ n.neighbors, k < nodes.length) :
    (∀ fuel, (∀ n ∈ nodes, n.twoHopNeighbors.length ≤ fuel) →
      ∃ result, selectMPRs fuel nodes = Except.ok result) ∧
    (∀ node ∈ nodes, ∀ (mprs uncovered : List Nat), uncovered ≠ [] →
      ∃ st, findBestNeighbor nodes node mprs uncovered = Except.ok st ∧
        (st.1 = none → ∀ fuel, greedyLoop nodes node (fuel + 1) mprs uncovered =
          Except.ok mprs) ∧
        ∀ b, st.1 = some b → ∃ nb, nodes[b]? = some nb ∧
          (nb.neighbors.foldl setDelete uncovered).length < uncovered.length ∧
          ∀ fuel, greedyLoop nodes node (fuel + 1) mprs uncovered =
            greedyLoop nodes node fuel (mprs ++ [b])
              (nb.neighbors.foldl setDelete uncovered)) ∧
    (∀ node ∈ nodes, ∀ (fuel : Nat) (mprs uncovered : List Nat), uncovered.length ≤ fuel →
      (∃ added, greedyLoop nodes node fuel mprs uncovered = Except.ok (mprs ++ added) ∧
        added.length ≤ uncovered.length) ∧
      greedyLoop nodes node fuel mprs uncovered =
        greedyLoop nodes node uncovered.length mprs uncovered) ∧
    (∀ node ∈ nodes, ∀ reachMap : List (Nat × List Nat),
      (forcedStep reachMap (setOfArray node.twoHopNeighbors)).2.length ≤
        node.twoHopNeighbors.length) := by
  refine ⟨fun fuel hf => ?_, fun node hn mprs uncovered hu => ?_,
    fun node hn fuel mprs uncovered hf => ?_, fun node _ reachMap => ?_⟩
  · obtain ⟨result, hres, -⟩ := selectMPRs_spec fuel nodes hv hf
    exact ⟨result, hres⟩
  · obtain ⟨st, hst, hsome, -⟩ := findBestNeighbor_spec nodes node mprs uncovered (hv node hn)
    refine ⟨st, hst, fun hb fuel =>
      greedyLoop_succ_of_none nodes node fuel mprs uncovered st hu hst hb, fun b hb => ?_⟩
    obtain ⟨-, -, nb, hnb, hcov, hpos⟩ := hsome b hb
    exact ⟨nb, hnb, length_foldl_setDelete_lt nb uncovered (by rw [hcov]; exact hpos),
      fun fuel => greedyLoop_succ_of_some nodes node fuel mprs uncovered st b nb hu hst hb hnb⟩
  · exact ⟨greedyLoop_appends nodes node (hv node hn) fuel mprs uncovered hf,
      greedyLoop_fuel_irrelevant nodes node (hv node hn) fuel uncovered.length mprs uncovered
        hf (le_refl _)⟩
  · obtain ⟨-, -, h3, -⟩ := forcedStep_fold_spec reachMap ([], setOfArray node.twoHopNeighbors)
    exact le_trans h3 (length_setOfArray_le _)

theorem selectMPRs_terminates_witness :
    (∀ n ∈ gridTopology, ∀ k ∈ n.neighbors, k < gridTopology.length) ∧
      (∀ n ∈ gridTopology, n.twoHopNeighbors.length ≤ 2) ∧
      ∃ result, selectMPRs 2 gridTopology = Except.ok result :=
  ⟨by decide, by decide, (selectMPRs_terminates gridTopology (by decide)).1 2 (by decide)⟩

end GreedyClaims

section EvaluationClaims

/-- C25: on `crossField` at range 100 node 1 is forced into the MPR list of node 0 as
the only reacher of 2-hop neighbor 3; it also reaches 2-hop neighbor 4, but the forced
step deletes only index 3, so 4 stays uncovered and the greedy loop then adds node 2,
which reaches no 2-hop neighbor of node 0 that the forced MPR 1 does not reach. -/
theorem selectMPRs_forced_keeps_reached_uncovered :
    calculateNeighbors sqrtQ crossField 100 = Except.ok crossTopology ∧
      crossTopology[0]? = some crossSource ∧
      buildReachMap crossTopology 0 crossSource = Except.ok [(3, [1]), (4, [1, 2])] ∧
      forcedStep [(3, [1]), (4, [1, 2])] (setOfArray crossSource.twoHopNeighbors) =
        ([1], [4]) ∧
      greedyLoop crossTopology crossSource 5 [1] [4] = Except.ok [1, 2] ∧
      selectMPRsFor 5 crossTopology 0 crossSource = Except.ok [1, 2] ∧
      (selectMPRs 5 crossTopology).map (fun l => l.map (fun n => n.mprs)) =
        Except.ok [[1, 2], [0], [0], [1, 1], [1, 2]] ∧
      (crossTopology[1]?.map (fun n => n.neighbors)) = some [0, 3, 4] ∧
      (crossTopology[2]?.map (fun n => n.neighbors)) = some [0, 4] ∧
      ∀ t ∈ crossSource.twoHopNeighbors, t ∈ [0, 4] → t ∈ [0, 3, 4] := by
  refine ⟨by with_unfolding_all decide, by with_unfolding_all decide, by decide, by decide,
    by decide, by decide, by decide, by decide, by decide, by decide⟩

/-- C28: under VBF the source at (100, 0, 0), 100 units from the sink, gets the
candidate at (96, 40, 0) as next hop, although that candidate is 104 units from the
sink; HHVBF, which compares the two distances, returns nothing. -/
theorem selectNextHopNodes_VBF_returns_farther :
    (selectNextHopNodes sqrtQ pipeSource [pipeSource, pipeCandidate] "VBF").map
        (fun n => n.id) = [1] ∧
      pipeSource.position ≠ sinkPosition ∧
      calculateDistance sqrtQ pipeSource.position sinkPosition <
        calculateDistance sqrtQ pipeCandidate.position sinkPosition ∧
      calculateDistance sqrtQ pipeSource.position sinkPosition - 100 = 0 ∧
      calculateDistance sqrtQ pipeCandidate.position sinkPosition - 104 = 0 ∧
      (selectNextHopNodes sqrtQ pipeSource [pipeSource, pipeCandidate] "HHVBF").map
        (fun n => n.id) = [] := by
  refine ⟨by with_unfolding_all decide, by with_unfolding_all decide,
    by with_unfolding_all decide, by with_unfolding_all decide, by with_unfolding_all decide,
    by with_unfolding_all decide⟩

/-- C29: on `forkField` at range 100 node 1 alone reaches both 2-hop neighbors 2 and 3
of node 0, the forced step pushes it once for each of them, and `selectMPRs` assigns
node 0 the list `[1, 1]`. -/
theorem selectMPRs_mprs_duplicate :
    calculateNeighbors sqrtQ forkField 100 = Except.ok forkTopology ∧
      buildReachMap forkTopology 0
        { sampleNode 0 ⟨0, 0, 0⟩ 100 0 with neighbors := [1], twoHopNeighbors := [2, 3] } =
          Except.ok [(2, [1]), (3, [1])] ∧
      forcedStep [(2, [1]), (3, [1])] (setOfArray [2, 3]) = ([1, 1], []) ∧
      (selectMPRs 5 forkTopology).map (fun l => l.map (fun n => n.mprs)) =
        Except.ok [[1, 1], [], [1, 1], [1, 1]] ∧
      ¬ ([1, 1] : List Nat).Nodup := by
  refine ⟨by with_unfolding_all decide, by decide, by decide, by decide, by decide⟩

end EvaluationClaims

section EfficiencyLemmas
variable {α : Type} [LinearOrderedField α]

theorem protocolEfficiency_bounds (routingProtocol : String)
    (hp : routingProtocol ∉ objectPrototypeKeys) :
    ∃ efficiency : α, protocolEfficiency routingProtocol = some efficiency ∧
      0 < efficiency ∧ efficiency ≤ 0.8 := by
  unfold protocolEfficiency
  split
  · exact ⟨_, rfl, by norm_num, by norm_num⟩
  · exact ⟨_, rfl, by norm_num, by norm_num⟩
  · exact ⟨_, rfl, by norm_num, by norm_num⟩
  · exact ⟨_, rfl, by norm_num, by norm_num⟩
  · exact ⟨_, rfl, by norm_num, by norm_num⟩
  · rw [if_neg hp]
    exact ⟨_, rfl, by norm_num, by norm_num⟩

end EfficiencyLemmas

section StatisticsLemmas
variable {α : Type} [LinearOrderedField α] [FloorRing α]

theorem sentIncrement_bounds (r : α) (h0 : 0 ≤ r) (h1 : r < 1) :
    1 ≤ sentIncrement r ∧ sentIncrement r ≤ 3 := by
  unfold sentIncrement
  constructor
  · apply Int.le_floor.2
    push_cast
    linarith
  · have h : ⌊r * 3 + 1⌋ < 4 := by
      apply Int.floor_lt.2
      push_cast
      linarith
    omega

theorem receivedIncrement_bounds (routingProtocol : String) (sent : Int) (r : α)
    (hp : routingProtocol ∉ objectPrototypeKeys) (hs : 1 ≤ sent) (h0 : 0 ≤ r) (h1 : r < 1) :
    ∃ increment, receivedIncrement routingProtocol sent r = some increment ∧
      0 ≤ increment ∧ increment < sent := by
  have hb : ∃ efficiency : α, protocolEfficiency routingProtocol = some efficiency ∧
      0 < efficiency ∧ efficiency ≤ 0.8 := protocolEfficiency_bounds routingProtocol hp
  obtain ⟨efficiency, he, he0, he1⟩ := hb
  have hsα : (1 : α) ≤ (sent : α) := by exact_mod_cast hs
  have hf0 : (0 : α) < 0.9 + r * 0.2 := by linarith
  have hf1 : (0.9 : α) + r * 0.2 < 1.1 := by linarith
  have hprod : efficiency * (0.9 + r * 0.2) < (1 : α) := by
    calc efficiency * (0.9 + r * 0.2)
        ≤ 0.8 * (0.9 + r * 0.2) := mul_le_mul_of_nonneg_right he1 hf0.le
      _ < 0.8 * 1.1 := by linarith
      _ < 1 := by norm_num
  refine ⟨⌊(sent : α) * efficiency * (0.9 + r * 0.2)⌋, ?_, ?_, ?_⟩
  · unfold receivedIncrement
    rw [he]
    rfl
  · apply Int.le_floor.2
    push_cast
    exact mul_nonneg (mul_nonneg (by linarith) he0.le) hf0.le
  · apply Int.floor_lt.2
    rw [mul_assoc]
    calc (sent : α) * (efficiency * (0.9 + r * 0.2))
        < (sent : α) * 1 := mul_lt_mul_of_pos_left hprod (by linarith)
      _ = (sent : α) := mul_one _

theorem statisticsRun_inv (ticks : List (String × α × α))
    (hd : ∀ t ∈ ticks, t.1 ∉ objectPrototypeKeys ∧
      0 ≤ t.2.1 ∧ t.2.1 < 1 ∧ 0 ≤ t.2.2 ∧ t.2.2 < 1)
    (stats : PacketStats)
    (h : ∃ received, stats.packetsReceived = some received ∧ 0 ≤ received ∧
      received ≤ stats.packetsSent) :
    ∃ received, (statisticsRun ticks stats).packetsReceived = some received ∧
      0 ≤ received ∧ received ≤ (statisticsRun ticks stats).packetsSent := by
  induction ticks generalizing stats with
  | nil => exact h
  | cons t rest ih =>
    obtain ⟨hp, a0, a1, b0, b1⟩ := hd t (List.mem_cons_self _ _)
    obtain ⟨s1, -⟩ := sentIncrement_bounds t.2.1 a0 a1
    obtain ⟨increment, hinc, r0, r1⟩ :=
      receivedIncrement_bounds t.1 (sentIncrement t.2.1) t.2.2 hp s1 b0 b1
    obtain ⟨received, hrec, hr0, hr1⟩ := h
    apply ih (fun u hu => hd u (List.mem_cons_of_mem _ hu))
      (statisticsTick t.1 t.2.1 t.2.2 stats)
    refine ⟨received + increment, ?_, by omega, ?_⟩
    · simp only [statisticsTick, hrec, hinc]
    · simp only [statisticsTick]
      omega

end StatisticsLemmas

section StatisticsClaims
variable {α : Type} [LinearOrderedField α] [FloorRing α]

/-- C30 (as stated, refuted): for the protocol value `constructor` the lookup
`protocolEfficiency[routingProtocol]` gives a function inherited from
`Object.prototype`; with both draws 1/2 the tick adds 2 to `packetsSent`, the increment
of `packetsReceived` is `NaN`, not a number from 0 up to 1, and `packetsReceived` and
the displayed percentage are `NaN` after the tick. -/
theorem statisticsTick_inherited_key_nan :
    "constructor" ∈ objectPrototypeKeys ∧
      (protocolEfficiency "constructor" : Option ℚ) = none ∧
      sentIncrement (1 / 2 : ℚ) = 2 ∧
      receivedIncrement "constructor" (sentIncrement (1 / 2 : ℚ)) (1 / 2 : ℚ) = none ∧
      (statisticsTick "constructor" (1 / 2 : ℚ) (1 / 2) initialStats).packetsSent = 2 ∧
      (statisticsTick "constructor" (1 / 2 : ℚ) (1 / 2) initialStats).packetsReceived =
        none ∧
      deliveryRatioPercent ℚ (statisticsTick "constructor" (1 / 2 : ℚ) (1 / 2) initialStats) =
        none := by
  refine ⟨by decide, by decide, by with_unfolding_all decide, by decide,
    by with_unfolding_all decide, by decide, by with_unfolding_all decide⟩

/-- C30 (amended): for every protocol value that is not a property name inherited from
`Object.prototype`, the five selectable protocols among them, and draws in [0,1), the
increment of `packetsSent` is 1, 2 or 3 and the increment of `packetsReceived` is a
number that is non-negative and strictly smaller; so after any run of such ticks from
the counters of a start or reset, `packetsReceived` is a number with
`0 ≤ packetsReceived ≤ packetsSent`, the delivery ratio lies in [0,1] and the displayed
percentage is at most 100. -/
theorem statisticsTick_received_le_sent (routingProtocol : String) (random1 random2 : α)
    (hp : routingProtocol ∉ objectPrototypeKeys)
    (h1 : 0 ≤ random1 ∧ random1 < 1) (h2 : 0 ≤ random2 ∧ random2 < 1) :
    (∀ name ∈ ["VBF", "HHVBF", "DBR", "EEDBR", "OLSR"], name ∉ objectPrototypeKeys) ∧
    sentIncrement random1 ∈ ([1, 2, 3] : List Int) ∧
    (∃ increment,
      receivedIncrement routingProtocol (sentIncrement random1) random2 = some increment ∧
      0 ≤ increment ∧ increment < sentIncrement random1) ∧
    (∃ received,
      (statisticsTick routingProtocol random1 random2 initialStats).packetsReceived =
        some received ∧
      received < (statisticsTick routingProtocol random1 random2 initialStats).packetsSent) ∧
    ∀ ticks : List (String × α × α),
      (∀ t ∈ ticks, t.1 ∉ objectPrototypeKeys ∧
        0 ≤ t.2.1 ∧ t.2.1 < 1 ∧ 0 ≤ t.2.2 ∧ t.2.2 < 1) →
      (∃ received, (statisticsRun ticks initialStats).packetsReceived = some received ∧
        0 ≤ received ∧ received ≤ (statisticsRun ticks initialStats).packetsSent) ∧
      (∃ ratio : α, deliveryRatio (statisticsRun ticks initialStats) = some ratio ∧
        0 ≤ ratio ∧ ratio ≤ 1) ∧
      (∃ percent, deliveryRatioPercent α (statisticsRun ticks initialStats) = some percent ∧
        percent ≤ 100) := by
  obtain ⟨s1, s3⟩ := sentIncrement_bounds random1 h1.1 h1.2
  obtain ⟨increment, hinc, r0, r1⟩ :=
    receivedIncrement_bounds routingProtocol (sentIncrement random1) random2 hp s1 h2.1 h2.2
  refine ⟨by decide, ?_, ⟨increment, hinc, r0, r1⟩, ⟨0 + increment, ?_, ?_⟩,
    fun ticks hd => ?_⟩
  · simp only [List.mem_cons, List.mem_singleton, List.not_mem_nil, or_false]
    omega
  · simp only [statisticsTick, initialStats, hinc]
  · simp only [statisticsTick, initialStats]
    omega
  · obtain ⟨received, hrec, hr, hle⟩ := statisticsRun_inv ticks hd initialStats
      ⟨0, rfl, le_refl _, le_refl _⟩
    refine ⟨⟨received, hrec, hr, hle⟩, ?_, ?_⟩
    · unfold deliveryRatio
      split
      · rename_i hpos
        have hs : (0 : α) < ((statisticsRun ticks initialStats).packetsSent : α) := by
          exact_mod_cast hpos
        refine ⟨_, by rw [hrec]; rfl, div_nonneg (by exact_mod_cast hr) hs.le, ?_⟩
        rw [div_le_one hs]
        exact_mod_cast hle
      · exact ⟨0, rfl, le_refl _, zero_le_one⟩
    · unfold deliveryRatioPercent
      split
      · rename_i hpos
        have hs : (0 : α) < ((statisticsRun ticks initialStats).packetsSent : α) := by
          exact_mod_cast hpos
        have hq : (received : α) /
            ((statisticsRun ticks initialStats).packetsSent : α) ≤ 1 := by
          rw [div_le_one hs]
          exact_mod_cast hle
        refine ⟨⌊(received : α) /
          ((statisticsRun ticks initialStats).packetsSent : α) * 100 + 0.5⌋,
          by rw [hrec]; rfl, ?_⟩
        have hlt : ⌊(received : α) /
            ((statisticsRun ticks initialStats).packetsSent : α) * 100 + 0.5⌋ < 101 := by
          apply Int.floor_lt.2
          push_cast
          have h5 : (0.5 : α) < 1 := by norm_num
          linarith
        omega
      · exact ⟨0, rfl, by norm_num⟩

theorem statisticsTick_received_le_sent_witness :
    "EEDBR" ∉ objectPrototypeKeys ∧ ((0 : ℚ) ≤ 1 / 2 ∧ (1 / 2 : ℚ) < 1) ∧
      sentIncrement (1 / 2 : ℚ) ∈ ([1, 2, 3] : List Int) ∧
      ∃ increment,
        receivedIncrement "EEDBR" (sentIncrement (1 / 2 : ℚ)) (1 / 2 : ℚ) = some increment ∧
        0 ≤ increment ∧ increment < sentIncrement (1 / 2 : ℚ) :=
  have h := statisticsTick_received_le_sent "EEDBR" (1 / 2 : ℚ) (1 / 2 : ℚ)
    (by decide) (by norm_num) (by norm_num)
  ⟨by decide, by norm_num, h.2.1, h.2.2.1⟩

end StatisticsClaims

end UWSN
